import Mathlib

/-! eot-utils: the EOT header codec of `mkeot.c` and `eotinfo.c`

A shallow embedding of the two C programs.

* An `unsigned char` is a `Byte` (`Fin 256`).
* An `unsigned short` is a `Nat` below `2^16` and an `int` has 32 bits. An `unsigned long`
  has 64 bits: `read_ulong` and `read_4be` form their value in `int` and store it in an
  `unsigned long`, which repeats bit 31 in the upper 32 bits (`int_to_ulong`). The sums that
  the writer keeps in an `unsigned long` (EOTSize, the checksum) are reduced modulo `2^32`,
  the part of them that `write_4le` emits; other stores that can exceed the width of their
  variable are reduced with an explicit `%`.
* A `FILE *` that is read sequentially is the list of bytes not yet consumed; a reading
  function is a `Parser`, which returns `none` where the C function returns `false`.
* Output written to a `FILE *` is the list of bytes emitted; writes are taken to succeed.
* `malloc` and `realloc` are taken to succeed (and to return a non-null pointer for size 0).
* Positions in the font file stay below 2^31: `fseek` refuses an offset of 2^31 or more (the
  offsets come from `read_4be`, and one with bit 31 set is negative as a `long`) and `ftell`
  fails at a position of 2^31 or more.
-/

namespace EOT

/-- One `unsigned char`. -/
abbrev Byte := Fin 256

/-- Conversion of an integer value to `unsigned char` (reduction modulo 256). -/
def toByte (n : Nat) : Byte := ⟨n % 256, Nat.mod_lt _ (by decide)⟩

/-- A sequential reader of a byte stream: `none` is failure (`return false`), otherwise the
value read and the bytes that remain unread. -/
def Parser (α : Type) : Type := List Byte → Option (α × List Byte)

/-- The reader that consumes nothing and returns `a`. -/
def Parser.pure {α : Type} (a : α) : Parser α := fun f => some (a, f)

/-- Sequencing of two readers; failure of the first is failure of the whole. -/
def Parser.bind {α β : Type} (p : Parser α) (q : α → Parser β) : Parser β := fun f =>
  match p f with
  | none => none
  | some (a, r) => q a r

/-- The reader that fails (`return false`). -/
def Parser.fail {α : Type} : Parser α := fun _ => none

instance : Monad Parser where
  pure := Parser.pure
  bind := Parser.bind

/-- The statement `if (c) return false;`. -/
def failIf (c : Prop) [Decidable c] : Parser Unit :=
  if c then Parser.fail else Parser.pure ()

/-- `fread(buf, 1, n, f) == n`: read exactly `n` bytes, fail on a short read. -/
def fread (n : Nat) : Parser (List Byte) := fun f =>
  if n ≤ f.length then some (f.take n, f.drop n) else none

/-- `read_1` (mkeot.c) and `fread(&x, 1, 1, f)`: read one byte. -/
def read_1 : Parser Byte
  | x :: f => some (x, f)
  | [] => none

/-! ## eotinfo.c: little-endian readers -/

/-- The assignment `*x = e` of an `int` expression `e` to an `unsigned long`, as both programs
do it with the four bytes they read: `v` is the 32-bit pattern of `e` (a shift into the sign
bit is taken to set it); below 2^31 it is the value of `e`, from 2^31 on `e` is the negative
number `v - 2^32`, which the conversion to the 64-bit `unsigned long` turns into
`v - 2^32 + 2^64`. -/
def int_to_ulong (v : Nat) : Nat :=
  if v < 2 ^ 31 then v else v + (2 ^ 64 - 2 ^ 32)

/-- `read_ulong` (eotinfo.c): read a little endian unsigned long. The bytes are promoted to
`int`, so the sum is an `int`, and it is stored in the `unsigned long` by `int_to_ulong`. -/
def read_ulong : Parser Nat
  | s0 :: s1 :: s2 :: s3 :: f =>
    some (int_to_ulong ((s3.val <<< 24) + (s2.val <<< 16) + (s1.val <<< 8) + s0.val), f)
  | _ => none

/-- `read_ushort` (eotinfo.c): read a little endian unsigned short. -/
def read_ushort : Parser Nat
  | s0 :: s1 :: f => some (((s1.val <<< 8) + s0.val) % 2 ^ 16, f)
  | _ => none

/-! ## mkeot.c: little-endian writers -/

/-- `write_4le` (mkeot.c): the four bytes of a little endian unsigned long. -/
def write_4le (x : Nat) : List Byte :=
  [toByte (x &&& 0x000000ff), toByte ((x &&& 0x0000ff00) >>> 8),
   toByte ((x &&& 0x00ff0000) >>> 16), toByte (x >>> 24)]

/-- `write_2le` (mkeot.c): the two bytes of a little endian unsigned short. -/
def write_2le (x : Nat) : List Byte :=
  [toByte (x &&& 0x00ff), toByte (x >>> 8)]

/-- `write_1` (mkeot.c): one byte. -/
def write_1 (x : Byte) : List Byte := [x]

/-- `fwrite(buf, 1, n, f)`: the first `n` bytes of the buffer. -/
def fwrite (buf : List Byte) (n : Nat) : List Byte := buf.take n

/-! ## The EOT header (the same struct in both programs) -/

/-- `EOT_header` (mkeot.c) and `EOT_Header` (eotinfo.c). A buffer field is the list of bytes
its pointer addresses (`NULL` is the empty list). -/
structure EOT_header where
  EOTSize : Nat
  FontDataSize : Nat
  Version : Nat
  Flags : Nat
  FontPANOSE : List Byte
  Charset : Byte
  Italic : Byte
  Weight : Nat
  fsType : Nat
  MagicNumber : Nat
  UnicodeRange1 : Nat
  UnicodeRange2 : Nat
  UnicodeRange3 : Nat
  UnicodeRange4 : Nat
  CodePageRange1 : Nat
  CodePageRange2 : Nat
  CheckSumAdjustment : Nat
  Reserved1 : Nat
  Reserved2 : Nat
  Reserved3 : Nat
  Reserved4 : Nat
  Padding1 : Nat
  FamilyNameSize : Nat
  FamilyName : List Byte
  Padding2 : Nat
  StyleNameSize : Nat
  StyleName : List Byte
  Padding3 : Nat
  VersionNameSize : Nat
  VersionName : List Byte
  Padding4 : Nat
  FullNameSize : Nat
  FullName : List Byte
  Padding5 : Nat
  RootStringSize : Nat
  RootString : List Byte
  RootStringCheckSum : Nat
  EUDCCodePage : Nat
  Padding6 : Nat
  SignatureSize : Nat
  Signature : List Byte
  EUDCFlags : Nat
  EUDCFontSize : Nat
  EUDCFontData : List Byte
  deriving DecidableEq

/-- `read_EOT_header` (eotinfo.c): read the header part of an EOT file. `h` is the caller's
struct, whose fields keep their previous contents where the function does not assign them.
In the `0x00020002` case the statements after the first `break` (the reads of
RootStringCheckSum .. EUDCFontData) are never executed, so they do not appear. -/
def read_EOT_header (h : EOT_header) : Parser EOT_header := do
  let EOTSize ← read_ulong
  let FontDataSize ← read_ulong
  let Version ← read_ulong
  let Flags ← read_ulong
  let FontPANOSE ← fread 10
  let Charset ← read_1
  let Italic ← read_1
  let Weight ← read_ulong
  let fsType ← read_ushort
  let MagicNumber ← read_ushort
  failIf (MagicNumber ≠ 0x504C)
  let UnicodeRange1 ← read_ulong
  let UnicodeRange2 ← read_ulong
  let UnicodeRange3 ← read_ulong
  let UnicodeRange4 ← read_ulong
  let CodePageRange1 ← read_ulong
  let CodePageRange2 ← read_ulong
  let CheckSumAdjustment ← read_ulong
  let Reserved1 ← read_ulong
  failIf (Reserved1 ≠ 0)
  let Reserved2 ← read_ulong
  failIf (Reserved2 ≠ 0)
  let Reserved3 ← read_ulong
  failIf (Reserved3 ≠ 0)
  let Reserved4 ← read_ulong
  failIf (Reserved4 ≠ 0)
  let Padding1 ← read_ushort
  failIf (Padding1 ≠ 0)
  let FamilyNameSize ← read_ushort
  let FamilyName ← fread FamilyNameSize
  let Padding2 ← read_ushort
  failIf (Padding2 ≠ 0)
  let StyleNameSize ← read_ushort
  let StyleName ← fread StyleNameSize
  let Padding3 ← read_ushort
  failIf (Padding3 ≠ 0)
  let VersionNameSize ← read_ushort
  let VersionName ← fread VersionNameSize
  let Padding4 ← read_ushort
  failIf (Padding4 ≠ 0)
  let FullNameSize ← read_ushort
  let FullName ← fread FullNameSize
  let h1 : EOT_header :=
    { h with
      EOTSize := EOTSize, FontDataSize := FontDataSize, Version := Version, Flags := Flags,
      FontPANOSE := FontPANOSE, Charset := Charset, Italic := Italic, Weight := Weight,
      fsType := fsType, MagicNumber := MagicNumber,
      UnicodeRange1 := UnicodeRange1, UnicodeRange2 := UnicodeRange2,
      UnicodeRange3 := UnicodeRange3, UnicodeRange4 := UnicodeRange4,
      CodePageRange1 := CodePageRange1, CodePageRange2 := CodePageRange2,
      CheckSumAdjustment := CheckSumAdjustment,
      Reserved1 := Reserved1, Reserved2 := Reserved2, Reserved3 := Reserved3,
      Reserved4 := Reserved4,
      Padding1 := Padding1, FamilyNameSize := FamilyNameSize, FamilyName := FamilyName,
      Padding2 := Padding2, StyleNameSize := StyleNameSize, StyleName := StyleName,
      Padding3 := Padding3, VersionNameSize := VersionNameSize, VersionName := VersionName,
      Padding4 := Padding4, FullNameSize := FullNameSize, FullName := FullName }
  if Version = 0x0001000 then
    pure h1
  else if Version = 0x00020001 then do
    let Padding5 ← read_ushort
    failIf (Padding5 ≠ 0)
    let RootStringSize ← read_ushort
    let RootString ← fread RootStringSize
    pure { h1 with Padding5 := Padding5, RootStringSize := RootStringSize,
                   RootString := RootString }
  else if Version = 0x00020002 then do
    let Padding5 ← read_ushort
    failIf (Padding5 ≠ 0)
    let RootStringSize ← read_ushort
    let RootString ← fread RootStringSize
    pure { h1 with Padding5 := Padding5, RootStringSize := RootStringSize,
                   RootString := RootString }
  else Parser.fail

/-- The first `if` of `write_EOT_header` (mkeot.c): the fields up to and including FullName. -/
def write_EOT_header_fixed (h : EOT_header) : List Byte :=
  write_4le h.EOTSize ++
  write_4le h.FontDataSize ++
  write_4le h.Version ++
  write_4le h.Flags ++
  fwrite h.FontPANOSE 10 ++
  write_1 h.Charset ++
  write_1 h.Italic ++
  write_4le h.Weight ++
  write_2le h.fsType ++
  write_2le h.MagicNumber ++
  write_4le h.UnicodeRange1 ++
  write_4le h.UnicodeRange2 ++
  write_4le h.UnicodeRange3 ++
  write_4le h.UnicodeRange4 ++
  write_4le h.CodePageRange1 ++
  write_4le h.CodePageRange2 ++
  write_4le h.CheckSumAdjustment ++
  write_4le h.Reserved1 ++
  write_4le h.Reserved2 ++
  write_4le h.Reserved3 ++
  write_4le h.Reserved4 ++
  write_2le h.Padding1 ++
  write_2le h.FamilyNameSize ++
  fwrite h.FamilyName h.FamilyNameSize ++
  write_2le h.Padding2 ++
  write_2le h.StyleNameSize ++
  fwrite h.StyleName h.StyleNameSize ++
  write_2le h.Padding3 ++
  write_2le h.VersionNameSize ++
  fwrite h.VersionName h.VersionNameSize ++
  write_2le h.Padding4 ++
  write_2le h.FullNameSize ++
  fwrite h.FullName h.FullNameSize

/-- `write_EOT_header` (mkeot.c): the bytes written for header `h`, all writes succeeding;
`none` is the failed assertion of the `default` case. -/
def write_EOT_header (h : EOT_header) : Option (List Byte) :=
  if h.Version = 0x0001000 then
    some (write_EOT_header_fixed h)
  else if h.Version = 0x00020001 then
    some (write_EOT_header_fixed h ++
      (write_2le h.Padding5 ++
       write_2le h.RootStringSize ++
       fwrite h.RootString h.RootStringSize))
  else if h.Version = 0x00020002 then
    some (write_EOT_header_fixed h ++
      (write_2le h.Padding5 ++
       write_2le h.RootStringSize ++
       fwrite h.RootString h.RootStringSize ++
       write_4le h.RootStringCheckSum ++
       write_4le h.EUDCCodePage ++
       write_2le h.Padding6 ++
       write_2le h.SignatureSize ++
       fwrite h.Signature h.SignatureSize ++
       write_4le h.EUDCFlags ++
       write_4le h.EUDCFontSize ++
       fwrite h.EUDCFontData h.EUDCFontSize))
  else none

/-- `initialize_EOT_header` (mkeot.c): fill an EOT struct with consistent values. -/
def initialize_EOT_header : EOT_header :=
  { EOTSize := 120, FontDataSize := 0, Version := 0x00020002, Flags := 0,
    FontPANOSE := List.replicate 10 0, Charset := 0, Italic := 0, Weight := 400,
    fsType := 0x0, MagicNumber := 0x504C,
    UnicodeRange1 := 0, UnicodeRange2 := 0, UnicodeRange3 := 0, UnicodeRange4 := 0,
    CodePageRange1 := 0, CodePageRange2 := 0, CheckSumAdjustment := 0,
    Reserved1 := 0, Reserved2 := 0, Reserved3 := 0, Reserved4 := 0,
    Padding1 := 0, FamilyNameSize := 0, FamilyName := [],
    Padding2 := 0, StyleNameSize := 0, StyleName := [],
    Padding3 := 0, VersionNameSize := 0, VersionName := [],
    Padding4 := 0, FullNameSize := 0, FullName := [],
    Padding5 := 0, RootStringSize := 0, RootString := [],
    RootStringCheckSum := 0, EUDCCodePage := 0,
    Padding6 := 0, SignatureSize := 0, Signature := [],
    EUDCFlags := 0, EUDCFontSize := 0, EUDCFontData := [] }

/-! ## mkeot.c: big-endian readers and random access to the font file -/

/-- `read_8be` (mkeot.c): read a big endian unsigned 64-bit number. -/
def read_8be : Parser Nat
  | s0 :: s1 :: s2 :: s3 :: s4 :: s5 :: s6 :: s7 :: f =>
    some ((s0.val <<< 56) ||| (s1.val <<< 48) ||| (s2.val <<< 40) ||| (s3.val <<< 32) |||
          (s4.val <<< 24) ||| (s5.val <<< 16) ||| (s6.val <<< 8) ||| s7.val, f)
  | _ => none

/-- `read_4be` (mkeot.c): read a big endian unsigned long. Unlike `read_8be` it has no cast on
the bytes: they are promoted to `int`, and the `int` result is stored in the `unsigned long`
by `int_to_ulong`. -/
def read_4be : Parser Nat
  | s0 :: s1 :: s2 :: s3 :: f =>
    some (int_to_ulong ((s0.val <<< 24) ||| (s1.val <<< 16) ||| (s2.val <<< 8) ||| s3.val), f)
  | _ => none

/-- `read_2be` (mkeot.c): read a big endian unsigned short. -/
def read_2be : Parser Nat
  | s0 :: s1 :: f => some (((s0.val <<< 8) + s1.val) % 2 ^ 16, f)
  | _ => none

/-- `read_2be_signed` (mkeot.c): read a big endian short (the unsigned value reinterpreted
as two's complement through the union). -/
def read_2be_signed : Parser Int
  | s0 :: s1 :: f =>
    let u : Nat := ((s0.val <<< 8) + s1.val) % 2 ^ 16
    some (if u < 2 ^ 15 then (u : Int) else (u : Int) - 2 ^ 16, f)
  | _ => none

/-- `rewind(f)` on the font file whose contents are `file`. -/
def rewind (file : List Byte) : Parser Unit := fun _ => some ((), file)

/-- `fseek(f, off, SEEK_SET) == 0` on the font file: the offset is converted to a `long`,
and a negative offset is refused (an offset that `read_4be` returns is below 2^31 or, with
bit 31 set, negative as a `long`); seeking past the end is allowed (the next read fails). -/
def fseek_set (file : List Byte) (off : Nat) : Parser Unit := fun _ =>
  if off < 2 ^ 31 then some ((), file.drop off) else none

/-- `fseek(f, 0, SEEK_END) == 0` on the font file. -/
def fseek_end (_file : List Byte) : Parser Unit := fun _ => some ((), [])

/-- `ftell(f)` on the font file: the number of bytes before the current position. -/
def ftell (file : List Byte) : Parser Nat := fun f => some (file.length - f.length, f)

/-! ## mkeot.c: the sfnt structures -/

/-- `sfnt_table_record` (mkeot.c). -/
structure sfnt_table_record where
  tag : List Byte
  checkSum : Nat
  offset : Nat
  length : Nat
  deriving DecidableEq

/-- `sfnt_offset_table` (mkeot.c). -/
structure sfnt_offset_table where
  sfnt_version : Nat
  numTables : Nat
  searchRange : Nat
  entrySelector : Nat
  rangeShift : Nat
  tables : List sfnt_table_record
  deriving DecidableEq

/-- `OS2_table` (mkeot.c). -/
structure OS2_table where
  version : Nat
  xAvgCharWidth : Int
  usWeightClass : Nat
  usWidthClass : Nat
  fsType : Nat
  ySubscriptXSize : Int
  ySubscriptYSize : Int
  ySubscriptXOffset : Int
  ySubscriptYOffset : Int
  ySuperscriptXSize : Int
  ySuperscriptYSize : Int
  ySuperscriptXOffset : Int
  ySuperscriptYOffset : Int
  yStrikeoutSize : Int
  yStrikeoutPosition : Int
  sFamilyClass : Int
  panose : List Byte
  ulUnicodeRange1 : Nat
  ulUnicodeRange2 : Nat
  ulUnicodeRange3 : Nat
  ulUnicodeRange4 : Nat
  achVendID : List Byte
  fsSelection : Nat
  usFirstCharIndex : Nat
  usLastCharIndex : Nat
  sTypoAscender : Int
  sTypoDescender : Int
  sTypoLineGap : Int
  usWinAscent : Nat
  usWinDescent : Nat
  ulCodePageRange1 : Nat
  ulCodePageRange2 : Nat
  sxHeight : Int
  sCapHeight : Int
  usDefaultChar : Nat
  usBreakChar : Nat
  usMaxContext : Nat
  deriving DecidableEq

/-- `LangTagRecord` (mkeot.c). -/
structure LangTagRecord where
  length : Nat
  offset : Nat
  deriving DecidableEq

/-- `NameRecord` (mkeot.c). -/
structure NameRecord where
  platformID : Nat
  encodingID : Nat
  languageID : Nat
  nameID : Nat
  length : Nat
  offset : Nat
  deriving DecidableEq

/-- `Name_table` (mkeot.c). `names` holds one buffer per name record; `langtags` is never
assigned by the program and is left out. -/
structure Name_table where
  format : Nat
  count : Nat
  stringOffset : Nat
  nameRecord : List NameRecord
  langTagCount : Nat
  langTagRecord : List LangTagRecord
  names : List (List Byte)
  deriving DecidableEq

/-- `Head_table` (mkeot.c). -/
structure Head_table where
  Table_version_number : Nat
  fontRevision : Nat
  checkSumAdjustment : Nat
  magicNumber : Nat
  flags : Nat
  unitsPerEm : Nat
  created : Nat
  modified : Nat
  xMin : Int
  yMin : Int
  xMax : Int
  yMax : Int
  macStyle : Nat
  lowestRecPPEM : Nat
  fontDirectionHint : Int
  indexToLocFormat : Int
  glyphDataFormat : Int
  deriving DecidableEq

/-- The macro `SFNT_OTTO`: the bytes 'O' 'T' 'T' 'O'. -/
def SFNT_OTTO : Nat := (0x4F <<< 24) ||| (0x54 <<< 16) ||| (0x54 <<< 8) ||| 0x4F

/-- The macro `SFNT_TRUE`: the bytes 't' 'r' 'u' 'e'. -/
def SFNT_TRUE : Nat := (0x74 <<< 24) ||| (0x72 <<< 16) ||| (0x75 <<< 8) ||| 0x65

/-- The macro `SFNT_TYP1`: the bytes 't' 'y' 'p' '1'. -/
def SFNT_TYP1 : Nat := (0x74 <<< 24) ||| (0x79 <<< 16) ||| (0x70 <<< 8) ||| 0x31

/-- The macro `SFNT_VERSION_1_0`. -/
def SFNT_VERSION_1_0 : Nat := 0x00010000

/-- The string literal `"name"` as four bytes. -/
def tag_name : List Byte := [0x6E, 0x61, 0x6D, 0x65]

/-- The string literal `"OS/2"` as four bytes. -/
def tag_OS2 : List Byte := [0x4F, 0x53, 0x2F, 0x32]

/-- The string literal `"head"` as four bytes. -/
def tag_head : List Byte := [0x68, 0x65, 0x61, 0x64]

/-! ## mkeot.c: reading the sfnt directory and the tables -/

/-- The `for` loop of `read_sfnt_header`: read `n` table records. -/
def read_table_records : Nat → Parser (List sfnt_table_record)
  | 0 => pure []
  | n + 1 => do
    let tag ← fread 4
    let checkSum ← read_4be
    let offset ← read_4be
    let length ← read_4be
    let rest ← read_table_records n
    pure ({ tag := tag, checkSum := checkSum, offset := offset, length := length } :: rest)

/-- `read_sfnt_header` (mkeot.c): get the directory of tables of an OpenType font. -/
def read_sfnt_header (file : List Byte) : Parser sfnt_offset_table := do
  rewind file
  let sfnt_version ← read_4be
  let numTables ← read_2be
  let searchRange ← read_2be
  let entrySelector ← read_2be
  let rangeShift ← read_2be
  failIf (sfnt_version ≠ SFNT_OTTO ∧ sfnt_version ≠ SFNT_TRUE ∧
          sfnt_version ≠ SFNT_TYP1 ∧ sfnt_version ≠ SFNT_VERSION_1_0)
  let tables ← read_table_records numTables
  pure { sfnt_version := sfnt_version, numTables := numTables, searchRange := searchRange,
         entrySelector := entrySelector, rangeShift := rangeShift, tables := tables }

/-- The loop `while (i < sfnt.numTables && memcmp(sfnt.tables[i].tag, tag, 4)) i++;` that
opens `read_name_table`, `read_OS2_table` and `read_head_table`: the first record among
the first `numTables` whose tag equals `tag`, or `none` when `i >= sfnt.numTables`. -/
def find_table (sfnt : sfnt_offset_table) (tag : List Byte) : Option sfnt_table_record :=
  (sfnt.tables.take sfnt.numTables).find? (fun t => decide (t.tag = tag))

/-- The first `for` loop of `read_name_table`: read `n` name records. -/
def read_name_records : Nat → Parser (List NameRecord)
  | 0 => pure []
  | n + 1 => do
    let platformID ← read_2be
    let encodingID ← read_2be
    let languageID ← read_2be
    let nameID ← read_2be
    let length ← read_2be
    let offset ← read_2be
    let rest ← read_name_records n
    pure ({ platformID := platformID, encodingID := encodingID, languageID := languageID,
            nameID := nameID, length := length, offset := offset } :: rest)

/-- The `for` loop of case 1 of `read_name_table`: read `n` language tag records. -/
def read_langtag_records : Nat → Parser (List LangTagRecord)
  | 0 => pure []
  | n + 1 => do
    let length ← read_2be
    let offset ← read_2be
    let rest ← read_langtag_records n
    pure ({ length := length, offset := offset } :: rest)

/-- The inner loop `for (k = 0; k < length; k++) read_1(f, &names[j][k])`. -/
def read_name_bytes : Nat → Parser (List Byte)
  | 0 => pure []
  | n + 1 => do
    let b ← read_1
    let rest ← read_name_bytes n
    pure (b :: rest)

/-- The last `for` loop of `read_name_table`: for each record seek to `offset` plus the
record's offset and read the record's bytes. -/
def read_names (file : List Byte) (offset : Nat) : List NameRecord → Parser (List (List Byte))
  | [] => pure []
  | r :: rs => do
    fseek_set file (offset + r.offset)
    let name ← read_name_bytes r.length
    let rest ← read_names file offset rs
    pure (name :: rest)

/-- `read_name_table` (mkeot.c): find and read the Name table in an OpenType file. -/
def read_name_table (file : List Byte) (sfnt : sfnt_offset_table) : Parser Name_table :=
  match find_table sfnt tag_name with
  | none => Parser.fail
  | some rec => do
    fseek_set file rec.offset
    let format ← read_2be
    let count ← read_2be
    let stringOffset ← read_2be
    let nameRecord ← read_name_records count
    let lang ←
      if format = 0 then (pure (0, []) : Parser (Nat × List LangTagRecord))
      else if format = 1 then do
        let langTagCount ← read_2be
        let langTagRecord ← read_langtag_records langTagCount
        pure (langTagCount, langTagRecord)
      else Parser.fail
    let offset ← ftell file
    let names ← read_names file offset nameRecord
    pure { format := format, count := count, stringOffset := stringOffset,
           nameRecord := nameRecord, langTagCount := lang.1, langTagRecord := lang.2,
           names := names }

/-- How the program can stop other than by returning: the `errx` calls, a failed `assert`,
and a store outside an allocated buffer (undefined behaviour in C). -/
inductive Exit where
  | unsupportedNameTableFormat
  | unsupportedEncoding
  | invalidPlatformID
  | assertionFailed
  | bufferOverrun
  | couldNotReadFont
  | embeddingNotAllowed
  | bitmapEmbedding
  deriving DecidableEq

/-- `is_english` (mkeot.c): check if a NameRecord holds an English name. The argument is
the record `table.nameRecord[n]`. -/
def is_english (r : NameRecord) : Except Exit Bool :=
  if r.platformID = 0 then .ok false
  else if r.platformID = 1 then
    if r.languageID ≥ 0x8000 then .error .unsupportedNameTableFormat
    else if r.encodingID ≠ 0 then .error .unsupportedEncoding
    else .ok (r.languageID = 0)
  else if r.platformID = 2 then .ok false
  else if r.platformID = 3 then
    if r.languageID ≥ 0x8000 then .error .unsupportedNameTableFormat
    else if r.encodingID ≠ 1 then .error .unsupportedEncoding
    else .ok (r.languageID = 0x0409)
  else if r.platformID = 4 then .ok false
  else .error .invalidPlatformID

/-- The `while` loop of `find_name`: starting at index `i` with the records from `i` on,
the index at which the loop stops, or `none` when it reaches `table.count`. `is_english`
is evaluated only for a record whose nameID equals `id`. -/
def find_name_index (id : Nat) : List NameRecord → Nat → Except Exit (Option Nat)
  | [], _ => .ok none
  | r :: rs, i =>
    if r.nameID ≠ id then find_name_index id rs (i + 1)
    else
      match is_english r with
      | .error e => .error e
      | .ok false => find_name_index id rs (i + 1)
      | .ok true => .ok (some i)

/-- The store `(*name)[k] = b` into a buffer of `buf.length` bytes. -/
def poke (buf : List Byte) (k : Nat) (b : Byte) : Except Exit (List Byte) :=
  if k < buf.length then .ok (buf.set k b) else .error .bufferOverrun

/-- The `for` loop of the Macintosh case of `find_name`, over the source bytes still to be
copied; `k` is an `unsigned short`. -/
def widen_loop : List Byte → Nat → List Byte → Except Exit (List Byte)
  | [], _, buf => .ok buf
  | b :: bs, k, buf =>
    match poke buf k b with
    | .error e => .error e
    | .ok buf1 =>
      match poke buf1 ((k + 1) % 2 ^ 16) 0 with
      | .error e => .error e
      | .ok buf2 => widen_loop bs ((k + 1 + 1) % 2 ^ 16) buf2

/-- `find_name` (mkeot.c): find the English name with given ID in the Name table. `old` is
the caller's `(*size, *name)`; the result is their new contents. `malloc` is taken to
succeed, with zero-filled memory. -/
def find_name (table : Name_table) (id : Nat) (old : Nat × List Byte) :
    Except Exit (Nat × List Byte) :=
  match find_name_index id (table.nameRecord.take table.count) 0 with
  | .error e => .error e
  | .ok none => .ok (0, old.2)
  | .ok (some i) =>
    match table.nameRecord[i]? with
    | none => .error .bufferOverrun
    | some r =>
      if r.platformID = 1 then
        let size := (2 * r.length) % 2 ^ 16
        match widen_loop ((table.names.getD i []).take r.length) 0 (List.replicate size 0) with
        | .error e => .error e
        | .ok name => .ok (size, name)
      else if r.platformID = 3 then
        let size := r.length % 2 ^ 16
        .ok (size, (table.names.getD i []).take r.length)
      else .error .assertionFailed

/-- `read_OS2_table` (mkeot.c): find and read the OS/2 table in an OpenType file. -/
def read_OS2_table (file : List Byte) (sfnt : sfnt_offset_table) : Parser OS2_table :=
  match find_table sfnt tag_OS2 with
  | none => Parser.fail
  | some rec => do
    fseek_set file rec.offset
    let version ← read_2be
    failIf (¬ version ≤ 0x0004)
    let xAvgCharWidth ← read_2be_signed
    let usWeightClass ← read_2be
    let usWidthClass ← read_2be
    let fsType ← read_2be
    let ySubscriptXSize ← read_2be_signed
    let ySubscriptYSize ← read_2be_signed
    let ySubscriptXOffset ← read_2be_signed
    let ySubscriptYOffset ← read_2be_signed
    let ySuperscriptXSize ← read_2be_signed
    let ySuperscriptYSize ← read_2be_signed
    let ySuperscriptXOffset ← read_2be_signed
    let ySuperscriptYOffset ← read_2be_signed
    let yStrikeoutSize ← read_2be_signed
    let yStrikeoutPosition ← read_2be_signed
    let sFamilyClass ← read_2be_signed
    let panose ← fread 10
    let ulUnicodeRange1 ← read_4be
    let ulUnicodeRange2 ← read_4be
    let ulUnicodeRange3 ← read_4be
    let ulUnicodeRange4 ← read_4be
    let achVendID ← fread 4
    let fsSelection ← read_2be
    let usFirstCharIndex ← read_2be
    let usLastCharIndex ← read_2be
    let sTypoAscender ← read_2be_signed
    let sTypoDescender ← read_2be_signed
    let sTypoLineGap ← read_2be_signed
    let usWinAscent ← read_2be
    let usWinDescent ← read_2be
    let ulCodePageRange1 ← read_4be
    let ulCodePageRange2 ← read_4be
    let sxHeight ← read_2be_signed
    let sCapHeight ← read_2be_signed
    let usDefaultChar ← read_2be
    let usBreakChar ← read_2be
    let usMaxContext ← read_2be
    pure { version := version, xAvgCharWidth := xAvgCharWidth, usWeightClass := usWeightClass,
           usWidthClass := usWidthClass, fsType := fsType,
           ySubscriptXSize := ySubscriptXSize, ySubscriptYSize := ySubscriptYSize,
           ySubscriptXOffset := ySubscriptXOffset, ySubscriptYOffset := ySubscriptYOffset,
           ySuperscriptXSize := ySuperscriptXSize, ySuperscriptYSize := ySuperscriptYSize,
           ySuperscriptXOffset := ySuperscriptXOffset,
           ySuperscriptYOffset := ySuperscriptYOffset,
           yStrikeoutSize := yStrikeoutSize, yStrikeoutPosition := yStrikeoutPosition,
           sFamilyClass := sFamilyClass, panose := panose,
           ulUnicodeRange1 := ulUnicodeRange1, ulUnicodeRange2 := ulUnicodeRange2,
           ulUnicodeRange3 := ulUnicodeRange3, ulUnicodeRange4 := ulUnicodeRange4,
           achVendID := achVendID, fsSelection := fsSelection,
           usFirstCharIndex := usFirstCharIndex, usLastCharIndex := usLastCharIndex,
           sTypoAscender := sTypoAscender, sTypoDescender := sTypoDescender,
           sTypoLineGap := sTypoLineGap, usWinAscent := usWinAscent,
           usWinDescent := usWinDescent, ulCodePageRange1 := ulCodePageRange1,
           ulCodePageRange2 := ulCodePageRange2, sxHeight := sxHeight,
           sCapHeight := sCapHeight, usDefaultChar := usDefaultChar,
           usBreakChar := usBreakChar, usMaxContext := usMaxContext }

/-- `read_head_table` (mkeot.c): find and read the head table in an OpenType file. -/
def read_head_table (file : List Byte) (sfnt : sfnt_offset_table) : Parser Head_table :=
  match find_table sfnt tag_head with
  | none => Parser.fail
  | some rec => do
    fseek_set file rec.offset
    let Table_version_number ← read_4be
    let fontRevision ← read_4be
    let checkSumAdjustment ← read_4be
    let magicNumber ← read_4be
    let flags ← read_2be
    let unitsPerEm ← read_2be
    let created ← read_8be
    let modified ← read_8be
    let xMin ← read_2be_signed
    let yMin ← read_2be_signed
    let xMax ← read_2be_signed
    let yMax ← read_2be_signed
    let macStyle ← read_2be
    let lowestRecPPEM ← read_2be
    let fontDirectionHint ← read_2be_signed
    let indexToLocFormat ← read_2be_signed
    let glyphDataFormat ← read_2be_signed
    pure { Table_version_number := Table_version_number, fontRevision := fontRevision,
           checkSumAdjustment := checkSumAdjustment, magicNumber := magicNumber,
           flags := flags, unitsPerEm := unitsPerEm, created := created,
           modified := modified, xMin := xMin, yMin := yMin, xMax := xMax, yMax := yMax,
           macStyle := macStyle, lowestRecPPEM := lowestRecPPEM,
           fontDirectionHint := fontDirectionHint, indexToLocFormat := indexToLocFormat,
           glyphDataFormat := glyphDataFormat }

/-- The four table reads that open `read_some_opentype_data`, in the order of the source;
failure of any of them is `return false`. -/
def read_font_tables (file : List Byte) : Parser (OS2_table × Name_table × Head_table) := do
  let sfnt ← read_sfnt_header file
  let os2 ← read_OS2_table file sfnt
  let name ← read_name_table file sfnt
  let head ← read_head_table file sfnt
  pure (os2, name, head)

/-- `read_some_opentype_data` (mkeot.c): get data from a font that is needed for EOT.
`.ok none` is `return false`, `.ok (some header)` is `return true` with the updated struct,
`.error` is an exit inside `find_name`. `ftell` reports the file length after the seek to
the end, and fails at a length of 2^31 or more. -/
def read_some_opentype_data (file : List Byte) (header : EOT_header) :
    Except Exit (Option EOT_header) :=
  match read_font_tables file file with
  | none => .ok none
  | some ((os2, name, head), _) => do
    let header := { header with
      FontPANOSE := os2.panose,
      Italic := toByte (os2.fsSelection &&& 0x01),
      Weight := os2.usWeightClass,
      fsType := os2.fsType,
      UnicodeRange1 := os2.ulUnicodeRange1,
      UnicodeRange2 := os2.ulUnicodeRange2,
      UnicodeRange3 := os2.ulUnicodeRange3,
      UnicodeRange4 := os2.ulUnicodeRange4,
      CodePageRange1 := os2.ulCodePageRange1,
      CodePageRange2 := os2.ulCodePageRange2,
      CheckSumAdjustment := head.checkSumAdjustment }
    let fam ← find_name name 1 (header.FamilyNameSize, header.FamilyName)
    let header := { header with FamilyNameSize := fam.1, FamilyName := fam.2 }
    let header := { header with EOTSize := (header.EOTSize + header.FamilyNameSize) % 2 ^ 32 }
    let sty ← find_name name 2 (header.StyleNameSize, header.StyleName)
    let header := { header with StyleNameSize := sty.1, StyleName := sty.2 }
    let header := { header with EOTSize := (header.EOTSize + header.StyleNameSize) % 2 ^ 32 }
    let ver ← find_name name 5 (header.VersionNameSize, header.VersionName)
    let header := { header with VersionNameSize := ver.1, VersionName := ver.2 }
    let header := { header with EOTSize := (header.EOTSize + header.VersionNameSize) % 2 ^ 32 }
    let full ← find_name name 4 (header.FullNameSize, header.FullName)
    let header := { header with FullNameSize := full.1, FullName := full.2 }
    let header := { header with EOTSize := (header.EOTSize + header.FullNameSize) % 2 ^ 32 }
    let size := file.length
    if ¬ size < 2 ^ 31 then
      pure none
    else
      let header := { header with FontDataSize := size }
      let header := { header with EOTSize := (header.EOTSize + header.FontDataSize) % 2 ^ 32 }
      pure (some header)

/-- `get_byte_checksum` (mkeot.c): calculate checksum over rootstrings. -/
def get_byte_checksum (s : List Byte) (len : Nat) : Nat :=
  ((s.take len).foldl (fun sum b => (sum + b.val) % 2 ^ 32) 0) ^^^ 0x50475342

/-- `realloc(p, n)`: the first `n` bytes of the old block, extended to `n` bytes (the new
bytes, indeterminate in C, are zero here). -/
def realloc (buf : List Byte) (n : Nat) : List Byte :=
  buf.take n ++ List.replicate (n - buf.length) 0

/-- The `while (*url)` loop of `add_rootstring`: store each character and a zero byte at
`j`, `j + 1`; returns the final `j` and buffer. -/
def add_rootstring_loop : List Byte → Nat → List Byte → Nat × List Byte
  | [], j, buf => (j, buf)
  | c :: url, j, buf => add_rootstring_loop url (j + 1 + 1) ((buf.set j c).set (j + 1) 0)

/-- `add_rootstring` (mkeot.c): add a URL to the EOT header. `url` is the C string without
its terminating NUL. -/
def add_rootstring (url : List Byte) (h : EOT_header) : EOT_header :=
  let len := (2 * url.length + 2) % 2 ^ 32
  let buf := realloc h.RootString ((h.RootStringSize + len) % 2 ^ 32)
  let jb := add_rootstring_loop url h.RootStringSize buf
  let buf := (jb.2.set jb.1 0).set (jb.1 + 1) 0
  let h := { h with RootString := buf }
  let h := { h with RootStringSize := (h.RootStringSize + len) % 2 ^ 16 }
  let h := { h with RootStringCheckSum := get_byte_checksum h.RootString h.RootStringSize }
  { h with EOTSize := (h.EOTSize + len) % 2 ^ 32 }

/-- The macro `FSTYPE_RESTRICTED`. -/
def FSTYPE_RESTRICTED : Nat := 0x0002

/-- The macro `FSTYPE_PREVIEW`. -/
def FSTYPE_PREVIEW : Nat := 0x0004

/-- The macro `FSTYPE_EDITABLE`. -/
def FSTYPE_EDITABLE : Nat := 0x0008

/-- The macro `FSTYPE_NOSUBSETTING`. -/
def FSTYPE_NOSUBSETTING : Nat := 0x0100

/-- The macro `FSTYPE_BITMAP`. -/
def FSTYPE_BITMAP : Nat := 0x0200

/-- The header that `main` (mkeot.c) has built when it reaches the embedding checks:
`initialize_EOT_header`, `read_some_opentype_data`, then `add_rootstring` for each URL
argument in order. -/
def main_header (file : List Byte) (urls : List (List Byte)) : Except Exit EOT_header :=
  match read_some_opentype_data file initialize_EOT_header with
  | .error e => .error e
  | .ok none => .error .couldNotReadFont
  | .ok (some header) => .ok (urls.foldl (fun h url => add_rootstring url h) header)

/-- `main` (mkeot.c) for font file contents `file` and URL arguments `urls`: the bytes
written to standard output on normal termination, or the way the program stops. -/
def main (file : List Byte) (urls : List (List Byte)) : Except Exit (List Byte) :=
  match main_header file urls with
  | .error e => .error e
  | .ok header =>
    if header.fsType &&& FSTYPE_EDITABLE = 0 ∧ header.fsType &&& FSTYPE_PREVIEW = 0 ∧
        header.fsType &&& FSTYPE_RESTRICTED ≠ 0 then
      .error .embeddingNotAllowed
    else if header.fsType &&& FSTYPE_BITMAP ≠ 0 then
      .error .bitmapEmbedding
    else
      match write_EOT_header header with
      | none => .error .assertionFailed
      | some out => .ok (out ++ file)


/-! ## eotinfo.c: presentation of the name fields -/

/-- How a printing loop of `dump_header` can fail to return: a read outside the buffer
(undefined behaviour in C), or a loop that never ends. -/
inductive Stuck where
  | readOutOfBounds
  | loopsForever
  deriving DecidableEq

/-- The bytes of an ASCII string literal of the source. -/
def ascii (s : String) : List Byte := s.toList.map (fun ch => toByte ch.toNat)

/-- `putchar(c)`: the byte written is `c` converted to `unsigned char`. -/
def putchar (c : Nat) : List Byte := [toByte c]

/-- `putUTF8` (eotinfo.c): write a character to stdout in UTF8 encoding. The argument is a
`long`; past the first test it is positive and `n` is its value. -/
def putUTF8 (c : Int) : List Byte :=
  let n := c.toNat
  if c ≤ 0x7F then putchar (c % 256).toNat
  else if c ≤ 0x07FF then
    putchar (0xC0 ||| (n >>> 6)) ++ putchar (0x80 ||| (n &&& 0x3F))
  else if c ≤ 0xFFFF then
    putchar (0xE0 ||| (n >>> 12)) ++ putchar (0x80 ||| ((n >>> 6) &&& 0x3F)) ++
    putchar (0x80 ||| (n &&& 0x3F))
  else if c ≤ 0x1FFFFF then
    putchar (0xF0 ||| (n >>> 18)) ++ putchar (0x80 ||| ((n >>> 12) &&& 0x3F)) ++
    putchar (0x80 ||| ((n >>> 6) &&& 0x3F)) ++ putchar (0x80 ||| (n &&& 0x3F))
  else if c ≤ 0x3FFFFFF then
    putchar (0xF8 ||| (n >>> 24)) ++ putchar (0x80 ||| ((n >>> 18) &&& 0x3F)) ++
    putchar (0x80 ||| ((n >>> 12) &&& 0x3F)) ++ putchar (0x80 ||| ((n >>> 6) &&& 0x3F)) ++
    putchar (0x80 ||| (n &&& 0x3F))
  else if c ≤ 0x7FFFFFFF then
    putchar (0xFC ||| (n >>> 30)) ++ putchar (0x80 ||| ((n >>> 24) &&& 0x3F)) ++
    putchar (0x80 ||| ((n >>> 18) &&& 0x3F)) ++ putchar (0x80 ||| ((n >>> 12) &&& 0x3F)) ++
    putchar (0x80 ||| ((n >>> 6) &&& 0x3F)) ++ putchar (0x80 ||| (n &&& 0x3F))
  else
    ascii "<" ++ (Nat.toDigits 10 n).map (fun ch => toByte ch.toNat) ++ ascii ">"

/-- The loops `for (i = 0; i < size; i += 2) if ((c = name[i] + 256 * name[i+1]))
putUTF8(c);` of `dump_header` (eotinfo.c), from counter value `i`. The counter is an
`unsigned short`, so `i += 2` wraps at 2^16; `blank` says whether the loop has the
`else putUTF8(' ')` of the RootString loop. The first argument bounds the number of
iterations. -/
def dump_name_loop (name : List Byte) (size : Nat) (blank : Bool) :
    Nat → Nat → Except Stuck (List Byte)
  | 0, _ => .error .loopsForever
  | fuel + 1, i =>
    if i < size then
      match name[i]?, name[i + 1]? with
      | some lo, some hi =>
        let c : Int := lo.val + 256 * hi.val
        let out := if c ≠ 0 then putUTF8 c else if blank then putUTF8 32 else []
        match dump_name_loop name size blank fuel ((i + 2) % 2 ^ 16) with
        | .error e => .error e
        | .ok rest => .ok (out ++ rest)
      | _, _ => .error .readOutOfBounds
    else .ok []

/-- One name loop of `dump_header`, started at `i = 0`. The counter grows by 2 until it
reaches `size` or wraps, so a loop that has not ended after `size / 2 + 1` iterations has
wrapped to 0 and repeats. -/
def dump_name (name : List Byte) (size : Nat) (blank : Bool) : Except Stuck (List Byte) :=
  dump_name_loop name size blank (size / 2 + 2) 0

/-- The statements of `dump_header` (eotinfo.c) that print the FamilyName line. -/
def dump_header_FamilyName (h : EOT_header) : Except Stuck (List Byte) :=
  match dump_name h.FamilyName h.FamilyNameSize false with
  | .error e => .error e
  | .ok body => .ok (ascii "FamilyName:         " ++ body ++ ascii "\n")

/-! ## eotinfo.c: the rest of the presentation layer -/

/-- The macro `TTEMBED_SUBSET`. -/
def TTEMBED_SUBSET : Nat := 0x00000001

/-- The macro `TTEMBED_TTCOMPRESSED`. -/
def TTEMBED_TTCOMPRESSED : Nat := 0x00000004

/-- The macro `TTEMBED_EMBEDEUDC`. -/
def TTEMBED_EMBEDEUDC : Nat := 0x00000020

/-- The macro `TTEMBED_XORENCRYPTDATA`. -/
def TTEMBED_XORENCRYPTDATA : Nat := 0x10000000

/-- What `printf` writes for `%u` and `%lu`: the decimal digits of an unsigned value. -/
def print_unsigned (x : Nat) : List Byte := (Nat.toDigits 10 x).map (fun ch => toByte ch.toNat)

/-- What `printf` writes for `%ld` when handed an `unsigned long`: the bits are read as a
two's complement `long`. The value comes from `read_ulong`, whose upper 32 bits repeat bit 31,
so the reading is that of the low 32 bits. -/
def print_long (x : Nat) : List Byte :=
  if x % 2 ^ 32 < 2 ^ 31 then print_unsigned (x % 2 ^ 32)
  else ascii "-" ++ print_unsigned (2 ^ 32 - x % 2 ^ 32)

/-- What `printf` writes for `%08lX`: upper-case hexadecimal digits, padded with zeros to
eight places. -/
def print_hex8 (x : Nat) : List Byte :=
  let d := (Nat.toDigits 16 x).map Char.toUpper
  (List.replicate (8 - d.length) '0' ++ d).map (fun ch => toByte ch.toNat)

/-- The statements of `print_unicode_range` (eotinfo.c) in source order: for
`if (h.UnicodeRangeN & mask) printf(keyword);` the entry `(N, mask, keyword)`. -/
def unicode_range_statements : List (Nat × Nat × String) :=
  [(1, 0x00000001, " basic-latin"),
   (1, 0x00000002, " latin-1-supplement"),
   (1, 0x00000004, " latin-extended-a"),
   (1, 0x00000008, " latin-extended-b"),
   (1, 0x00000010, " ipa-extensions"),
   (1, 0x00000020, " spacing-modifiers"),
   (1, 0x00000040, " combining-diacritical"),
   (1, 0x00000080, " greek-and-coptic"),
   (1, 0x00000100, " coptic"),
   (1, 0x00000200, " cyrillic"),
   (1, 0x00000400, " armenian"),
   (1, 0x00000800, " hebrew"),
   (1, 0x00001000, " vai"),
   (1, 0x00002000, " arabic"),
   (1, 0x00004000, " nko"),
   (1, 0x00008000, " devanagari"),
   (1, 0x00010000, " bengali"),
   (1, 0x00020000, " gurmukhi"),
   (1, 0x00040000, " gujarati"),
   (1, 0x00080000, " oriya"),
   (1, 0x00100000, " tamil"),
   (1, 0x00200000, " teluga"),
   (1, 0x00400000, " kannada"),
   (1, 0x00800000, " malayalam"),
   (1, 0x01000000, " thai"),
   (1, 0x02000000, " lao"),
   (1, 0x04000000, " georgian"),
   (1, 0x08000000, " balinese"),
   (1, 0x10000000, " hangul-jamo"),
   (1, 0x20000000, " latin-extended-additional"),
   (1, 0x40000000, " greek-extended"),
   (1, 0x80000000, " general-punctuation"),
   (2, 0x00000001, " super-and-subscripts"),
   (2, 0x00000002, " currency"),
   (2, 0x00000004, " combining-diacriticals-for-symbols"),
   (2, 0x00000008, " letterlike"),
   (2, 0x00000010, " number-forms"),
   (2, 0x00000020, " arrows"),
   (2, 0x00000040, " mathematical"),
   (2, 0x00000080, " technical"),
   (2, 0x00000100, " control-pictures"),
   (2, 0x00000200, " ocr"),
   (2, 0x00000400, " enclosed-alphanumerics"),
   (2, 0x00000800, " box-drawing"),
   (2, 0x00001000, " block-elements"),
   (2, 0x00002000, " geometric-shapes"),
   (2, 0x00004000, " misc-symbols"),
   (2, 0x00008000, " dingbats"),
   (2, 0x00010000, " cjk-symbols-and-punctuation"),
   (2, 0x00020000, " hiragana"),
   (2, 0x00040000, " katakana"),
   (2, 0x00080000, " bopomofo"),
   (2, 0x00100000, " hangul-compatibility-jamo"),
   (2, 0x00200000, " phags-pa"),
   (2, 0x00400000, " enclosed-cjk"),
   (2, 0x00800000, " cjk-compatibility"),
   (2, 0x01000000, " hangul-syllables"),
   (2, 0x02000000, " non-plane-0"),
   (2, 0x04000000, " phoenician"),
   (2, 0x08000000, " cjk"),
   (2, 0x10000000, " private-use-0"),
   (2, 0x20000000, " cjk-strokes"),
   (2, 0x40000000, " alphabetic-presentation-forms"),
   (2, 0x80000000, " arabic-presentation-a"),
   (3, 0x00000001, " combining-half-marks"),
   (3, 0x00000002, " vertical-forms"),
   (3, 0x00000004, " small-form-variants"),
   (3, 0x00000008, " arabic-presentation-b"),
   (3, 0x00000010, " halfwidth-andfullwidth-forms"),
   (3, 0x00000020, " specials"),
   (3, 0x00000040, " tibetan"),
   (3, 0x00000080, " syriac"),
   (3, 0x00000100, " thaana"),
   (3, 0x00000200, " sinhala"),
   (3, 0x00000400, " myanmar"),
   (3, 0x00000800, " ethiopic"),
   (3, 0x00001000, " cherokee"),
   (3, 0x00002000, " unified-canadian-aboriginal"),
   (3, 0x00004000, " ogham"),
   (3, 0x00008000, " runic"),
   (3, 0x00010000, " khmer"),
   (3, 0x00020000, " mongolian"),
   (3, 0x00040000, " braille"),
   (3, 0x00080000, " yi"),
   (3, 0x00100000, " tagalog-hanunoo-buhid-tagbanwa"),
   (3, 0x00200000, " old-italic"),
   (3, 0x00400000, " gothic"),
   (3, 0x00800000, " deseret"),
   (3, 0x01000000, " musical-symbols"),
   (3, 0x02000000, " mathematical alphanumeric symbols"),
   (3, 0x04000000, " private-use-15-16"),
   (3, 0x08000000, " variation-selectors"),
   (3, 0x10000000, " tags"),
   (3, 0x20000000, " limbu"),
   (3, 0x40000000, " taile"),
   (3, 0x80000000, " new-tai-lue"),
   (4, 0x00000001, " buginese"),
   (4, 0x00000002, " glagolitic"),
   (4, 0x00000004, " tifinagh"),
   (4, 0x00000008, " yijing-hexagram"),
   (4, 0x00000010, " syloti-nagri"),
   (4, 0x00000020, " linear-b"),
   (4, 0x00000040, " ancient-greek-numbers"),
   (4, 0x00000080, " ugaritic"),
   (4, 0x00000100, " old-persian"),
   (4, 0x00000200, " shavian"),
   (4, 0x00000400, " osmanya"),
   (4, 0x00000800, " cypriot"),
   (4, 0x00001000, " kharoshthi"),
   (4, 0x00002000, " tai-xuan-jing"),
   (4, 0x00004000, " cuneiform"),
   (4, 0x00008000, " counting-rod-numerals"),
   (4, 0x00010000, " sundanese"),
   (4, 0x00020000, " lepcha"),
   (4, 0x00040000, " ol-chiki"),
   (4, 0x00080000, " saurashtra"),
   (4, 0x00100000, " kayah-li"),
   (4, 0x00200000, " rejang"),
   (4, 0x00400000, " cham"),
   (4, 0x00800000, " ancient-symbols"),
   (4, 0x01000000, " phaistos-disc"),
   (4, 0x02000000, " carian-lycian-lydian"),
   (4, 0x04000000, " domino-mahjong")]

/-- The operand `h.UnicodeRangeN` of a statement of `print_unicode_range`. -/
def unicode_range_word (h : EOT_header) (n : Nat) : Nat :=
  if n = 1 then h.UnicodeRange1
  else if n = 2 then h.UnicodeRange2
  else if n = 3 then h.UnicodeRange3
  else h.UnicodeRange4

/-- The `printf` calls that `print_unicode_range` (eotinfo.c) executes, in order: the
keyword of every statement whose test `h.UnicodeRangeN & mask` is non-zero. -/
def print_unicode_range_calls (h : EOT_header) : List String :=
  (unicode_range_statements.filter
    (fun s => decide (unicode_range_word h s.1 &&& s.2.1 ≠ 0))).map (fun s => s.2.2)

/-- `print_unicode_range` (eotinfo.c): print keywords for all bits in the Unicode range. -/
def print_unicode_range (h : EOT_header) : List Byte :=
  (print_unicode_range_calls h).flatMap ascii

/-- `print_code_page_range` (eotinfo.c): print codepages supported by the font. -/
def print_code_page_range (_h : EOT_header) : List Byte := ascii " to do..."

/-- The `printf` of `dump_header` (eotinfo.c) that prints the Flags line. -/
def dump_header_Flags (h : EOT_header) : List Byte :=
  ascii "Flags:              " ++
  ascii (if h.Version &&& TTEMBED_SUBSET ≠ 0 then "subsetted" else "not-subsetted") ++
  ascii " " ++
  ascii (if h.Version &&& TTEMBED_TTCOMPRESSED ≠ 0 then "compressed" else "not-compressed") ++
  ascii " " ++
  ascii (if h.Version &&& TTEMBED_EMBEDEUDC ≠ 0 then "EUDC" else "no-EUDC") ++
  ascii " " ++
  ascii (if h.Version &&& TTEMBED_XORENCRYPTDATA ≠ 0 then "xor" else "no-xor") ++
  ascii "\n"

/-- The `printf` of `dump_header` (eotinfo.c) that prints the PANOSE line. -/
def dump_header_PANOSE (h : EOT_header) : List Byte :=
  ascii "PANOSE:             " ++
  print_unsigned (h.FontPANOSE.getD 0 0).val ++ ascii " " ++
  print_unsigned (h.FontPANOSE.getD 1 0).val ++ ascii " " ++
  print_unsigned (h.FontPANOSE.getD 2 0).val ++ ascii " " ++
  print_unsigned (h.FontPANOSE.getD 3 0).val ++ ascii " " ++
  print_unsigned (h.FontPANOSE.getD 4 0).val ++ ascii " " ++
  print_unsigned (h.FontPANOSE.getD 5 0).val ++ ascii " " ++
  print_unsigned (h.FontPANOSE.getD 6 0).val ++ ascii " " ++
  print_unsigned (h.FontPANOSE.getD 7 0).val ++ ascii " " ++
  print_unsigned (h.FontPANOSE.getD 8 0).val ++ ascii " " ++
  print_unsigned (h.FontPANOSE.getD 9 0).val ++ ascii "\n"

/-- The statements of `dump_header` (eotinfo.c) that print the fsType line. -/
def dump_header_fsType (h : EOT_header) : List Byte :=
  ascii "fsType:            " ++
  (if h.fsType = 0 then ascii " installable"
   else if h.fsType &&& FSTYPE_EDITABLE ≠ 0 then ascii " editable"
   else if h.fsType &&& FSTYPE_PREVIEW ≠ 0 then ascii " preview-and-print"
   else if h.fsType &&& FSTYPE_RESTRICTED ≠ 0 then ascii " restricted"
   else []) ++
  (if h.fsType &&& FSTYPE_NOSUBSETTING ≠ 0 then ascii " no-subsetting" else []) ++
  (if h.fsType &&& FSTYPE_BITMAP ≠ 0 then ascii " bitmap-only" else []) ++
  ascii "\n"

/-- The statements of `dump_header` (eotinfo.c) that print the StyleName line. -/
def dump_header_StyleName (h : EOT_header) : Except Stuck (List Byte) :=
  match dump_name h.StyleName h.StyleNameSize false with
  | .error e => .error e
  | .ok body => .ok (ascii "StyleName:          " ++ body ++ ascii "\n")

/-- The statements of `dump_header` (eotinfo.c) that print the VersionName line. -/
def dump_header_VersionName (h : EOT_header) : Except Stuck (List Byte) :=
  match dump_name h.VersionName h.VersionNameSize false with
  | .error e => .error e
  | .ok body => .ok (ascii "VersionName:        " ++ body ++ ascii "\n")

/-- The statements of `dump_header` (eotinfo.c) that print the FullName line. -/
def dump_header_FullName (h : EOT_header) : Except Stuck (List Byte) :=
  match dump_name h.FullName h.FullNameSize false with
  | .error e => .error e
  | .ok body => .ok (ascii "FullName:           " ++ body ++ ascii "\n")

/-- The statements of `dump_header` (eotinfo.c) that print the RootString line; its loop
prints a space for a code unit of value 0. -/
def dump_header_RootString (h : EOT_header) : Except Stuck (List Byte) :=
  match dump_name h.RootString h.RootStringSize true with
  | .error e => .error e
  | .ok body => .ok (ascii "RootString:         " ++ body ++ ascii "\n")

/-- `dump_header` (eotinfo.c): print out the header in a readable way. The result is what
is written to standard output when the function returns. -/
def dump_header (h : EOT_header) : Except Stuck (List Byte) := do
  let family ← dump_header_FamilyName h
  let style ← dump_header_StyleName h
  let version ← dump_header_VersionName h
  let full ← dump_header_FullName h
  let root ← dump_header_RootString h
  pure (
    ascii "EOTSize:            " ++ print_long h.EOTSize ++ ascii "\n" ++
    ascii "FontDataSize:       " ++ print_long h.FontDataSize ++ ascii "\n" ++
    ascii "Version:            0x" ++ print_hex8 h.Version ++ ascii "\n" ++
    dump_header_Flags h ++
    dump_header_PANOSE h ++
    ascii "Charset:            " ++ print_unsigned h.Charset.val ++ ascii "\n" ++
    ascii "Italic:             " ++ ascii (if h.Italic.val ≠ 0 then "yes" else "no") ++
      ascii "\n" ++
    ascii "Weight:             " ++ print_unsigned h.Weight ++ ascii "\n" ++
    dump_header_fsType h ++
    ascii "UnicodeRange:      " ++ print_unicode_range h ++ ascii "\n" ++
    ascii "CodePageRange:     " ++ print_code_page_range h ++ ascii "\n" ++
    ascii "CheckSumAdjustment: " ++ print_unsigned h.CheckSumAdjustment ++ ascii "\n" ++
    family ++ style ++ version ++ full ++ root)

/-! ## Predicates used to state the properties -/

/-- A reader is prefix-local when each success consumes a prefix `u` of the input, succeeds
with the same value whatever follows `u`, and fails on every shorter prefix of `u`. -/
def Parser.Local {α : Type} (p : Parser α) : Prop :=
  ∀ f a r, p f = some (a, r) →
    ∃ u, f = u ++ r ∧ (∀ g, p (u ++ g) = some (a, g)) ∧
      ∀ n, n < u.length → p (u.take n) = none

/-- Every field that is written with a given width before the version-0x00020002 tail fits
that width. -/
structure FieldsInRange (h : EOT_header) : Prop where
  EOTSize : h.EOTSize < 2 ^ 32
  FontDataSize : h.FontDataSize < 2 ^ 32
  Flags : h.Flags < 2 ^ 32
  Weight : h.Weight < 2 ^ 32
  fsType : h.fsType < 2 ^ 16
  UnicodeRange1 : h.UnicodeRange1 < 2 ^ 32
  UnicodeRange2 : h.UnicodeRange2 < 2 ^ 32
  UnicodeRange3 : h.UnicodeRange3 < 2 ^ 32
  UnicodeRange4 : h.UnicodeRange4 < 2 ^ 32
  CodePageRange1 : h.CodePageRange1 < 2 ^ 32
  CodePageRange2 : h.CodePageRange2 < 2 ^ 32
  CheckSumAdjustment : h.CheckSumAdjustment < 2 ^ 32
  FamilyNameSize : h.FamilyNameSize < 2 ^ 16
  StyleNameSize : h.StyleNameSize < 2 ^ 16
  VersionNameSize : h.VersionNameSize < 2 ^ 16
  FullNameSize : h.FullNameSize < 2 ^ 16
  RootStringSize : h.RootStringSize < 2 ^ 16

/-- Every buffer of the header holds at least as many bytes as its size field states (the
PANOSE array holds exactly 10). -/
structure BuffersHold (h : EOT_header) : Prop where
  FontPANOSE : h.FontPANOSE.length = 10
  FamilyName : h.FamilyNameSize ≤ h.FamilyName.length
  StyleName : h.StyleNameSize ≤ h.StyleName.length
  VersionName : h.VersionNameSize ≤ h.VersionName.length
  FullName : h.FullNameSize ≤ h.FullName.length
  RootString : h.RootStringSize ≤ h.RootString.length
  Signature : h.SignatureSize ≤ h.Signature.length
  EUDCFontData : h.EUDCFontSize ≤ h.EUDCFontData.length

/-- Header `h'` agrees with `h` on the fixed fields, the four names and the root string,
each buffer compared on the bytes its size field covers. -/
def SameFields (h h' : EOT_header) : Prop :=
  h'.EOTSize = h.EOTSize ∧ h'.FontDataSize = h.FontDataSize ∧ h'.Version = h.Version ∧
  h'.Flags = h.Flags ∧ h'.FontPANOSE = h.FontPANOSE ∧ h'.Charset = h.Charset ∧
  h'.Italic = h.Italic ∧ h'.Weight = h.Weight ∧ h'.fsType = h.fsType ∧
  h'.MagicNumber = h.MagicNumber ∧
  h'.UnicodeRange1 = h.UnicodeRange1 ∧ h'.UnicodeRange2 = h.UnicodeRange2 ∧
  h'.UnicodeRange3 = h.UnicodeRange3 ∧ h'.UnicodeRange4 = h.UnicodeRange4 ∧
  h'.CodePageRange1 = h.CodePageRange1 ∧ h'.CodePageRange2 = h.CodePageRange2 ∧
  h'.CheckSumAdjustment = h.CheckSumAdjustment ∧
  h'.FamilyNameSize = h.FamilyNameSize ∧ h'.FamilyName = h.FamilyName.take h.FamilyNameSize ∧
  h'.StyleNameSize = h.StyleNameSize ∧ h'.StyleName = h.StyleName.take h.StyleNameSize ∧
  h'.VersionNameSize = h.VersionNameSize ∧
  h'.VersionName = h.VersionName.take h.VersionNameSize ∧
  h'.FullNameSize = h.FullNameSize ∧ h'.FullName = h.FullName.take h.FullNameSize ∧
  h'.RootStringSize = h.RootStringSize ∧ h'.RootString = h.RootString.take h.RootStringSize

/-- Header `h'` is what the reader makes of the bytes written from `h`: as in `SameFields`,
except that an `unsigned long` field has gone through `int_to_ulong` (Version apart, which is
compared as it is). -/
def ReadBackFields (h h' : EOT_header) : Prop :=
  h'.EOTSize = int_to_ulong h.EOTSize ∧ h'.FontDataSize = int_to_ulong h.FontDataSize ∧
  h'.Version = h.Version ∧
  h'.Flags = int_to_ulong h.Flags ∧ h'.FontPANOSE = h.FontPANOSE ∧ h'.Charset = h.Charset ∧
  h'.Italic = h.Italic ∧ h'.Weight = int_to_ulong h.Weight ∧ h'.fsType = h.fsType ∧
  h'.MagicNumber = h.MagicNumber ∧
  h'.UnicodeRange1 = int_to_ulong h.UnicodeRange1 ∧
  h'.UnicodeRange2 = int_to_ulong h.UnicodeRange2 ∧
  h'.UnicodeRange3 = int_to_ulong h.UnicodeRange3 ∧
  h'.UnicodeRange4 = int_to_ulong h.UnicodeRange4 ∧
  h'.CodePageRange1 = int_to_ulong h.CodePageRange1 ∧
  h'.CodePageRange2 = int_to_ulong h.CodePageRange2 ∧
  h'.CheckSumAdjustment = int_to_ulong h.CheckSumAdjustment ∧
  h'.FamilyNameSize = h.FamilyNameSize ∧ h'.FamilyName = h.FamilyName.take h.FamilyNameSize ∧
  h'.StyleNameSize = h.StyleNameSize ∧ h'.StyleName = h.StyleName.take h.StyleNameSize ∧
  h'.VersionNameSize = h.VersionNameSize ∧
  h'.VersionName = h.VersionName.take h.VersionNameSize ∧
  h'.FullNameSize = h.FullNameSize ∧ h'.FullName = h.FullName.take h.FullNameSize ∧
  h'.RootStringSize = h.RootStringSize ∧ h'.RootString = h.RootString.take h.RootStringSize

/-- What holds of the part up to FullName of every header that `read_EOT_header` returns. -/
structure ReadFixed (h : EOT_header) : Prop where
  MagicNumber : h.MagicNumber = 0x504C
  Reserved1 : h.Reserved1 = 0
  Reserved2 : h.Reserved2 = 0
  Reserved3 : h.Reserved3 = 0
  Reserved4 : h.Reserved4 = 0
  Padding1 : h.Padding1 = 0
  Padding2 : h.Padding2 = 0
  Padding3 : h.Padding3 = 0
  Padding4 : h.Padding4 = 0
  EOTSize : h.EOTSize < 2 ^ 64
  FontDataSize : h.FontDataSize < 2 ^ 64
  Version : h.Version < 2 ^ 64
  Flags : h.Flags < 2 ^ 64
  Weight : h.Weight < 2 ^ 64
  fsType : h.fsType < 2 ^ 16
  UnicodeRange1 : h.UnicodeRange1 < 2 ^ 64
  UnicodeRange2 : h.UnicodeRange2 < 2 ^ 64
  UnicodeRange3 : h.UnicodeRange3 < 2 ^ 64
  UnicodeRange4 : h.UnicodeRange4 < 2 ^ 64
  CodePageRange1 : h.CodePageRange1 < 2 ^ 64
  CodePageRange2 : h.CodePageRange2 < 2 ^ 64
  CheckSumAdjustment : h.CheckSumAdjustment < 2 ^ 64
  FamilyNameSize : h.FamilyNameSize < 2 ^ 16
  StyleNameSize : h.StyleNameSize < 2 ^ 16
  VersionNameSize : h.VersionNameSize < 2 ^ 16
  FullNameSize : h.FullNameSize < 2 ^ 16
  FontPANOSE : h.FontPANOSE.length = 10
  FamilyName : h.FamilyName.length = h.FamilyNameSize
  StyleName : h.StyleName.length = h.StyleNameSize
  VersionName : h.VersionName.length = h.VersionNameSize
  FullName : h.FullName.length = h.FullNameSize

/-- The 16-bit little-endian value stored at byte offset `off` of `f` (0 when `f` has fewer
than `off + 2` bytes). -/
def u16le_at (f : List Byte) (off : Nat) : Nat :=
  match f.drop off with
  | s0 :: s1 :: _ => s0.val + 256 * s1.val
  | _ => 0

/-- The 32-bit little-endian value stored at byte offset `off` of `f` (0 when `f` has fewer
than `off + 4` bytes). -/
def u32le_at (f : List Byte) (off : Nat) : Nat :=
  match f.drop off with
  | s0 :: s1 :: s2 :: s3 :: _ => s0.val + 256 * s1.val + 65536 * s2.val + 16777216 * s3.val
  | _ => 0

/-- Byte offset of Padding2 in an EOT stream: after the 84 fixed bytes and the family name,
whose size is stored at offset 82. -/
def off_Padding2 (f : List Byte) : Nat := 84 + u16le_at f 82

/-- Byte offset of Padding3: after Padding2, StyleNameSize and the style name. -/
def off_Padding3 (f : List Byte) : Nat := off_Padding2 f + 4 + u16le_at f (off_Padding2 f + 2)

/-- Byte offset of Padding4: after Padding3, VersionNameSize and the version name. -/
def off_Padding4 (f : List Byte) : Nat := off_Padding3 f + 4 + u16le_at f (off_Padding3 f + 2)

/-- Byte offset of Padding5: after Padding4, FullNameSize and the full name. -/
def off_Padding5 (f : List Byte) : Nat := off_Padding4 f + 4 + u16le_at f (off_Padding4 f + 2)

/-- The sum of the encoded lengths `2 * len(url) + 2` of the URL arguments. -/
def encoded_length (urls : List (List Byte)) : Nat := (urls.map (fun u => 2 * u.length + 2)).sum

/-- The fields that neither `read_some_opentype_data` nor `add_rootstring` assigns. -/
def SameConstants (h h' : EOT_header) : Prop :=
  h'.Version = h.Version ∧ h'.MagicNumber = h.MagicNumber ∧
  h'.Reserved1 = h.Reserved1 ∧ h'.Reserved2 = h.Reserved2 ∧ h'.Reserved3 = h.Reserved3 ∧
  h'.Reserved4 = h.Reserved4 ∧ h'.Padding1 = h.Padding1 ∧ h'.Padding2 = h.Padding2 ∧
  h'.Padding3 = h.Padding3 ∧ h'.Padding4 = h.Padding4 ∧ h'.Padding5 = h.Padding5 ∧
  h'.Padding6 = h.Padding6 ∧ h'.SignatureSize = h.SignatureSize ∧
  h'.EUDCFontSize = h.EUDCFontSize

/-- The header of `initialize_EOT_header` with Version 0x00010000. -/
def header_v1_0 : EOT_header := { initialize_EOT_header with Version := 0x00010000 }

/-- The header of `initialize_EOT_header` with Version 0x0001000 (the case label). -/
def header_v_label : EOT_header := { initialize_EOT_header with Version := 0x0001000 }

/-- The header of `initialize_EOT_header` with a non-zero Padding6. -/
def header_padding6 : EOT_header := { initialize_EOT_header with Padding6 := 1 }

/-- The header of `initialize_EOT_header` with Reserved1 set to 1. -/
def header_reserved1 : EOT_header := { initialize_EOT_header with Reserved1 := 1 }

/-- A version-0x00020002 header with a family name, a root string and a four-byte
signature. -/
def header_v2_sample : EOT_header :=
  { initialize_EOT_header with
    FamilyNameSize := 8, FamilyName := [0x54, 0, 0x65, 0, 0x73, 0, 0x74, 0],
    RootStringSize := 6, RootString := [0x61, 0, 0x2F, 0, 0, 0],
    SignatureSize := 4, Signature := [1, 2, 3, 4] }

/-- A version-0x00020001 header with a family name ("Test") and a root string ("a/"). -/
def sample_header : EOT_header :=
  { initialize_EOT_header with
    EOTSize := 114, Version := 0x00020001, Weight := 700, fsType := 0x0008,
    FontPANOSE := [2, 0, 5, 3, 0, 0, 0, 0, 0, 0], UnicodeRange1 := 0x80000001,
    FamilyNameSize := 8, FamilyName := [0x54, 0, 0x65, 0, 0x73, 0, 0x74, 0],
    RootStringSize := 6, RootString := [0x61, 0, 0x2F, 0, 0, 0] }

/-- Two bytes, big endian. -/
def be16 (n : Nat) : List Byte := [toByte (n / 256), toByte n]

/-- Four bytes, big endian. -/
def be32 (n : Nat) : List Byte :=
  [toByte (n / 16777216), toByte (n / 65536), toByte (n / 256), toByte n]

/-- A small TrueType file: a directory with the tables OS/2, head and name; weight 400,
fsType 0; Windows English family name "Test" and full name "Test Regular". -/
def sample_font : List Byte :=
  -- offset table
  be32 0x00010000 ++ be16 3 ++ be16 0 ++ be16 0 ++ be16 0 ++
  -- table records: tag, checkSum, offset, length
  tag_OS2 ++ be32 0 ++ be32 60 ++ be32 96 ++
  tag_head ++ be32 0 ++ be32 156 ++ be32 54 ++
  tag_name ++ be32 0 ++ be32 210 ++ be32 62 ++
  -- OS/2 (96 bytes): version 4, xAvgCharWidth, usWeightClass 400, usWidthClass 5, fsType 0
  be16 4 ++ be16 0 ++ be16 400 ++ be16 5 ++ be16 0 ++ List.replicate 86 0 ++
  -- head (54 bytes): version, fontRevision, checkSumAdjustment, then zeros
  be32 0x00010000 ++ be32 0 ++ be32 0x12345678 ++ List.replicate 42 0 ++
  -- name: format 0, count 2, stringOffset 30
  be16 0 ++ be16 2 ++ be16 30 ++
  be16 3 ++ be16 1 ++ be16 0x0409 ++ be16 1 ++ be16 8 ++ be16 0 ++
  be16 3 ++ be16 1 ++ be16 0x0409 ++ be16 4 ++ be16 24 ++ be16 8 ++
  [0, 0x54, 0, 0x65, 0, 0x73, 0, 0x74] ++
  [0, 0x54, 0, 0x65, 0, 0x73, 0, 0x74, 0, 0x20, 0, 0x52, 0, 0x65, 0, 0x67, 0, 0x75, 0, 0x6C,
   0, 0x61, 0, 0x72]

/-- The URL argument "a/". -/
def sample_urls : List (List Byte) := [[0x61, 0x2F]]

/-- The UTF-16LE root-string encoding of one URL: the bytes `c, 0` for each character `c`
in order, followed by two zero bytes. -/
def encode_url (u : List Byte) : List Byte := u.flatMap (fun c => [c, 0]) ++ [0, 0]

/-- The font `sample_font` with OS/2.fsType set to 0x0002 (the low byte is at offset 69). -/
def restricted_font : List Byte := sample_font.set 69 0x02

/-- The font `sample_font` with the directory tag "head" changed to "Head" (offset 28). -/
def no_head_font : List Byte := sample_font.set 28 0x48

/-- The 16-bit big-endian value stored at byte offset `off` of `f` (0 when `f` has fewer
than `off + 2` bytes). -/
def u16be_at (f : List Byte) (off : Nat) : Nat :=
  match f.drop off with
  | s0 :: s1 :: _ => 256 * s0.val + s1.val
  | _ => 0

/-- The 32-bit big-endian value stored at byte offset `off` of `f` (0 when `f` has fewer
than `off + 4` bytes). -/
def u32be_at (f : List Byte) (off : Nat) : Nat :=
  match f.drop off with
  | s0 :: s1 :: s2 :: s3 :: _ => 16777216 * s0.val + 65536 * s1.val + 256 * s2.val + s3.val
  | _ => 0

/-- The table record stored in the 16 bytes at offset `12 + 16 * i` of a font file: the
`i`-th entry of the directory that follows the 12-byte offset table. -/
def directory_entry (f : List Byte) (i : Nat) : sfnt_table_record :=
  { tag := (f.drop (12 + 16 * i)).take 4
    checkSum := u32be_at f (12 + 16 * i + 4)
    offset := u32be_at f (12 + 16 * i + 8)
    length := u32be_at f (12 + 16 * i + 12) }

/-- The record that `read_sfnt_header` stores for entry `i` of the directory: the four tag
bytes, and the three 4-byte fields as `read_4be` returns them. -/
def stored_entry (f : List Byte) (i : Nat) : sfnt_table_record :=
  { tag := (f.drop (12 + 16 * i)).take 4
    checkSum := int_to_ulong (u32be_at f (12 + 16 * i + 4))
    offset := int_to_ulong (u32be_at f (12 + 16 * i + 8))
    length := int_to_ulong (u32be_at f (12 + 16 * i + 12)) }

/-- The font `sample_font` with the checkSum field of its first directory record (offset 16)
set to 0x80000000. -/
def signed_checksum_font : List Byte := sample_font.set 16 0x80

/-- The font `sample_font` with the ulUnicodeRange1 field of its OS/2 table (offset 102) set
to 0x800000AF. -/
def signed_range_font : List Byte := (sample_font.set 102 0x80).set 105 0xAF

/-- The version tags that `read_sfnt_header` accepts, spelled out as numbers. -/
def known_sfnt_version (v : Nat) : Prop :=
  v = 0x4F54544F ∨ v = 0x74727565 ∨ v = 0x74797031 ∨ v = 0x00010000

instance (v : Nat) : Decidable (known_sfnt_version v) := by
  unfold known_sfnt_version; infer_instance

/-- A name record that identifies itself as English: Macintosh (platform 1) with encoding 0
and language 0, or Windows (platform 3) with encoding 1 and language 0x0409. -/
def IsEnglish (r : NameRecord) : Prop :=
  (r.platformID = 1 ∧ r.encodingID = 0 ∧ r.languageID = 0) ∨
  (r.platformID = 3 ∧ r.encodingID = 1 ∧ r.languageID = 0x0409)

instance (r : NameRecord) : Decidable (IsEnglish r) := by
  unfold IsEnglish; infer_instance

/-- A name record on which the English test stops the program: a platform ID above 4, or a
Macintosh or Windows record whose language ID is 0x8000 or more or whose encoding is not
the expected one (0 for Macintosh, 1 for Windows). -/
def NameError (r : NameRecord) : Prop :=
  4 < r.platformID ∨
  (r.platformID = 1 ∧ (0x8000 ≤ r.languageID ∨ r.encodingID ≠ 0)) ∨
  (r.platformID = 3 ∧ (0x8000 ≤ r.languageID ∨ r.encodingID ≠ 1))

instance (r : NameRecord) : Decidable (NameError r) := by
  unfold NameError; infer_instance

/-- A name table with four records: a Unicode-platform record with nameID 1, a Windows
English record with nameID 2, a Windows French record with nameID 1 and a Windows English
record with nameID 1 (strings "Un", "Rg", "Fr", "En" in UTF-16BE). -/
def mixed_name_table : Name_table :=
  { format := 0, count := 4, stringOffset := 54,
    nameRecord :=
      [{ platformID := 0, encodingID := 3, languageID := 0, nameID := 1, length := 4, offset := 0 },
       { platformID := 3, encodingID := 1, languageID := 0x0409, nameID := 2, length := 4, offset := 4 },
       { platformID := 3, encodingID := 1, languageID := 0x040C, nameID := 1, length := 4, offset := 8 },
       { platformID := 3, encodingID := 1, languageID := 0x0409, nameID := 1, length := 4, offset := 12 }],
    langTagCount := 0, langTagRecord := [],
    names := [[0, 0x55, 0, 0x6E], [0, 0x52, 0, 0x67], [0, 0x46, 0, 0x72], [0, 0x45, 0, 0x6E]] }

/-- A name table whose only record is a Unicode-platform (platform 0) record with nameID 1. -/
def unicode_name_table : Name_table :=
  { format := 0, count := 1, stringOffset := 18,
    nameRecord :=
      [{ platformID := 0, encodingID := 3, languageID := 0, nameID := 1, length := 4, offset := 0 }],
    langTagCount := 0, langTagRecord := [],
    names := [[0, 0x55, 0, 0x6E]] }

/-- A name table whose only record is a Windows record with nameID 1 and language ID
0x8001. -/
def bad_language_table : Name_table :=
  { format := 0, count := 1, stringOffset := 18,
    nameRecord :=
      [{ platformID := 3, encodingID := 1, languageID := 0x8001, nameID := 1, length := 4, offset := 0 }],
    langTagCount := 0, langTagRecord := [],
    names := [[0, 0x55, 0, 0x6E]] }

/-- A name table whose only record is a Macintosh English record with nameID 1 and length
32769, over a string of that many bytes 'A'. -/
def long_mac_table : Name_table :=
  { format := 0, count := 1, stringOffset := 18,
    nameRecord :=
      [{ platformID := 1, encodingID := 0, languageID := 0, nameID := 1, length := 32769,
         offset := 0 }],
    langTagCount := 0, langTagRecord := [],
    names := [List.replicate 32769 0x41] }

/-- The standard UTF-8 encoding of a code point up to 0x10FFFF, by the table of the
standard: one byte `0xxxxxxx` up to 0x7F, two bytes `110xxxxx 10xxxxxx` up to 0x7FF, three
bytes `1110xxxx 10xxxxxx 10xxxxxx` up to 0xFFFF, and four bytes
`11110xxx 10xxxxxx 10xxxxxx 10xxxxxx` above, the payload bits being those of the code point,
most significant first. -/
def utf8_standard (c : Nat) : List Byte :=
  if c ≤ 0x7F then [toByte c]
  else if c ≤ 0x7FF then [toByte (0xC0 + c / 64), toByte (0x80 + c % 64)]
  else if c ≤ 0xFFFF then
    [toByte (0xE0 + c / 4096), toByte (0x80 + c / 64 % 64), toByte (0x80 + c % 64)]
  else
    [toByte (0xF0 + c / 262144), toByte (0x80 + c / 4096 % 64), toByte (0x80 + c / 64 % 64),
     toByte (0x80 + c % 64)]

/-- The keywords of the fsType line as the embedding-permission rule words them: at most one
primary keyword by priority (installable for the value 0, else editable for bit 0x0008, else
preview-and-print for bit 0x0004, else restricted for bit 0x0002), then no-subsetting for
bit 0x0100 and bitmap-only for bit 0x0200. -/
def fsType_keywords (t : Nat) : List String :=
  (if t = 0 then [" installable"]
   else if t.testBit 3 then [" editable"]
   else if t.testBit 2 then [" preview-and-print"]
   else if t.testBit 1 then [" restricted"]
   else []) ++
  (if t.testBit 8 then [" no-subsetting"] else []) ++
  (if t.testBit 9 then [" bitmap-only"] else [])

/-- Bit `g` of the 128-bit Unicode range of a header, counted through the four words in
order: bit `g % 32` of `UnicodeRange(g / 32 + 1)`. -/
def unicode_bit (h : EOT_header) (g : Nat) : Bool :=
  (unicode_range_word h (g / 32 + 1)).testBit (g % 32)

/-- The keyword that `print_unicode_range` has for bit `g` of the 128-bit Unicode range
(with its leading space), `""` for a bit without keyword. -/
def unicode_range_keyword (g : Nat) : String :=
  (unicode_range_statements.getD g (0, 0, "")).2.2

/-- The header `a` with the Unicode range words of `b` or-ed into its own. -/
def merge_unicode_ranges (a b : EOT_header) : EOT_header :=
  { a with
    UnicodeRange1 := a.UnicodeRange1 ||| b.UnicodeRange1,
    UnicodeRange2 := a.UnicodeRange2 ||| b.UnicodeRange2,
    UnicodeRange3 := a.UnicodeRange3 ||| b.UnicodeRange3,
    UnicodeRange4 := a.UnicodeRange4 ||| b.UnicodeRange4 }

/-- The initial header with bit 27 of UnicodeRange4 set and no other range bit. -/
def reserved_bit_header : EOT_header :=
  { initialize_EOT_header with UnicodeRange4 := 0x08000000 }

/-- The initial header with UnicodeRange1 = 0x00000001. -/
def latin_range_header : EOT_header :=
  { initialize_EOT_header with UnicodeRange1 := 0x00000001 }

/-- The initial header with UnicodeRange1 = 0x80000000. -/
def punctuation_range_header : EOT_header :=
  { initialize_EOT_header with UnicodeRange1 := 0x80000000 }

/-- The UTF-16LE code units of a buffer: low byte + 256 * high byte for each pair of bytes
(a last unpaired byte is not a code unit). -/
def code_units : List Byte → List Nat
  | lo :: hi :: rest => (lo.val + 256 * hi.val) :: code_units rest
  | _ => []

/-- What one code unit contributes to a printed line: its UTF-8 encoding when it is not
zero; for the value 0 nothing in a name line (`blank = false`) and one space in the
RootString line (`blank = true`). -/
def render_unit (blank : Bool) (c : Nat) : List Byte :=
  if c ≠ 0 then putUTF8 (c : Int) else if blank then [0x20] else []

/-- The header `sample_header` with a family name of 65535 bytes 'A'. -/
def long_name_header : EOT_header :=
  { sample_header with FamilyNameSize := 65535, FamilyName := List.replicate 65535 0x41 }

/-- The header `sample_header` with a family name of one byte. -/
def odd_name_header : EOT_header :=
  { sample_header with FamilyNameSize := 1, FamilyName := [0x41] }

/-- The initial header with the family name 'A', a zero code unit, 'B'. -/
def zero_unit_header : EOT_header :=
  { initialize_EOT_header with FamilyNameSize := 6, FamilyName := [0x41, 0, 0, 0, 0x42, 0] }

/-- The metadata of header `h` is that of the font `file`: the OS/2 fields decoded
big-endian at their offsets in the table of directory record `os2`, the checksum adjustment
at offset 8 of the table of directory record `head`, FontDataSize the file length, and
Flags, Charset, Version and MagicNumber those of the starting header `h0`. -/
structure MetadataMapped (file : List Byte) (h0 h : EOT_header)
    (os2 head : sfnt_table_record) : Prop where
  FontPANOSE : h.FontPANOSE = (file.drop (os2.offset + 32)).take 10
  Weight : h.Weight = u16be_at file (os2.offset + 4)
  fsType : h.fsType = u16be_at file (os2.offset + 8)
  Italic : h.Italic.val = u16be_at file (os2.offset + 62) &&& 0x01
  UnicodeRange1 : h.UnicodeRange1 = u32be_at file (os2.offset + 42)
  UnicodeRange2 : h.UnicodeRange2 = u32be_at file (os2.offset + 46)
  UnicodeRange3 : h.UnicodeRange3 = u32be_at file (os2.offset + 50)
  UnicodeRange4 : h.UnicodeRange4 = u32be_at file (os2.offset + 54)
  CodePageRange1 : h.CodePageRange1 = u32be_at file (os2.offset + 78)
  CodePageRange2 : h.CodePageRange2 = u32be_at file (os2.offset + 82)
  CheckSumAdjustment : h.CheckSumAdjustment = u32be_at file (head.offset + 8)
  FontDataSize : h.FontDataSize = file.length
  Flags : h.Flags = h0.Flags
  Charset : h.Charset = h0.Charset
  Version : h.Version = h0.Version
  MagicNumber : h.MagicNumber = h0.MagicNumber
  version_le : u16be_at file os2.offset ≤ 4

/-- What `read_some_opentype_data` stores in header `h` for the font `file`: as in
`MetadataMapped`, except that each 4-byte field is the value that `read_4be` returns for
it. -/
structure MetadataStored (file : List Byte) (h0 h : EOT_header)
    (os2 head : sfnt_table_record) : Prop where
  FontPANOSE : h.FontPANOSE = (file.drop (os2.offset + 32)).take 10
  Weight : h.Weight = u16be_at file (os2.offset + 4)
  fsType : h.fsType = u16be_at file (os2.offset + 8)
  Italic : h.Italic.val = u16be_at file (os2.offset + 62) &&& 0x01
  UnicodeRange1 : h.UnicodeRange1 = int_to_ulong (u32be_at file (os2.offset + 42))
  UnicodeRange2 : h.UnicodeRange2 = int_to_ulong (u32be_at file (os2.offset + 46))
  UnicodeRange3 : h.UnicodeRange3 = int_to_ulong (u32be_at file (os2.offset + 50))
  UnicodeRange4 : h.UnicodeRange4 = int_to_ulong (u32be_at file (os2.offset + 54))
  CodePageRange1 : h.CodePageRange1 = int_to_ulong (u32be_at file (os2.offset + 78))
  CodePageRange2 : h.CodePageRange2 = int_to_ulong (u32be_at file (os2.offset + 82))
  CheckSumAdjustment : h.CheckSumAdjustment = int_to_ulong (u32be_at file (head.offset + 8))
  FontDataSize : h.FontDataSize = file.length
  Flags : h.Flags = h0.Flags
  Charset : h.Charset = h0.Charset
  Version : h.Version = h0.Version
  MagicNumber : h.MagicNumber = h0.MagicNumber
  version_le : u16be_at file os2.offset ≤ 4

/-- The font `sample_font` with the version field of its OS/2 table (offset 60) set to 5. -/
def os2_version5_font : List Byte := sample_font.set 61 0x05

/-- One URL argument of 32767 characters 'a': its encoded length is 65536. -/
def long_urls : List (List Byte) := [List.replicate 32767 0x61]

/-! ## Lemmas on the primitive codec -/

theorem toByte_val (n : Nat) : (toByte n).val = n % 256 := rfl

theorem and_shiftLeft_shiftRight (x m k : Nat) :
    (x &&& (m <<< k)) >>> k = (x >>> k) &&& m := by
  apply Nat.eq_of_testBit_eq
  intro j
  simp [Nat.testBit_shiftLeft]

theorem write_4le_eq (x : Nat) :
    write_4le x = [toByte x, toByte (x / 2^8), toByte (x / 2^16), toByte (x / 2^24)] := by
  have h1 : x &&& 0xff = x % 2^8 := Nat.and_pow_two_sub_one_eq_mod x 8
  have h2 : (x &&& 0xff00) >>> 8 = (x / 2^8) % 2^8 := by
    rw [show (0xff00 : Nat) = 0xff <<< 8 by decide, and_shiftLeft_shiftRight,
      Nat.shiftRight_eq_div_pow]
    exact Nat.and_pow_two_sub_one_eq_mod _ 8
  have h3 : (x &&& 0xff0000) >>> 16 = (x / 2^16) % 2^8 := by
    rw [show (0xff0000 : Nat) = 0xff <<< 16 by decide, and_shiftLeft_shiftRight,
      Nat.shiftRight_eq_div_pow]
    exact Nat.and_pow_two_sub_one_eq_mod _ 8
  have h4 : x >>> 24 = x / 2^24 := Nat.shiftRight_eq_div_pow x 24
  unfold write_4le
  rw [h1, h2, h3, h4]
  simp [toByte, Fin.ext_iff]

theorem write_2le_eq (x : Nat) : write_2le x = [toByte x, toByte (x / 2^8)] := by
  have h1 : x &&& 0xff = x % 2^8 := Nat.and_pow_two_sub_one_eq_mod x 8
  unfold write_2le
  rw [h1, Nat.shiftRight_eq_div_pow]
  simp [toByte, Fin.ext_iff]

theorem int_to_ulong_of_lt {v : Nat} (h : v < 2 ^ 31) : int_to_ulong v = v := by
  unfold int_to_ulong
  rw [if_pos h]

theorem int_to_ulong_of_ge {v : Nat} (h : 2 ^ 31 ≤ v) :
    int_to_ulong v = v + (2 ^ 64 - 2 ^ 32) := by
  unfold int_to_ulong
  rw [if_neg (by omega)]

theorem int_to_ulong_cases (v : Nat) :
    int_to_ulong v = v ∨ int_to_ulong v = v + (2 ^ 64 - 2 ^ 32) := by
  unfold int_to_ulong
  split
  · exact Or.inl rfl
  · exact Or.inr rfl

theorem int_to_ulong_mod {v : Nat} (h : v < 2 ^ 32) : int_to_ulong v % 2 ^ 32 = v := by
  rcases int_to_ulong_cases v with e | e <;> rw [e] <;> omega

theorem int_to_ulong_lt {v : Nat} (h : v < 2 ^ 32) : int_to_ulong v < 2 ^ 64 := by
  rcases int_to_ulong_cases v with e | e <;> rw [e] <;> omega

theorem int_to_ulong_eq_iff {v c : Nat} (hc : c < 2 ^ 31) : int_to_ulong v = c ↔ v = c := by
  unfold int_to_ulong
  split <;> omega

theorem read_ulong_write_4le (x : Nat) (r : List Byte) :
    read_ulong (write_4le x ++ r) = some (int_to_ulong (x % 2^32), r) := by
  simp only [write_4le_eq, read_ulong, List.cons_append, List.nil_append, toByte_val,
    Nat.shiftLeft_eq, Option.some.injEq, Prod.mk.injEq, and_true]
  congr 1
  omega

theorem read_ushort_write_2le (x : Nat) (r : List Byte) :
    read_ushort (write_2le x ++ r) = some (x % 2^16, r) := by
  simp only [write_2le_eq, read_ushort, List.cons_append, List.nil_append, toByte_val,
    Nat.shiftLeft_eq, Option.some.injEq, Prod.mk.injEq, and_true]
  omega

theorem read_ulong_write_4le_of_lt {x : Nat} (hx : x < 2^31) (r : List Byte) :
    read_ulong (write_4le x ++ r) = some (x, r) := by
  rw [read_ulong_write_4le, Nat.mod_eq_of_lt (by omega), int_to_ulong_of_lt hx]

theorem read_ulong_write_4le_of_fits {x : Nat} (hx : x < 2^32) (r : List Byte) :
    read_ulong (write_4le x ++ r) = some (int_to_ulong x, r) := by
  rw [read_ulong_write_4le, Nat.mod_eq_of_lt hx]

theorem read_ushort_write_2le_of_lt {x : Nat} (hx : x < 2^16) (r : List Byte) :
    read_ushort (write_2le x ++ r) = some (x, r) := by
  rw [read_ushort_write_2le, Nat.mod_eq_of_lt hx]

theorem read_1_write_1 (x : Byte) (r : List Byte) : read_1 (write_1 x ++ r) = some (x, r) := rfl

theorem fread_fwrite {buf : List Byte} {n : Nat} (hn : n ≤ buf.length) (r : List Byte) :
    fread n (fwrite buf n ++ r) = some (buf.take n, r) := by
  have hl : (List.take n buf).length = n := List.length_take_of_le hn
  unfold fread fwrite
  rw [if_pos (by simp [hl])]
  congr 2
  · rw [List.take_append_of_le_length (by omega), List.take_of_length_le (by omega)]
  · rw [List.drop_append_of_le_length (by omega), List.drop_of_length_le (by omega)]
    rfl

theorem failIf_false {c : Prop} [Decidable c] (hc : ¬ c) (f : List Byte) :
    failIf c f = some ((), f) := by
  unfold failIf
  rw [if_neg hc]
  rfl

theorem failIf_true {c : Prop} [Decidable c] (hc : c) (f : List Byte) :
    failIf c f = none := by
  unfold failIf
  rw [if_pos hc]
  rfl

theorem failIf_ne_self {α : Type} (a : α) [Decidable (a ≠ a)] (f : List Byte) :
    failIf (a ≠ a) f = some ((), f) := failIf_false (fun hne => hne rfl) f

theorem Parser.bind_apply {α β : Type} (p : Parser α) (q : α → Parser β) (f : List Byte) :
    (p >>= q) f = match p f with | none => none | some (a, r) => q a r := rfl

theorem Parser.pure_apply {α : Type} (a : α) (f : List Byte) :
    (Pure.pure a : Parser α) f = some (a, f) := rfl

theorem Parser.bind_inv {α β : Type} {p : Parser α} {q : α → Parser β} {f r : List Byte}
    {b : β}
    (h : (p >>= q) f = some (b, r)) : ∃ a r1, p f = some (a, r1) ∧ q a r1 = some (b, r) := by
  rw [Parser.bind_apply] at h
  cases hp : p f with
  | none => simp [hp] at h
  | some ar => exact ⟨ar.1, ar.2, rfl, by simpa [hp] using h⟩

theorem read_ulong_inv {f r : List Byte} {x : Nat} (h : read_ulong f = some (x, r)) :
    f = write_4le x ++ r ∧ x < 2 ^ 64 := by
  match f, h with
  | s0 :: s1 :: s2 :: s3 :: f, h =>
    simp only [read_ulong, Option.some.injEq, Prod.mk.injEq, Nat.shiftLeft_eq] at h
    obtain ⟨rfl, rfl⟩ := h
    refine ⟨?_, int_to_ulong_lt (by omega)⟩
    rcases int_to_ulong_cases (s3.val * 2 ^ 24 + s2.val * 2 ^ 16 + s1.val * 2 ^ 8 + s0.val)
      with e | e
    all_goals
      rw [e]
      simp only [write_4le_eq, List.cons_append, List.nil_append, toByte,
        List.cons.injEq, Fin.ext_iff, and_true]
      omega

theorem read_ushort_inv {f r : List Byte} {x : Nat} (h : read_ushort f = some (x, r)) :
    f = write_2le x ++ r ∧ x < 2 ^ 16 := by
  match f, h with
  | s0 :: s1 :: f, h =>
    simp only [read_ushort, Option.some.injEq, Prod.mk.injEq] at h
    obtain ⟨rfl, rfl⟩ := h
    refine ⟨?_, Nat.mod_lt _ (by norm_num)⟩
    simp only [write_2le_eq, List.cons_append, List.nil_append, Nat.shiftLeft_eq, toByte,
      List.cons.injEq, Fin.ext_iff, and_true]
    omega

theorem read_1_inv {f r : List Byte} {x : Byte} (h : read_1 f = some (x, r)) :
    f = write_1 x ++ r := by
  match f, h with
  | s0 :: f, h =>
    simp only [read_1, Option.some.injEq, Prod.mk.injEq] at h
    obtain ⟨rfl, rfl⟩ := h
    rfl

theorem fread_inv {n : Nat} {f r a : List Byte} (h : fread n f = some (a, r)) :
    f = fwrite a n ++ r ∧ a.length = n := by
  unfold fread at h
  split at h
  · rename_i hle
    simp only [Option.some.injEq, Prod.mk.injEq] at h
    obtain ⟨rfl, rfl⟩ := h
    have hl : (List.take n f).length = n := List.length_take_of_le hle
    refine ⟨?_, hl⟩
    unfold fwrite
    rw [List.take_take, Nat.min_self, List.take_append_drop]
  · simp at h

theorem failIf_inv {c : Prop} [Decidable c] {f r : List Byte} {u : Unit}
    (h : failIf c f = some (u, r)) : ¬ c ∧ r = f := by
  unfold failIf at h
  split at h
  · simp [Parser.fail] at h
  · rename_i hc
    simp only [Parser.pure, Option.some.injEq, Prod.mk.injEq] at h
    exact ⟨hc, h.2.symm⟩

/-! ## What a successful `read_EOT_header` says about its input -/

/-- A header that `read_EOT_header` returns re-serialises to the bytes that were consumed:
the input is the writer's layout of the returned header up to FullName, followed, for
versions 0x00020001 and 0x00020002, by a zero Padding5 and the root string, followed by the
unread bytes. -/
theorem read_EOT_header_inv {h0 h : EOT_header} {f r : List Byte}
    (hr : read_EOT_header h0 f = some (h, r)) :
    ReadFixed h ∧
    ((h.Version = 0x0001000 ∧ f = write_EOT_header_fixed h ++ r) ∨
     ((h.Version = 0x00020001 ∨ h.Version = 0x00020002) ∧ h.Padding5 = 0 ∧
      h.RootStringSize < 2 ^ 16 ∧ h.RootString.length = h.RootStringSize ∧
      f = write_EOT_header_fixed h ++ (write_2le h.Padding5 ++ (write_2le h.RootStringSize ++
        (fwrite h.RootString h.RootStringSize ++ r))))) := by
  unfold read_EOT_header at hr
  obtain ⟨EOTSize, gEOTSize, eEOTSize, hrEOTSize⟩ := Parser.bind_inv hr
  clear hr
  have iEOTSize := read_ulong_inv eEOTSize
  clear eEOTSize
  obtain ⟨rfl, lEOTSize⟩ := iEOTSize
  obtain ⟨FontDataSize, gFontDataSize, eFontDataSize, hrFontDataSize⟩ := Parser.bind_inv hrEOTSize
  clear hrEOTSize
  have iFontDataSize := read_ulong_inv eFontDataSize
  clear eFontDataSize
  obtain ⟨rfl, lFontDataSize⟩ := iFontDataSize
  obtain ⟨Version, gVersion, eVersion, hrVersion⟩ := Parser.bind_inv hrFontDataSize
  clear hrFontDataSize
  have iVersion := read_ulong_inv eVersion
  clear eVersion
  obtain ⟨rfl, lVersion⟩ := iVersion
  obtain ⟨Flags, gFlags, eFlags, hrFlags⟩ := Parser.bind_inv hrVersion
  clear hrVersion
  have iFlags := read_ulong_inv eFlags
  clear eFlags
  obtain ⟨rfl, lFlags⟩ := iFlags
  obtain ⟨FontPANOSE, gFontPANOSE, eFontPANOSE, hrFontPANOSE⟩ := Parser.bind_inv hrFlags
  clear hrFlags
  have iFontPANOSE := fread_inv eFontPANOSE
  clear eFontPANOSE
  obtain ⟨rfl, lFontPANOSE⟩ := iFontPANOSE
  obtain ⟨Charset, gCharset, eCharset, hrCharset⟩ := Parser.bind_inv hrFontPANOSE
  clear hrFontPANOSE
  have iCharset := read_1_inv eCharset
  clear eCharset
  subst iCharset
  obtain ⟨Italic, gItalic, eItalic, hrItalic⟩ := Parser.bind_inv hrCharset
  clear hrCharset
  have iItalic := read_1_inv eItalic
  clear eItalic
  subst iItalic
  obtain ⟨Weight, gWeight, eWeight, hrWeight⟩ := Parser.bind_inv hrItalic
  clear hrItalic
  have iWeight := read_ulong_inv eWeight
  clear eWeight
  obtain ⟨rfl, lWeight⟩ := iWeight
  obtain ⟨fsType, gfsType, efsType, hrfsType⟩ := Parser.bind_inv hrWeight
  clear hrWeight
  have ifsType := read_ushort_inv efsType
  clear efsType
  obtain ⟨rfl, lfsType⟩ := ifsType
  obtain ⟨MagicNumber, gMagicNumber, eMagicNumber, hrMagicNumber⟩ := Parser.bind_inv hrfsType
  clear hrfsType
  have iMagicNumber := read_ushort_inv eMagicNumber
  clear eMagicNumber
  obtain ⟨rfl, lMagicNumber⟩ := iMagicNumber
  obtain ⟨cMagic, gcMagic, ecMagic, hrcMagic⟩ := Parser.bind_inv hrMagicNumber
  clear hrMagicNumber
  have icMagic := failIf_inv ecMagic
  clear ecMagic
  obtain ⟨ncMagic, rfl⟩ := icMagic
  obtain ⟨UnicodeRange1, gUnicodeRange1, eUnicodeRange1, hrUnicodeRange1⟩ :=
    Parser.bind_inv hrcMagic
  clear hrcMagic
  have iUnicodeRange1 := read_ulong_inv eUnicodeRange1
  clear eUnicodeRange1
  obtain ⟨rfl, lUnicodeRange1⟩ := iUnicodeRange1
  obtain ⟨UnicodeRange2, gUnicodeRange2, eUnicodeRange2, hrUnicodeRange2⟩ :=
    Parser.bind_inv hrUnicodeRange1
  clear hrUnicodeRange1
  have iUnicodeRange2 := read_ulong_inv eUnicodeRange2
  clear eUnicodeRange2
  obtain ⟨rfl, lUnicodeRange2⟩ := iUnicodeRange2
  obtain ⟨UnicodeRange3, gUnicodeRange3, eUnicodeRange3, hrUnicodeRange3⟩ :=
    Parser.bind_inv hrUnicodeRange2
  clear hrUnicodeRange2
  have iUnicodeRange3 := read_ulong_inv eUnicodeRange3
  clear eUnicodeRange3
  obtain ⟨rfl, lUnicodeRange3⟩ := iUnicodeRange3
  obtain ⟨UnicodeRange4, gUnicodeRange4, eUnicodeRange4, hrUnicodeRange4⟩ :=
    Parser.bind_inv hrUnicodeRange3
  clear hrUnicodeRange3
  have iUnicodeRange4 := read_ulong_inv eUnicodeRange4
  clear eUnicodeRange4
  obtain ⟨rfl, lUnicodeRange4⟩ := iUnicodeRange4
  obtain ⟨CodePageRange1, gCodePageRange1, eCodePageRange1, hrCodePageRange1⟩ :=
    Parser.bind_inv hrUnicodeRange4
  clear hrUnicodeRange4
  have iCodePageRange1 := read_ulong_inv eCodePageRange1
  clear eCodePageRange1
  obtain ⟨rfl, lCodePageRange1⟩ := iCodePageRange1
  obtain ⟨CodePageRange2, gCodePageRange2, eCodePageRange2, hrCodePageRange2⟩ :=
    Parser.bind_inv hrCodePageRange1
  clear hrCodePageRange1
  have iCodePageRange2 := read_ulong_inv eCodePageRange2
  clear eCodePageRange2
  obtain ⟨rfl, lCodePageRange2⟩ := iCodePageRange2
  obtain ⟨CheckSumAdjustment, gCheckSumAdjustment, eCheckSumAdjustment, hrCheckSumAdjustment⟩ :=
    Parser.bind_inv hrCodePageRange2
  clear hrCodePageRange2
  have iCheckSumAdjustment := read_ulong_inv eCheckSumAdjustment
  clear eCheckSumAdjustment
  obtain ⟨rfl, lCheckSumAdjustment⟩ := iCheckSumAdjustment
  obtain ⟨Reserved1, gReserved1, eReserved1, hrReserved1⟩ := Parser.bind_inv hrCheckSumAdjustment
  clear hrCheckSumAdjustment
  have iReserved1 := read_ulong_inv eReserved1
  clear eReserved1
  obtain ⟨rfl, lReserved1⟩ := iReserved1
  obtain ⟨cR1, gcR1, ecR1, hrcR1⟩ := Parser.bind_inv hrReserved1
  clear hrReserved1
  have icR1 := failIf_inv ecR1
  clear ecR1
  obtain ⟨ncR1, rfl⟩ := icR1
  obtain ⟨Reserved2, gReserved2, eReserved2, hrReserved2⟩ := Parser.bind_inv hrcR1
  clear hrcR1
  have iReserved2 := read_ulong_inv eReserved2
  clear eReserved2
  obtain ⟨rfl, lReserved2⟩ := iReserved2
  obtain ⟨cR2, gcR2, ecR2, hrcR2⟩ := Parser.bind_inv hrReserved2
  clear hrReserved2
  have icR2 := failIf_inv ecR2
  clear ecR2
  obtain ⟨ncR2, rfl⟩ := icR2
  obtain ⟨Reserved3, gReserved3, eReserved3, hrReserved3⟩ := Parser.bind_inv hrcR2
  clear hrcR2
  have iReserved3 := read_ulong_inv eReserved3
  clear eReserved3
  obtain ⟨rfl, lReserved3⟩ := iReserved3
  obtain ⟨cR3, gcR3, ecR3, hrcR3⟩ := Parser.bind_inv hrReserved3
  clear hrReserved3
  have icR3 := failIf_inv ecR3
  clear ecR3
  obtain ⟨ncR3, rfl⟩ := icR3
  obtain ⟨Reserved4, gReserved4, eReserved4, hrReserved4⟩ := Parser.bind_inv hrcR3
  clear hrcR3
  have iReserved4 := read_ulong_inv eReserved4
  clear eReserved4
  obtain ⟨rfl, lReserved4⟩ := iReserved4
  obtain ⟨cR4, gcR4, ecR4, hrcR4⟩ := Parser.bind_inv hrReserved4
  clear hrReserved4
  have icR4 := failIf_inv ecR4
  clear ecR4
  obtain ⟨ncR4, rfl⟩ := icR4
  obtain ⟨Padding1, gPadding1, ePadding1, hrPadding1⟩ := Parser.bind_inv hrcR4
  clear hrcR4
  have iPadding1 := read_ushort_inv ePadding1
  clear ePadding1
  obtain ⟨rfl, lPadding1⟩ := iPadding1
  obtain ⟨cP1, gcP1, ecP1, hrcP1⟩ := Parser.bind_inv hrPadding1
  clear hrPadding1
  have icP1 := failIf_inv ecP1
  clear ecP1
  obtain ⟨ncP1, rfl⟩ := icP1
  obtain ⟨FamilyNameSize, gFamilyNameSize, eFamilyNameSize, hrFamilyNameSize⟩ :=
    Parser.bind_inv hrcP1
  clear hrcP1
  have iFamilyNameSize := read_ushort_inv eFamilyNameSize
  clear eFamilyNameSize
  obtain ⟨rfl, lFamilyNameSize⟩ := iFamilyNameSize
  obtain ⟨FamilyName, gFamilyName, eFamilyName, hrFamilyName⟩ := Parser.bind_inv hrFamilyNameSize
  clear hrFamilyNameSize
  have iFamilyName := fread_inv eFamilyName
  clear eFamilyName
  obtain ⟨rfl, lFamilyName⟩ := iFamilyName
  obtain ⟨Padding2, gPadding2, ePadding2, hrPadding2⟩ := Parser.bind_inv hrFamilyName
  clear hrFamilyName
  have iPadding2 := read_ushort_inv ePadding2
  clear ePadding2
  obtain ⟨rfl, lPadding2⟩ := iPadding2
  obtain ⟨cP2, gcP2, ecP2, hrcP2⟩ := Parser.bind_inv hrPadding2
  clear hrPadding2
  have icP2 := failIf_inv ecP2
  clear ecP2
  obtain ⟨ncP2, rfl⟩ := icP2
  obtain ⟨StyleNameSize, gStyleNameSize, eStyleNameSize, hrStyleNameSize⟩ := Parser.bind_inv hrcP2
  clear hrcP2
  have iStyleNameSize := read_ushort_inv eStyleNameSize
  clear eStyleNameSize
  obtain ⟨rfl, lStyleNameSize⟩ := iStyleNameSize
  obtain ⟨StyleName, gStyleName, eStyleName, hrStyleName⟩ := Parser.bind_inv hrStyleNameSize
  clear hrStyleNameSize
  have iStyleName := fread_inv eStyleName
  clear eStyleName
  obtain ⟨rfl, lStyleName⟩ := iStyleName
  obtain ⟨Padding3, gPadding3, ePadding3, hrPadding3⟩ := Parser.bind_inv hrStyleName
  clear hrStyleName
  have iPadding3 := read_ushort_inv ePadding3
  clear ePadding3
  obtain ⟨rfl, lPadding3⟩ := iPadding3
  obtain ⟨cP3, gcP3, ecP3, hrcP3⟩ := Parser.bind_inv hrPadding3
  clear hrPadding3
  have icP3 := failIf_inv ecP3
  clear ecP3
  obtain ⟨ncP3, rfl⟩ := icP3
  obtain ⟨VersionNameSize, gVersionNameSize, eVersionNameSize, hrVersionNameSize⟩ :=
    Parser.bind_inv hrcP3
  clear hrcP3
  have iVersionNameSize := read_ushort_inv eVersionNameSize
  clear eVersionNameSize
  obtain ⟨rfl, lVersionNameSize⟩ := iVersionNameSize
  obtain ⟨VersionName, gVersionName, eVersionName, hrVersionName⟩ :=
    Parser.bind_inv hrVersionNameSize
  clear hrVersionNameSize
  have iVersionName := fread_inv eVersionName
  clear eVersionName
  obtain ⟨rfl, lVersionName⟩ := iVersionName
  obtain ⟨Padding4, gPadding4, ePadding4, hrPadding4⟩ := Parser.bind_inv hrVersionName
  clear hrVersionName
  have iPadding4 := read_ushort_inv ePadding4
  clear ePadding4
  obtain ⟨rfl, lPadding4⟩ := iPadding4
  obtain ⟨cP4, gcP4, ecP4, hrcP4⟩ := Parser.bind_inv hrPadding4
  clear hrPadding4
  have icP4 := failIf_inv ecP4
  clear ecP4
  obtain ⟨ncP4, rfl⟩ := icP4
  obtain ⟨FullNameSize, gFullNameSize, eFullNameSize, hrFullNameSize⟩ := Parser.bind_inv hrcP4
  clear hrcP4
  have iFullNameSize := read_ushort_inv eFullNameSize
  clear eFullNameSize
  obtain ⟨rfl, lFullNameSize⟩ := iFullNameSize
  obtain ⟨FullName, gFullName, eFullName, hrFullName⟩ := Parser.bind_inv hrFullNameSize
  clear hrFullNameSize
  have iFullName := fread_inv eFullName
  clear eFullName
  obtain ⟨rfl, lFullName⟩ := iFullName
  have hr := hrFullName
  clear hrFullName
  dsimp only at hr
  split at hr
  · rename_i hv
    simp only [Parser.pure_apply, Option.some.injEq, Prod.mk.injEq] at hr
    obtain ⟨rfl, rfl⟩ := hr
    simp only [ne_eq, Decidable.not_not] at ncMagic ncR1 ncR2 ncR3 ncR4 ncP1 ncP2 ncP3 ncP4
    refine ⟨⟨ncMagic, ncR1, ncR2, ncR3, ncR4, ncP1, ncP2, ncP3, ncP4, lEOTSize, lFontDataSize,
      lVersion, lFlags, lWeight, lfsType, lUnicodeRange1, lUnicodeRange2, lUnicodeRange3,
      lUnicodeRange4, lCodePageRange1, lCodePageRange2, lCheckSumAdjustment, lFamilyNameSize,
      lStyleNameSize, lVersionNameSize, lFullNameSize, lFontPANOSE, lFamilyName, lStyleName,
      lVersionName, lFullName⟩, Or.inl ⟨hv, ?_⟩⟩
    simp only [write_EOT_header_fixed, List.append_assoc]
  · split at hr
    · rename_i hv1 hv
      obtain ⟨Padding5, gPadding5, ePadding5, hrPadding5⟩ := Parser.bind_inv hr
      clear hr
      have iPadding5 := read_ushort_inv ePadding5
      clear ePadding5
      obtain ⟨rfl, lPadding5⟩ := iPadding5
      obtain ⟨cP5, gcP5, ecP5, hrcP5⟩ := Parser.bind_inv hrPadding5
      clear hrPadding5
      have icP5 := failIf_inv ecP5
      clear ecP5
      obtain ⟨ncP5, rfl⟩ := icP5
      obtain ⟨RootStringSize, gRootStringSize, eRootStringSize, hrRootStringSize⟩ :=
        Parser.bind_inv hrcP5
      clear hrcP5
      have iRootStringSize := read_ushort_inv eRootStringSize
      clear eRootStringSize
      obtain ⟨rfl, lRootStringSize⟩ := iRootStringSize
      obtain ⟨RootString, gRootString, eRootString, hrRootString⟩ :=
        Parser.bind_inv hrRootStringSize
      clear hrRootStringSize
      have iRootString := fread_inv eRootString
      clear eRootString
      obtain ⟨rfl, lRootString⟩ := iRootString
      have hr := hrRootString
      clear hrRootString
      simp only [Parser.pure_apply, Option.some.injEq, Prod.mk.injEq] at hr
      obtain ⟨rfl, rfl⟩ := hr
      simp only [ne_eq, Decidable.not_not] at ncMagic ncR1 ncR2 ncR3 ncR4 ncP1 ncP2 ncP3 ncP4 ncP5
      refine ⟨⟨ncMagic, ncR1, ncR2, ncR3, ncR4, ncP1, ncP2, ncP3, ncP4, lEOTSize, lFontDataSize,
        lVersion, lFlags, lWeight, lfsType, lUnicodeRange1, lUnicodeRange2, lUnicodeRange3,
        lUnicodeRange4, lCodePageRange1, lCodePageRange2, lCheckSumAdjustment, lFamilyNameSize,
        lStyleNameSize, lVersionNameSize, lFullNameSize, lFontPANOSE, lFamilyName, lStyleName,
        lVersionName, lFullName⟩, Or.inr ⟨Or.inl hv, ncP5, lRootStringSize, lRootString, ?_⟩⟩
      simp only [write_EOT_header_fixed, List.append_assoc]
    · split at hr
      · rename_i hv1 hv2 hv
        obtain ⟨Padding5, gPadding5, ePadding5, hrPadding5⟩ := Parser.bind_inv hr
        clear hr
        have iPadding5 := read_ushort_inv ePadding5
        clear ePadding5
        obtain ⟨rfl, lPadding5⟩ := iPadding5
        obtain ⟨cP5, gcP5, ecP5, hrcP5⟩ := Parser.bind_inv hrPadding5
        clear hrPadding5
        have icP5 := failIf_inv ecP5
        clear ecP5
        obtain ⟨ncP5, rfl⟩ := icP5
        obtain ⟨RootStringSize, gRootStringSize, eRootStringSize, hrRootStringSize⟩ :=
          Parser.bind_inv hrcP5
        clear hrcP5
        have iRootStringSize := read_ushort_inv eRootStringSize
        clear eRootStringSize
        obtain ⟨rfl, lRootStringSize⟩ := iRootStringSize
        obtain ⟨RootString, gRootString, eRootString, hrRootString⟩ :=
          Parser.bind_inv hrRootStringSize
        clear hrRootStringSize
        have iRootString := fread_inv eRootString
        clear eRootString
        obtain ⟨rfl, lRootString⟩ := iRootString
        have hr := hrRootString
        clear hrRootString
        simp only [Parser.pure_apply, Option.some.injEq, Prod.mk.injEq] at hr
        obtain ⟨rfl, rfl⟩ := hr
        simp only [ne_eq, Decidable.not_not] at ncMagic ncR1 ncR2 ncR3 ncR4 ncP1 ncP2 ncP3 ncP4 ncP5
        refine ⟨⟨ncMagic, ncR1, ncR2, ncR3, ncR4, ncP1, ncP2, ncP3, ncP4, lEOTSize, lFontDataSize,
          lVersion, lFlags, lWeight, lfsType, lUnicodeRange1, lUnicodeRange2, lUnicodeRange3,
          lUnicodeRange4, lCodePageRange1, lCodePageRange2, lCheckSumAdjustment, lFamilyNameSize,
          lStyleNameSize, lVersionNameSize, lFullNameSize, lFontPANOSE, lFamilyName, lStyleName,
          lVersionName, lFullName⟩, Or.inr ⟨Or.inr hv, ncP5, lRootStringSize, lRootString, ?_⟩⟩
        simp only [write_EOT_header_fixed, List.append_assoc]
      · simp [Parser.fail] at hr

theorem length_write_4le (x : Nat) : (write_4le x).length = 4 := rfl

theorem length_write_2le (x : Nat) : (write_2le x).length = 2 := rfl

theorem length_write_1 (x : Byte) : (write_1 x).length = 1 := rfl

theorem length_fwrite {buf : List Byte} {n : Nat} (h : n ≤ buf.length) :
    (fwrite buf n).length = n := List.length_take_of_le h

theorem u16le_at_of_split {F : List Byte} {n : Nat} (P Q : List Byte) (x : Nat)
    (hF : F = P ++ (write_2le x ++ Q)) (hP : P.length = n) : u16le_at F n = x % 2 ^ 16 := by
  subst hF
  unfold u16le_at
  rw [List.drop_left' hP, write_2le_eq]
  simp only [List.cons_append, List.nil_append, toByte_val]
  omega

theorem u32le_at_of_split {F : List Byte} {n : Nat} (P Q : List Byte) (x : Nat)
    (hF : F = P ++ (write_4le x ++ Q)) (hP : P.length = n) : u32le_at F n = x % 2 ^ 32 := by
  subst hF
  unfold u32le_at
  rw [List.drop_left' hP, write_4le_eq]
  simp only [List.cons_append, List.nil_append, toByte_val]
  omega

theorem layout_positions (h : EOT_header) (tail : List Byte)
    (hp : 10 ≤ h.FontPANOSE.length) (hfam : h.FamilyNameSize ≤ h.FamilyName.length)
    (hsty : h.StyleNameSize ≤ h.StyleName.length)
    (hver : h.VersionNameSize ≤ h.VersionName.length) :
    u32le_at (write_EOT_header_fixed h ++ tail)
        (8) = h.Version % 2 ^ 32 ∧
    u16le_at (write_EOT_header_fixed h ++ tail)
        (34) = h.MagicNumber % 2 ^ 16 ∧
    u32le_at (write_EOT_header_fixed h ++ tail)
        (64) = h.Reserved1 % 2 ^ 32 ∧
    u32le_at (write_EOT_header_fixed h ++ tail)
        (68) = h.Reserved2 % 2 ^ 32 ∧
    u32le_at (write_EOT_header_fixed h ++ tail)
        (72) = h.Reserved3 % 2 ^ 32 ∧
    u32le_at (write_EOT_header_fixed h ++ tail)
        (76) = h.Reserved4 % 2 ^ 32 ∧
    u16le_at (write_EOT_header_fixed h ++ tail)
        (80) = h.Padding1 % 2 ^ 16 ∧
    u16le_at (write_EOT_header_fixed h ++ tail)
        (82) = h.FamilyNameSize % 2 ^ 16 ∧
    u16le_at (write_EOT_header_fixed h ++ tail)
        (84 + h.FamilyNameSize) = h.Padding2 % 2 ^ 16 ∧
    u16le_at (write_EOT_header_fixed h ++ tail)
        (86 + h.FamilyNameSize) = h.StyleNameSize % 2 ^ 16 ∧
    u16le_at (write_EOT_header_fixed h ++ tail)
        (88 + h.FamilyNameSize + h.StyleNameSize) = h.Padding3 % 2 ^ 16 ∧
    u16le_at (write_EOT_header_fixed h ++ tail)
        (90 + h.FamilyNameSize + h.StyleNameSize) = h.VersionNameSize % 2 ^ 16 ∧
    u16le_at (write_EOT_header_fixed h ++ tail)
        (92 + h.FamilyNameSize + h.StyleNameSize + h.VersionNameSize) = h.Padding4 % 2 ^ 16 ∧
    u16le_at (write_EOT_header_fixed h ++ tail)
        (94 + h.FamilyNameSize + h.StyleNameSize + h.VersionNameSize) = h.FullNameSize % 2 ^ 16 := by
  refine ⟨?_, ?_, ?_, ?_, ?_, ?_, ?_, ?_, ?_, ?_, ?_, ?_, ?_, ?_⟩
  · exact u32le_at_of_split
      (write_4le h.EOTSize ++ write_4le h.FontDataSize)
      (write_4le h.Flags ++ fwrite h.FontPANOSE 10 ++ write_1 h.Charset ++ write_1 h.Italic ++
        write_4le h.Weight ++ write_2le h.fsType ++ write_2le h.MagicNumber ++
        write_4le h.UnicodeRange1 ++ write_4le h.UnicodeRange2 ++ write_4le h.UnicodeRange3 ++
        write_4le h.UnicodeRange4 ++ write_4le h.CodePageRange1 ++
        write_4le h.CodePageRange2 ++ write_4le h.CheckSumAdjustment ++
        write_4le h.Reserved1 ++ write_4le h.Reserved2 ++ write_4le h.Reserved3 ++
        write_4le h.Reserved4 ++ write_2le h.Padding1 ++ write_2le h.FamilyNameSize ++
        fwrite h.FamilyName h.FamilyNameSize ++ write_2le h.Padding2 ++
        write_2le h.StyleNameSize ++ fwrite h.StyleName h.StyleNameSize ++
        write_2le h.Padding3 ++ write_2le h.VersionNameSize ++
        fwrite h.VersionName h.VersionNameSize ++ write_2le h.Padding4 ++
        write_2le h.FullNameSize ++ fwrite h.FullName h.FullNameSize ++ tail) h.Version
      (by simp only [write_EOT_header_fixed, List.append_assoc])
      (by simp only [List.length_append, length_write_4le, length_write_2le, length_write_1,
            length_fwrite hp, length_fwrite hfam, length_fwrite hsty, length_fwrite hver]
)
  · exact u16le_at_of_split
      (write_4le h.EOTSize ++ write_4le h.FontDataSize ++ write_4le h.Version ++
        write_4le h.Flags ++ fwrite h.FontPANOSE 10 ++ write_1 h.Charset ++ write_1 h.Italic ++
        write_4le h.Weight ++ write_2le h.fsType)
      (write_4le h.UnicodeRange1 ++ write_4le h.UnicodeRange2 ++ write_4le h.UnicodeRange3 ++
        write_4le h.UnicodeRange4 ++ write_4le h.CodePageRange1 ++
        write_4le h.CodePageRange2 ++ write_4le h.CheckSumAdjustment ++
        write_4le h.Reserved1 ++ write_4le h.Reserved2 ++ write_4le h.Reserved3 ++
        write_4le h.Reserved4 ++ write_2le h.Padding1 ++ write_2le h.FamilyNameSize ++
        fwrite h.FamilyName h.FamilyNameSize ++ write_2le h.Padding2 ++
        write_2le h.StyleNameSize ++ fwrite h.StyleName h.StyleNameSize ++
        write_2le h.Padding3 ++ write_2le h.VersionNameSize ++
        fwrite h.VersionName h.VersionNameSize ++ write_2le h.Padding4 ++
        write_2le h.FullNameSize ++ fwrite h.FullName h.FullNameSize ++ tail) h.MagicNumber
      (by simp only [write_EOT_header_fixed, List.append_assoc])
      (by simp only [List.length_append, length_write_4le, length_write_2le, length_write_1,
            length_fwrite hp, length_fwrite hfam, length_fwrite hsty, length_fwrite hver]
)
  · exact u32le_at_of_split
      (write_4le h.EOTSize ++ write_4le h.FontDataSize ++ write_4le h.Version ++
        write_4le h.Flags ++ fwrite h.FontPANOSE 10 ++ write_1 h.Charset ++ write_1 h.Italic ++
        write_4le h.Weight ++ write_2le h.fsType ++ write_2le h.MagicNumber ++
        write_4le h.UnicodeRange1 ++ write_4le h.UnicodeRange2 ++ write_4le h.UnicodeRange3 ++
        write_4le h.UnicodeRange4 ++ write_4le h.CodePageRange1 ++
        write_4le h.CodePageRange2 ++ write_4le h.CheckSumAdjustment)
      (write_4le h.Reserved2 ++ write_4le h.Reserved3 ++ write_4le h.Reserved4 ++
        write_2le h.Padding1 ++ write_2le h.FamilyNameSize ++
        fwrite h.FamilyName h.FamilyNameSize ++ write_2le h.Padding2 ++
        write_2le h.StyleNameSize ++ fwrite h.StyleName h.StyleNameSize ++
        write_2le h.Padding3 ++ write_2le h.VersionNameSize ++
        fwrite h.VersionName h.VersionNameSize ++ write_2le h.Padding4 ++
        write_2le h.FullNameSize ++ fwrite h.FullName h.FullNameSize ++ tail) h.Reserved1
      (by simp only [write_EOT_header_fixed, List.append_assoc])
      (by simp only [List.length_append, length_write_4le, length_write_2le, length_write_1,
            length_fwrite hp, length_fwrite hfam, length_fwrite hsty, length_fwrite hver]
)
  · exact u32le_at_of_split
      (write_4le h.EOTSize ++ write_4le h.FontDataSize ++ write_4le h.Version ++
        write_4le h.Flags ++ fwrite h.FontPANOSE 10 ++ write_1 h.Charset ++ write_1 h.Italic ++
        write_4le h.Weight ++ write_2le h.fsType ++ write_2le h.MagicNumber ++
        write_4le h.UnicodeRange1 ++ write_4le h.UnicodeRange2 ++ write_4le h.UnicodeRange3 ++
        write_4le h.UnicodeRange4 ++ write_4le h.CodePageRange1 ++
        write_4le h.CodePageRange2 ++ write_4le h.CheckSumAdjustment ++
        write_4le h.Reserved1)
      (write_4le h.Reserved3 ++ write_4le h.Reserved4 ++ write_2le h.Padding1 ++
        write_2le h.FamilyNameSize ++ fwrite h.FamilyName h.FamilyNameSize ++
        write_2le h.Padding2 ++ write_2le h.StyleNameSize ++
        fwrite h.StyleName h.StyleNameSize ++ write_2le h.Padding3 ++
        write_2le h.VersionNameSize ++ fwrite h.VersionName h.VersionNameSize ++
        write_2le h.Padding4 ++ write_2le h.FullNameSize ++ fwrite h.FullName h.FullNameSize ++
        tail) h.Reserved2
      (by simp only [write_EOT_header_fixed, List.append_assoc])
      (by simp only [List.length_append, length_write_4le, length_write_2le, length_write_1,
            length_fwrite hp, length_fwrite hfam, length_fwrite hsty, length_fwrite hver]
)
  · exact u32le_at_of_split
      (write_4le h.EOTSize ++ write_4le h.FontDataSize ++ write_4le h.Version ++
        write_4le h.Flags ++ fwrite h.FontPANOSE 10 ++ write_1 h.Charset ++ write_1 h.Italic ++
        write_4le h.Weight ++ write_2le h.fsType ++ write_2le h.MagicNumber ++
        write_4le h.UnicodeRange1 ++ write_4le h.UnicodeRange2 ++ write_4le h.UnicodeRange3 ++
        write_4le h.UnicodeRange4 ++ write_4le h.CodePageRange1 ++
        write_4le h.CodePageRange2 ++ write_4le h.CheckSumAdjustment ++
        write_4le h.Reserved1 ++ write_4le h.Reserved2)
      (write_4le h.Reserved4 ++ write_2le h.Padding1 ++ write_2le h.FamilyNameSize ++
        fwrite h.FamilyName h.FamilyNameSize ++ write_2le h.Padding2 ++
        write_2le h.StyleNameSize ++ fwrite h.StyleName h.StyleNameSize ++
        write_2le h.Padding3 ++ write_2le h.VersionNameSize ++
        fwrite h.VersionName h.VersionNameSize ++ write_2le h.Padding4 ++
        write_2le h.FullNameSize ++ fwrite h.FullName h.FullNameSize ++ tail) h.Reserved3
      (by simp only [write_EOT_header_fixed, List.append_assoc])
      (by simp only [List.length_append, length_write_4le, length_write_2le, length_write_1,
            length_fwrite hp, length_fwrite hfam, length_fwrite hsty, length_fwrite hver]
)
  · exact u32le_at_of_split
      (write_4le h.EOTSize ++ write_4le h.FontDataSize ++ write_4le h.Version ++
        write_4le h.Flags ++ fwrite h.FontPANOSE 10 ++ write_1 h.Charset ++ write_1 h.Italic ++
        write_4le h.Weight ++ write_2le h.fsType ++ write_2le h.MagicNumber ++
        write_4le h.UnicodeRange1 ++ write_4le h.UnicodeRange2 ++ write_4le h.UnicodeRange3 ++
        write_4le h.UnicodeRange4 ++ write_4le h.CodePageRange1 ++
        write_4le h.CodePageRange2 ++ write_4le h.CheckSumAdjustment ++
        write_4le h.Reserved1 ++ write_4le h.Reserved2 ++ write_4le h.Reserved3)
      (write_2le h.Padding1 ++ write_2le h.FamilyNameSize ++
        fwrite h.FamilyName h.FamilyNameSize ++ write_2le h.Padding2 ++
        write_2le h.StyleNameSize ++ fwrite h.StyleName h.StyleNameSize ++
        write_2le h.Padding3 ++ write_2le h.VersionNameSize ++
        fwrite h.VersionName h.VersionNameSize ++ write_2le h.Padding4 ++
        write_2le h.FullNameSize ++ fwrite h.FullName h.FullNameSize ++ tail) h.Reserved4
      (by simp only [write_EOT_header_fixed, List.append_assoc])
      (by simp only [List.length_append, length_write_4le, length_write_2le, length_write_1,
            length_fwrite hp, length_fwrite hfam, length_fwrite hsty, length_fwrite hver]
)
  · exact u16le_at_of_split
      (write_4le h.EOTSize ++ write_4le h.FontDataSize ++ write_4le h.Version ++
        write_4le h.Flags ++ fwrite h.FontPANOSE 10 ++ write_1 h.Charset ++ write_1 h.Italic ++
        write_4le h.Weight ++ write_2le h.fsType ++ write_2le h.MagicNumber ++
        write_4le h.UnicodeRange1 ++ write_4le h.UnicodeRange2 ++ write_4le h.UnicodeRange3 ++
        write_4le h.UnicodeRange4 ++ write_4le h.CodePageRange1 ++
        write_4le h.CodePageRange2 ++ write_4le h.CheckSumAdjustment ++
        write_4le h.Reserved1 ++ write_4le h.Reserved2 ++ write_4le h.Reserved3 ++
        write_4le h.Reserved4)
      (write_2le h.FamilyNameSize ++ fwrite h.FamilyName h.FamilyNameSize ++
        write_2le h.Padding2 ++ write_2le h.StyleNameSize ++
        fwrite h.StyleName h.StyleNameSize ++ write_2le h.Padding3 ++
        write_2le h.VersionNameSize ++ fwrite h.VersionName h.VersionNameSize ++
        write_2le h.Padding4 ++ write_2le h.FullNameSize ++ fwrite h.FullName h.FullNameSize ++
        tail) h.Padding1
      (by simp only [write_EOT_header_fixed, List.append_assoc])
      (by simp only [List.length_append, length_write_4le, length_write_2le, length_write_1,
            length_fwrite hp, length_fwrite hfam, length_fwrite hsty, length_fwrite hver]
)
  · exact u16le_at_of_split
      (write_4le h.EOTSize ++ write_4le h.FontDataSize ++ write_4le h.Version ++
        write_4le h.Flags ++ fwrite h.FontPANOSE 10 ++ write_1 h.Charset ++ write_1 h.Italic ++
        write_4le h.Weight ++ write_2le h.fsType ++ write_2le h.MagicNumber ++
        write_4le h.UnicodeRange1 ++ write_4le h.UnicodeRange2 ++ write_4le h.UnicodeRange3 ++
        write_4le h.UnicodeRange4 ++ write_4le h.CodePageRange1 ++
        write_4le h.CodePageRange2 ++ write_4le h.CheckSumAdjustment ++
        write_4le h.Reserved1 ++ write_4le h.Reserved2 ++ write_4le h.Reserved3 ++
        write_4le h.Reserved4 ++ write_2le h.Padding1)
      (fwrite h.FamilyName h.FamilyNameSize ++ write_2le h.Padding2 ++
        write_2le h.StyleNameSize ++ fwrite h.StyleName h.StyleNameSize ++
        write_2le h.Padding3 ++ write_2le h.VersionNameSize ++
        fwrite h.VersionName h.VersionNameSize ++ write_2le h.Padding4 ++
        write_2le h.FullNameSize ++ fwrite h.FullName h.FullNameSize ++ tail) h.FamilyNameSize
      (by simp only [write_EOT_header_fixed, List.append_assoc])
      (by simp only [List.length_append, length_write_4le, length_write_2le, length_write_1,
            length_fwrite hp, length_fwrite hfam, length_fwrite hsty, length_fwrite hver]
)
  · exact u16le_at_of_split
      (write_4le h.EOTSize ++ write_4le h.FontDataSize ++ write_4le h.Version ++
        write_4le h.Flags ++ fwrite h.FontPANOSE 10 ++ write_1 h.Charset ++ write_1 h.Italic ++
        write_4le h.Weight ++ write_2le h.fsType ++ write_2le h.MagicNumber ++
        write_4le h.UnicodeRange1 ++ write_4le h.UnicodeRange2 ++ write_4le h.UnicodeRange3 ++
        write_4le h.UnicodeRange4 ++ write_4le h.CodePageRange1 ++
        write_4le h.CodePageRange2 ++ write_4le h.CheckSumAdjustment ++
        write_4le h.Reserved1 ++ write_4le h.Reserved2 ++ write_4le h.Reserved3 ++
        write_4le h.Reserved4 ++ write_2le h.Padding1 ++ write_2le h.FamilyNameSize ++
        fwrite h.FamilyName h.FamilyNameSize)
      (write_2le h.StyleNameSize ++ fwrite h.StyleName h.StyleNameSize ++
        write_2le h.Padding3 ++ write_2le h.VersionNameSize ++
        fwrite h.VersionName h.VersionNameSize ++ write_2le h.Padding4 ++
        write_2le h.FullNameSize ++ fwrite h.FullName h.FullNameSize ++ tail) h.Padding2
      (by simp only [write_EOT_header_fixed, List.append_assoc])
      (by simp only [List.length_append, length_write_4le, length_write_2le, length_write_1,
            length_fwrite hp, length_fwrite hfam, length_fwrite hsty, length_fwrite hver]
)
  · exact u16le_at_of_split
      (write_4le h.EOTSize ++ write_4le h.FontDataSize ++ write_4le h.Version ++
        write_4le h.Flags ++ fwrite h.FontPANOSE 10 ++ write_1 h.Charset ++ write_1 h.Italic ++
        write_4le h.Weight ++ write_2le h.fsType ++ write_2le h.MagicNumber ++
        write_4le h.UnicodeRange1 ++ write_4le h.UnicodeRange2 ++ write_4le h.UnicodeRange3 ++
        write_4le h.UnicodeRange4 ++ write_4le h.CodePageRange1 ++
        write_4le h.CodePageRange2 ++ write_4le h.CheckSumAdjustment ++
        write_4le h.Reserved1 ++ write_4le h.Reserved2 ++ write_4le h.Reserved3 ++
        write_4le h.Reserved4 ++ write_2le h.Padding1 ++ write_2le h.FamilyNameSize ++
        fwrite h.FamilyName h.FamilyNameSize ++ write_2le h.Padding2)
      (fwrite h.StyleName h.StyleNameSize ++ write_2le h.Padding3 ++
        write_2le h.VersionNameSize ++ fwrite h.VersionName h.VersionNameSize ++
        write_2le h.Padding4 ++ write_2le h.FullNameSize ++ fwrite h.FullName h.FullNameSize ++
        tail) h.StyleNameSize
      (by simp only [write_EOT_header_fixed, List.append_assoc])
      (by simp only [List.length_append, length_write_4le, length_write_2le, length_write_1,
            length_fwrite hp, length_fwrite hfam, length_fwrite hsty, length_fwrite hver]
          omega)
  · exact u16le_at_of_split
      (write_4le h.EOTSize ++ write_4le h.FontDataSize ++ write_4le h.Version ++
        write_4le h.Flags ++ fwrite h.FontPANOSE 10 ++ write_1 h.Charset ++ write_1 h.Italic ++
        write_4le h.Weight ++ write_2le h.fsType ++ write_2le h.MagicNumber ++
        write_4le h.UnicodeRange1 ++ write_4le h.UnicodeRange2 ++ write_4le h.UnicodeRange3 ++
        write_4le h.UnicodeRange4 ++ write_4le h.CodePageRange1 ++
        write_4le h.CodePageRange2 ++ write_4le h.CheckSumAdjustment ++
        write_4le h.Reserved1 ++ write_4le h.Reserved2 ++ write_4le h.Reserved3 ++
        write_4le h.Reserved4 ++ write_2le h.Padding1 ++ write_2le h.FamilyNameSize ++
        fwrite h.FamilyName h.FamilyNameSize ++ write_2le h.Padding2 ++
        write_2le h.StyleNameSize ++ fwrite h.StyleName h.StyleNameSize)
      (write_2le h.VersionNameSize ++ fwrite h.VersionName h.VersionNameSize ++
        write_2le h.Padding4 ++ write_2le h.FullNameSize ++ fwrite h.FullName h.FullNameSize ++
        tail) h.Padding3
      (by simp only [write_EOT_header_fixed, List.append_assoc])
      (by simp only [List.length_append, length_write_4le, length_write_2le, length_write_1,
            length_fwrite hp, length_fwrite hfam, length_fwrite hsty, length_fwrite hver]
          omega)
  · exact u16le_at_of_split
      (write_4le h.EOTSize ++ write_4le h.FontDataSize ++ write_4le h.Version ++
        write_4le h.Flags ++ fwrite h.FontPANOSE 10 ++ write_1 h.Charset ++ write_1 h.Italic ++
        write_4le h.Weight ++ write_2le h.fsType ++ write_2le h.MagicNumber ++
        write_4le h.UnicodeRange1 ++ write_4le h.UnicodeRange2 ++ write_4le h.UnicodeRange3 ++
        write_4le h.UnicodeRange4 ++ write_4le h.CodePageRange1 ++
        write_4le h.CodePageRange2 ++ write_4le h.CheckSumAdjustment ++
        write_4le h.Reserved1 ++ write_4le h.Reserved2 ++ write_4le h.Reserved3 ++
        write_4le h.Reserved4 ++ write_2le h.Padding1 ++ write_2le h.FamilyNameSize ++
        fwrite h.FamilyName h.FamilyNameSize ++ write_2le h.Padding2 ++
        write_2le h.StyleNameSize ++ fwrite h.StyleName h.StyleNameSize ++
        write_2le h.Padding3)
      (fwrite h.VersionName h.VersionNameSize ++ write_2le h.Padding4 ++
        write_2le h.FullNameSize ++ fwrite h.FullName h.FullNameSize ++ tail) h.VersionNameSize
      (by simp only [write_EOT_header_fixed, List.append_assoc])
      (by simp only [List.length_append, length_write_4le, length_write_2le, length_write_1,
            length_fwrite hp, length_fwrite hfam, length_fwrite hsty, length_fwrite hver]
          omega)
  · exact u16le_at_of_split
      (write_4le h.EOTSize ++ write_4le h.FontDataSize ++ write_4le h.Version ++
        write_4le h.Flags ++ fwrite h.FontPANOSE 10 ++ write_1 h.Charset ++ write_1 h.Italic ++
        write_4le h.Weight ++ write_2le h.fsType ++ write_2le h.MagicNumber ++
        write_4le h.UnicodeRange1 ++ write_4le h.UnicodeRange2 ++ write_4le h.UnicodeRange3 ++
        write_4le h.UnicodeRange4 ++ write_4le h.CodePageRange1 ++
        write_4le h.CodePageRange2 ++ write_4le h.CheckSumAdjustment ++
        write_4le h.Reserved1 ++ write_4le h.Reserved2 ++ write_4le h.Reserved3 ++
        write_4le h.Reserved4 ++ write_2le h.Padding1 ++ write_2le h.FamilyNameSize ++
        fwrite h.FamilyName h.FamilyNameSize ++ write_2le h.Padding2 ++
        write_2le h.StyleNameSize ++ fwrite h.StyleName h.StyleNameSize ++
        write_2le h.Padding3 ++ write_2le h.VersionNameSize ++
        fwrite h.VersionName h.VersionNameSize)
      (write_2le h.FullNameSize ++ fwrite h.FullName h.FullNameSize ++ tail) h.Padding4
      (by simp only [write_EOT_header_fixed, List.append_assoc])
      (by simp only [List.length_append, length_write_4le, length_write_2le, length_write_1,
            length_fwrite hp, length_fwrite hfam, length_fwrite hsty, length_fwrite hver]
          omega)
  · exact u16le_at_of_split
      (write_4le h.EOTSize ++ write_4le h.FontDataSize ++ write_4le h.Version ++
        write_4le h.Flags ++ fwrite h.FontPANOSE 10 ++ write_1 h.Charset ++ write_1 h.Italic ++
        write_4le h.Weight ++ write_2le h.fsType ++ write_2le h.MagicNumber ++
        write_4le h.UnicodeRange1 ++ write_4le h.UnicodeRange2 ++ write_4le h.UnicodeRange3 ++
        write_4le h.UnicodeRange4 ++ write_4le h.CodePageRange1 ++
        write_4le h.CodePageRange2 ++ write_4le h.CheckSumAdjustment ++
        write_4le h.Reserved1 ++ write_4le h.Reserved2 ++ write_4le h.Reserved3 ++
        write_4le h.Reserved4 ++ write_2le h.Padding1 ++ write_2le h.FamilyNameSize ++
        fwrite h.FamilyName h.FamilyNameSize ++ write_2le h.Padding2 ++
        write_2le h.StyleNameSize ++ fwrite h.StyleName h.StyleNameSize ++
        write_2le h.Padding3 ++ write_2le h.VersionNameSize ++
        fwrite h.VersionName h.VersionNameSize ++ write_2le h.Padding4)
      (fwrite h.FullName h.FullNameSize ++ tail) h.FullNameSize
      (by simp only [write_EOT_header_fixed, List.append_assoc])
      (by simp only [List.length_append, length_write_4le, length_write_2le, length_write_1,
            length_fwrite hp, length_fwrite hfam, length_fwrite hsty, length_fwrite hver]
          omega)

theorem length_write_EOT_header_fixed (h : EOT_header)
    (hp : 10 ≤ h.FontPANOSE.length) (hfam : h.FamilyNameSize ≤ h.FamilyName.length)
    (hsty : h.StyleNameSize ≤ h.StyleName.length)
    (hver : h.VersionNameSize ≤ h.VersionName.length)
    (hfull : h.FullNameSize ≤ h.FullName.length) :
    (write_EOT_header_fixed h).length =
      96 + h.FamilyNameSize + h.StyleNameSize + h.VersionNameSize + h.FullNameSize := by
  simp only [write_EOT_header_fixed, List.length_append, length_write_4le, length_write_2le,
    length_write_1, length_fwrite hp, length_fwrite hfam, length_fwrite hsty,
    length_fwrite hver, length_fwrite hfull]
  omega

/-! ## Prefix locality of the readers -/

theorem Parser.local_pure {α : Type} (a : α) : (Pure.pure a : Parser α).Local := by
  intro f b r h
  simp only [Parser.pure_apply, Option.some.injEq, Prod.mk.injEq] at h
  obtain ⟨rfl, rfl⟩ := h
  exact ⟨[], rfl, fun g => rfl, fun n hn => absurd hn (by simp)⟩

theorem Parser.local_fail {α : Type} : (Parser.fail : Parser α).Local := by
  intro f b r h
  simp [Parser.fail] at h

theorem Parser.local_bind {α β : Type} {p : Parser α} {q : α → Parser β}
    (hp : p.Local) (hq : ∀ a, (q a).Local) : (p >>= q).Local := by
  intro f b r h
  rw [Parser.bind_apply] at h
  cases hpf : p f with
  | none => simp [hpf] at h
  | some ar =>
    obtain ⟨a, r1⟩ := ar
    simp only [hpf] at h
    obtain ⟨u1, hf, hframe1, hshort1⟩ := hp f a r1 hpf
    obtain ⟨u2, hr1, hframe2, hshort2⟩ := hq a r1 b r h
    refine ⟨u1 ++ u2, by rw [hf, hr1, List.append_assoc], ?_, ?_⟩
    · intro g
      rw [Parser.bind_apply, List.append_assoc, hframe1]
      exact hframe2 g
    · intro n hn
      rw [Parser.bind_apply]
      by_cases hlt : n < u1.length
      · rw [List.take_append_of_le_length (Nat.le_of_lt hlt), hshort1 n hlt]
      · have hge : u1.length ≤ n := Nat.le_of_not_lt hlt
        rw [List.take_append_eq_append_take, List.take_of_length_le hge, hframe1]
        apply hshort2
        simp only [List.length_append] at hn
        omega

theorem local_failIf (c : Prop) [Decidable c] : (failIf c).Local := by
  unfold failIf
  split
  · exact Parser.local_fail
  · exact Parser.local_pure ()

theorem local_fread (n : Nat) : (fread n).Local := by
  intro f a r h
  unfold fread at h
  split at h
  · rename_i hle
    simp only [Option.some.injEq, Prod.mk.injEq] at h
    obtain ⟨rfl, rfl⟩ := h
    refine ⟨f.take n, (List.take_append_drop n f).symm, ?_, ?_⟩
    · intro g
      have hl : (List.take n f).length = n := List.length_take_of_le hle
      unfold fread
      rw [if_pos (by simp [hl])]
      congr 2
      · rw [List.take_append_of_le_length (by omega), List.take_of_length_le (by omega)]
      · rw [List.drop_append_of_le_length (by omega), List.drop_of_length_le (by omega)]
        rfl
    · intro m hm
      have hl : (List.take n f).length = n := List.length_take_of_le hle
      unfold fread
      rw [if_neg]
      simp only [List.length_take]
      omega
  · simp at h

theorem local_read_1 : read_1.Local := by
  intro f a r h
  match f, h with
  | x :: f, h =>
    simp only [read_1, Option.some.injEq, Prod.mk.injEq] at h
    obtain ⟨rfl, rfl⟩ := h
    refine ⟨[x], rfl, fun g => rfl, ?_⟩
    intro n hn
    have : n = 0 := by simpa using hn
    subst this
    rfl

theorem local_read_ushort : read_ushort.Local := by
  intro f a r h
  match f, h with
  | s0 :: s1 :: f, h =>
    simp only [read_ushort, Option.some.injEq, Prod.mk.injEq] at h
    obtain ⟨rfl, rfl⟩ := h
    refine ⟨[s0, s1], rfl, fun g => rfl, ?_⟩
    intro n hn
    have : n = 0 ∨ n = 1 := by simp at hn; omega
    rcases this with rfl | rfl <;> rfl

theorem local_read_ulong : read_ulong.Local := by
  intro f a r h
  match f, h with
  | s0 :: s1 :: s2 :: s3 :: f, h =>
    simp only [read_ulong, Option.some.injEq, Prod.mk.injEq] at h
    obtain ⟨rfl, rfl⟩ := h
    refine ⟨[s0, s1, s2, s3], rfl, fun g => rfl, ?_⟩
    intro n hn
    have : n = 0 ∨ n = 1 ∨ n = 2 ∨ n = 3 := by simp at hn; omega
    rcases this with rfl | rfl | rfl | rfl <;> rfl

theorem local_read_EOT_header (h : EOT_header) : (read_EOT_header h).Local := by
  unfold read_EOT_header
  repeat' first
    | exact local_read_ulong
    | exact local_read_ushort
    | exact local_read_1
    | exact local_fread _
    | exact local_failIf _
    | exact Parser.local_pure _
    | exact Parser.local_fail
    | refine Parser.local_bind ?_ (fun _ => ?_)
    | split

/-! ## The header built by `main` -/

theorem find_name_size_lt {table : Name_table} {id : Nat} {old res : Nat × List Byte}
    (h : find_name table id old = .ok res) : res.1 < 2 ^ 16 := by
  unfold find_name at h
  split at h
  · simp at h
  · simp only [Except.ok.injEq] at h
    subst h
    exact Nat.pos_pow_of_pos 16 (by norm_num)
  · split at h
    · simp at h
    · split at h
      · dsimp only at h
        split at h
        · simp at h
        · simp only [Except.ok.injEq] at h
          subst h
          exact Nat.mod_lt _ (by norm_num)
      · split at h
        · simp only [Except.ok.injEq] at h
          subst h
          exact Nat.mod_lt _ (by norm_num)
        · simp at h

theorem read_some_opentype_data_ok {file : List Byte} {h0 h : EOT_header}
    (hr : read_some_opentype_data file h0 = .ok (some h)) :
    h.Version = h0.Version ∧ h.MagicNumber = h0.MagicNumber ∧
    h.Reserved1 = h0.Reserved1 ∧ h.Reserved2 = h0.Reserved2 ∧ h.Reserved3 = h0.Reserved3 ∧
    h.Reserved4 = h0.Reserved4 ∧ h.Padding1 = h0.Padding1 ∧ h.Padding2 = h0.Padding2 ∧
    h.Padding3 = h0.Padding3 ∧ h.Padding4 = h0.Padding4 ∧ h.Padding5 = h0.Padding5 ∧
    h.Padding6 = h0.Padding6 ∧ h.RootStringSize = h0.RootStringSize ∧
    h.SignatureSize = h0.SignatureSize ∧ h.EUDCFontSize = h0.EUDCFontSize ∧
    h.FontDataSize = file.length ∧ file.length < 2 ^ 31 ∧
    h.FamilyNameSize < 2 ^ 16 ∧ h.StyleNameSize < 2 ^ 16 ∧ h.VersionNameSize < 2 ^ 16 ∧
    h.FullNameSize < 2 ^ 16 ∧
    h.EOTSize = (((((h0.EOTSize + h.FamilyNameSize) % 2 ^ 32 + h.StyleNameSize) % 2 ^ 32 +
      h.VersionNameSize) % 2 ^ 32 + h.FullNameSize) % 2 ^ 32 + h.FontDataSize) % 2 ^ 32 := by
  unfold read_some_opentype_data at hr
  split at hr
  · simp at hr
  · rename_i os2 name head rest htab
    cases hfam : find_name name 1 (h0.FamilyNameSize, h0.FamilyName) with
    | error e => simp [hfam, bind, Except.bind] at hr
    | ok fam =>
      simp only [hfam, bind, Except.bind] at hr
      cases hsty : find_name name 2 (h0.StyleNameSize, h0.StyleName) with
      | error e => simp [hsty] at hr
      | ok sty =>
        simp only [hsty] at hr
        cases hver : find_name name 5 (h0.VersionNameSize, h0.VersionName) with
        | error e => simp [hver] at hr
        | ok ver =>
          simp only [hver] at hr
          cases hfull : find_name name 4 (h0.FullNameSize, h0.FullName) with
          | error e => simp [hfull] at hr
          | ok full =>
            simp only [hfull] at hr
            split at hr
            · simp [pure, Except.pure] at hr
            · rename_i hsize
              simp only [pure, Except.pure, Except.ok.injEq, Option.some.injEq] at hr
              subst hr
              have hsize1 : file.length < 2 ^ 31 := not_not.mp hsize
              exact ⟨rfl, rfl, rfl, rfl, rfl, rfl, rfl, rfl, rfl, rfl, rfl, rfl, rfl, rfl, rfl,
                rfl, hsize1, find_name_size_lt hfam, find_name_size_lt hsty,
                find_name_size_lt hver, find_name_size_lt hfull, rfl⟩

theorem add_rootstring_foldl (urls : List (List Byte)) (h : EOT_header)
    (hsum : h.RootStringSize + encoded_length urls ≤ 65535)
    (hE : h.EOTSize + encoded_length urls < 2 ^ 32) :
    (urls.foldl (fun h url => add_rootstring url h) h).RootStringSize =
      h.RootStringSize + encoded_length urls ∧
    (urls.foldl (fun h url => add_rootstring url h) h).EOTSize =
      h.EOTSize + encoded_length urls := by
  induction urls generalizing h with
  | nil => simp [encoded_length]
  | cons u us ih =>
    have hl : encoded_length (u :: us) = (2 * u.length + 2) + encoded_length us := by
      simp [encoded_length]
    rw [hl] at hsum hE
    have hlen : (2 * u.length + 2) % 2 ^ 32 = 2 * u.length + 2 :=
      Nat.mod_eq_of_lt (by omega)
    have hR : (add_rootstring u h).RootStringSize = h.RootStringSize + (2 * u.length + 2) := by
      show (h.RootStringSize + (2 * u.length + 2) % 2 ^ 32) % 2 ^ 16 = _
      rw [hlen]
      exact Nat.mod_eq_of_lt (by omega)
    have hEs : (add_rootstring u h).EOTSize = h.EOTSize + (2 * u.length + 2) := by
      show (h.EOTSize + (2 * u.length + 2) % 2 ^ 32) % 2 ^ 32 = _
      rw [hlen]
      exact Nat.mod_eq_of_lt (by omega)
    have := ih (add_rootstring u h) (by rw [hR]; omega) (by rw [hEs]; omega)
    rw [List.foldl_cons, this.1, this.2, hR, hEs, hl]
    omega

theorem add_rootstring_foldl_frame (urls : List (List Byte)) (h : EOT_header) :
    SameConstants h (urls.foldl (fun h url => add_rootstring url h) h) ∧
    (urls.foldl (fun h url => add_rootstring url h) h).FontDataSize = h.FontDataSize ∧
    (urls.foldl (fun h url => add_rootstring url h) h).FamilyNameSize = h.FamilyNameSize ∧
    (urls.foldl (fun h url => add_rootstring url h) h).StyleNameSize = h.StyleNameSize ∧
    (urls.foldl (fun h url => add_rootstring url h) h).VersionNameSize = h.VersionNameSize ∧
    (urls.foldl (fun h url => add_rootstring url h) h).FullNameSize = h.FullNameSize := by
  induction urls generalizing h with
  | nil => simp [SameConstants]
  | cons u us ih =>
    rw [List.foldl_cons]
    have := ih (add_rootstring u h)
    simp only [SameConstants] at this ⊢
    exact this

theorem write_EOT_header_v2 (h : EOT_header) (hv : h.Version = 0x00020002) :
    write_EOT_header h = some (write_EOT_header_fixed h ++
      (write_2le h.Padding5 ++ write_2le h.RootStringSize ++
       fwrite h.RootString h.RootStringSize ++ write_4le h.RootStringCheckSum ++
       write_4le h.EUDCCodePage ++ write_2le h.Padding6 ++ write_2le h.SignatureSize ++
       fwrite h.Signature h.SignatureSize ++ write_4le h.EUDCFlags ++
       write_4le h.EUDCFontSize ++ fwrite h.EUDCFontData h.EUDCFontSize)) := by
  simp only [write_EOT_header, hv, Nat.reduceEqDiff, ↓reduceIte]

theorem write_EOT_header_v1 (h : EOT_header) (hv : h.Version = 0x00020001) :
    write_EOT_header h = some (write_EOT_header_fixed h ++
      (write_2le h.Padding5 ++ write_2le h.RootStringSize ++
       fwrite h.RootString h.RootStringSize)) := by
  simp only [write_EOT_header, hv, Nat.reduceEqDiff, ↓reduceIte]

theorem main_header_ok {file : List Byte} {urls : List (List Byte)} {h : EOT_header}
    (hb : main_header file urls = .ok h) :
    ∃ h1, read_some_opentype_data file initialize_EOT_header = .ok (some h1) ∧
      h = urls.foldl (fun h url => add_rootstring url h) h1 := by
  unfold main_header at hb
  split at hb
  · simp at hb
  · simp at hb
  · rename_i h1 heq
    simp only [Except.ok.injEq] at hb
    exact ⟨h1, heq, hb.symm⟩

/-! ## The properties of the header codec and of the header that the writer builds -/

/-- C1 (not met by the code). The round trip loses a 32-bit field whose bit 31 is set.
`sample_header` has MagicNumber 0x504C, zero Reserved and Padding fields, Version 0x00020001,
every field within its width and every buffer as long as its size states, and
UnicodeRange1 = 0x80000001. `write_EOT_header` emits it with the bytes 01 00 00 80 at offset
36, and `read_EOT_header`, applied to the bytes written followed by three more bytes and
starting from any struct, succeeds with UnicodeRange1 = 0xFFFFFFFF80000001: the header read
does not have the same fields. -/
theorem roundtrip_sign_extends :
    sample_header.MagicNumber = 0x504C ∧ sample_header.Version = 0x00020001 ∧
    (sample_header.Reserved1 = 0 ∧ sample_header.Reserved2 = 0 ∧
      sample_header.Reserved3 = 0 ∧ sample_header.Reserved4 = 0) ∧
    (sample_header.Padding1 = 0 ∧ sample_header.Padding2 = 0 ∧ sample_header.Padding3 = 0 ∧
      sample_header.Padding4 = 0 ∧ sample_header.Padding5 = 0) ∧
    FieldsInRange sample_header ∧ BuffersHold sample_header ∧
    sample_header.UnicodeRange1 = 0x80000001 ∧
    ∃ out, write_EOT_header sample_header = some out ∧
      (out.drop 36).take 4 = [0x01, 0x00, 0x00, 0x80] ∧
      ∀ h0, ∃ h', read_EOT_header h0 (out ++ [1, 2, 3]) = some (h', [1, 2, 3]) ∧
        h'.UnicodeRange1 = 0xFFFFFFFF80000001 ∧ ¬ SameFields sample_header h' := by
  refine ⟨rfl, rfl, ⟨rfl, rfl, rfl, rfl⟩, ⟨rfl, rfl, rfl, rfl, rfl⟩,
    by constructor <;> decide, by constructor <;> decide, rfl, _, rfl, by decide, ?_⟩
  intro h0
  refine ⟨_, rfl, rfl, ?_⟩
  intro hs
  have hu := hs.2.2.2.2.2.2.2.2.2.2.1
  exact absurd hu (show (0xFFFFFFFF80000001 : Nat) ≠ 0x80000001 by decide)

/-- C2 (not met by the code). `write_EOT_header` emits 120 bytes for the version-0x00020002
header of `initialize_EOT_header`; `read_EOT_header` succeeds on them but stops after the
root string and leaves the last 20 bytes (RootStringCheckSum .. EUDCFontSize) unread, so it
consumes 100 bytes, not 120. -/
theorem reader_leaves_tail_unread :
    ∃ out, write_EOT_header initialize_EOT_header = some out ∧ out.length = 120 ∧
      ∀ h0, ∃ h r, read_EOT_header h0 out = some (h, r) ∧ r.length = 20 ∧
        out.length - r.length = 100 :=
  ⟨_, rfl, by decide, fun _ => ⟨_, _, rfl, by decide, by decide⟩⟩

/-- C3 (not met by the code). An otherwise well-formed 96-byte header with Version
0x00010000 is rejected, and the same header with Version 0x0001000, the value of the case
label, is accepted with no tail decoded. -/
theorem version_1_0_rejected :
    header_v1_0.Version = 0x00010000 ∧
    (∀ h0, read_EOT_header h0 (write_EOT_header_fixed header_v1_0) = none) ∧
    (∀ h0, ∃ h, read_EOT_header h0 (write_EOT_header_fixed header_v_label) = some (h, []) ∧
      h.Version = 0x0001000) :=
  ⟨rfl, fun _ => rfl, fun _ => ⟨_, rfl, rfl⟩⟩

/-- C4. Whatever the input `f`: if the 32-bit value at the offset of Reserved1, Reserved2,
Reserved3 or Reserved4 (64, 68, 72, 76), or the 16-bit value at the offset of Padding1 (80),
Padding2, Padding3 or Padding4 is non-zero, or the value at the offset of Padding5 is
non-zero while the Version field (offset 8) is 0x00020001 or 0x00020002, then
`read_EOT_header` returns false. -/
theorem nonzero_reserved_or_padding_rejected (f : List Byte) (h0 : EOT_header)
    (hbad : u32le_at f 64 ≠ 0 ∨ u32le_at f 68 ≠ 0 ∨ u32le_at f 72 ≠ 0 ∨ u32le_at f 76 ≠ 0 ∨
      u16le_at f 80 ≠ 0 ∨ u16le_at f (off_Padding2 f) ≠ 0 ∨ u16le_at f (off_Padding3 f) ≠ 0 ∨
      u16le_at f (off_Padding4 f) ≠ 0 ∨
      (u16le_at f (off_Padding5 f) ≠ 0 ∧
        (u32le_at f 8 = 0x00020001 ∨ u32le_at f 8 = 0x00020002))) :
    read_EOT_header h0 f = none := by
  cases hr : read_EOT_header h0 f with
  | none => rfl
  | some hrr =>
    exfalso
    obtain ⟨h, r⟩ := hrr
    obtain ⟨hfix, hcase⟩ := read_EOT_header_inv hr
    have hp : 10 ≤ h.FontPANOSE.length := by rw [hfix.FontPANOSE]
    have hfam : h.FamilyNameSize ≤ h.FamilyName.length := by rw [hfix.FamilyName]
    have hsty : h.StyleNameSize ≤ h.StyleName.length := by rw [hfix.StyleName]
    have hver : h.VersionNameSize ≤ h.VersionName.length := by rw [hfix.VersionName]
    have hfull : h.FullNameSize ≤ h.FullName.length := by rw [hfix.FullName]
    have htail : ∃ tail, f = write_EOT_header_fixed h ++ tail := by
      rcases hcase with ⟨_, hf⟩ | ⟨_, _, _, _, hf⟩
      · exact ⟨_, hf⟩
      · exact ⟨_, hf⟩
    obtain ⟨tail, hf⟩ := htail
    have pos := layout_positions h tail hp hfam hsty hver
    rw [← hf] at pos
    obtain ⟨pV, _, pR1, pR2, pR3, pR4, pP1, pFam, pP2, pSty, pP3, pVer, pP4, pFull⟩ := pos
    rw [hfix.Reserved1] at pR1
    rw [hfix.Reserved2] at pR2
    rw [hfix.Reserved3] at pR3
    rw [hfix.Reserved4] at pR4
    rw [hfix.Padding1] at pP1
    rw [hfix.Padding2] at pP2
    rw [hfix.Padding3] at pP3
    rw [hfix.Padding4] at pP4
    rw [Nat.mod_eq_of_lt hfix.FamilyNameSize] at pFam
    rw [Nat.mod_eq_of_lt hfix.StyleNameSize] at pSty
    rw [Nat.mod_eq_of_lt hfix.VersionNameSize] at pVer
    rw [Nat.mod_eq_of_lt hfix.FullNameSize] at pFull
    have o2 : off_Padding2 f = 84 + h.FamilyNameSize := by rw [off_Padding2, pFam]
    have o3 : off_Padding3 f = 88 + h.FamilyNameSize + h.StyleNameSize := by
      rw [off_Padding3, o2, show 84 + h.FamilyNameSize + 2 = 86 + h.FamilyNameSize by omega,
        pSty]
      omega
    have o4 : off_Padding4 f = 92 + h.FamilyNameSize + h.StyleNameSize + h.VersionNameSize := by
      rw [off_Padding4, o3, show 88 + h.FamilyNameSize + h.StyleNameSize + 2 =
        90 + h.FamilyNameSize + h.StyleNameSize by omega, pVer]
      omega
    have o5 : off_Padding5 f =
        96 + h.FamilyNameSize + h.StyleNameSize + h.VersionNameSize + h.FullNameSize := by
      rw [off_Padding5, o4, show 92 + h.FamilyNameSize + h.StyleNameSize + h.VersionNameSize + 2
        = 94 + h.FamilyNameSize + h.StyleNameSize + h.VersionNameSize by omega, pFull]
      omega
    rw [o2, o3, o4, o5, pR1, pR2, pR3, pR4, pP1, pP2, pP3, pP4, pV] at hbad
    rcases hbad with hb | hb | hb | hb | hb | hb | hb | hb | ⟨hb, hv⟩
    · exact hb rfl
    · exact hb rfl
    · exact hb rfl
    · exact hb rfl
    · exact hb rfl
    · exact hb rfl
    · exact hb rfl
    · exact hb rfl
    · rcases hcase with ⟨hv1, _⟩ | ⟨_, hp5, _, _, hf5⟩
      · rw [hv1] at hv
        rcases hv with hv | hv <;> exact absurd hv (by decide)
      · apply hb
        rw [u16le_at_of_split (write_EOT_header_fixed h) _ h.Padding5 hf5
          (length_write_EOT_header_fixed h hp hfam hsty hver hfull), hp5]
        rfl

/-- A header layout whose Reserved1 is 1 is rejected. -/
theorem nonzero_reserved_or_padding_rejected_witness :
    u32le_at (write_EOT_header_fixed header_reserved1) 64 ≠ 0 ∧
    read_EOT_header initialize_EOT_header (write_EOT_header_fixed header_reserved1) = none :=
  ⟨by decide, nonzero_reserved_or_padding_rejected (write_EOT_header_fixed header_reserved1)
    initialize_EOT_header (Or.inl (by decide))⟩

/-- C5 (not met by the code). The serialisation of a version-0x00020002 header whose
Padding6 is 1 (the 16-bit field at offset 108, before SignatureSize) is accepted by
`read_EOT_header`. -/
theorem nonzero_padding6_accepted :
    header_padding6.Version = 0x00020002 ∧
    ∃ out, write_EOT_header header_padding6 = some out ∧ u16le_at out 108 = 1 ∧
      ∀ h0, ∃ h r, read_EOT_header h0 out = some (h, r) :=
  ⟨rfl, _, rfl, by decide, fun _ => ⟨_, _, rfl⟩⟩

/-- C6. Whatever the input `f`: if the little-endian 16-bit value at byte offset 34 (the
MagicNumber field) is not 0x504C, `read_EOT_header` returns false. -/
theorem bad_magic_rejected (f : List Byte) (h0 : EOT_header)
    (hmagic : u16le_at f 34 ≠ 0x504C) : read_EOT_header h0 f = none := by
  cases hr : read_EOT_header h0 f with
  | none => rfl
  | some hrr =>
    exfalso
    obtain ⟨h, r⟩ := hrr
    obtain ⟨hfix, hcase⟩ := read_EOT_header_inv hr
    have htail : ∃ tail, f = write_EOT_header_fixed h ++ tail := by
      rcases hcase with ⟨_, hf⟩ | ⟨_, _, _, _, hf⟩
      · exact ⟨_, hf⟩
      · exact ⟨_, hf⟩
    obtain ⟨tail, hf⟩ := htail
    have pos := layout_positions h tail (by rw [hfix.FontPANOSE]) (by rw [hfix.FamilyName])
      (by rw [hfix.StyleName]) (by rw [hfix.VersionName])
    rw [← hf] at pos
    apply hmagic
    rw [pos.2.1, hfix.MagicNumber]
    rfl

/-- Thirty-six zero bytes have MagicNumber 0 and are rejected. -/
theorem bad_magic_rejected_witness :
    u16le_at (List.replicate 36 0) 34 ≠ 0x504C ∧
    read_EOT_header initialize_EOT_header (List.replicate 36 0) = none :=
  ⟨by decide, bad_magic_rejected (List.replicate 36 0) initialize_EOT_header (by decide)⟩

/-- C7. Truncation is detected: if `read_EOT_header` succeeds on `f` leaving `r` unread,
so that it consumed `f.length - r.length` bytes, then it fails on every prefix of `f` that
is shorter than the number of bytes consumed. -/
theorem truncation_detected (h0 h : EOT_header) (f r : List Byte)
    (hr : read_EOT_header h0 f = some (h, r)) (m : Nat) (hm : m < f.length - r.length) :
    read_EOT_header h0 (f.take m) = none := by
  obtain ⟨u, hf, _, hshort⟩ := local_read_EOT_header h0 f h r hr
  subst hf
  have hlt : m < u.length := by
    simp only [List.length_append] at hm
    omega
  rw [List.take_append_of_le_length (Nat.le_of_lt hlt)]
  exact hshort m hlt

/-- The 96-byte layout of `header_v_label` is accepted, its first 95 bytes are not. -/
theorem truncation_detected_witness :
    (∃ h, read_EOT_header initialize_EOT_header (write_EOT_header_fixed header_v_label) =
      some (h, [])) ∧
    read_EOT_header initialize_EOT_header ((write_EOT_header_fixed header_v_label).take 95) =
      none :=
  ⟨⟨_, rfl⟩, truncation_detected initialize_EOT_header _
    (write_EOT_header_fixed header_v_label) [] rfl 95 (by decide)⟩

/-- C8. For every font on which `read_some_opentype_data` succeeds and every list of URL
arguments, the header built by `initialize_EOT_header`, `read_some_opentype_data` and
`add_rootstring` for each URL has Version 0x00020002, MagicNumber 0x504C, Reserved1..4 = 0
and Padding1..6 = 0; `write_EOT_header` does not reach its `default` case on it, and bytes
8..11 of what it emits are 02 00 02 00. -/
theorem built_header_constants (file : List Byte) (urls : List (List Byte)) (h : EOT_header)
    (hb : main_header file urls = .ok h) :
    h.Version = 0x00020002 ∧ h.MagicNumber = 0x504C ∧
    h.Reserved1 = 0 ∧ h.Reserved2 = 0 ∧ h.Reserved3 = 0 ∧ h.Reserved4 = 0 ∧
    h.Padding1 = 0 ∧ h.Padding2 = 0 ∧ h.Padding3 = 0 ∧ h.Padding4 = 0 ∧ h.Padding5 = 0 ∧
    h.Padding6 = 0 ∧
    ∃ out, write_EOT_header h = some out ∧ (out.drop 8).take 4 = [2, 0, 2, 0] := by
  obtain ⟨h1, hread, rfl⟩ := main_header_ok hb
  obtain ⟨hV, hM, hR1, hR2, hR3, hR4, hP1, hP2, hP3, hP4, hP5, hP6, _⟩ :=
    read_some_opentype_data_ok hread
  obtain ⟨⟨fV, fM, fR1, fR2, fR3, fR4, fP1, fP2, fP3, fP4, fP5, fP6, _, _⟩, _⟩ :=
    add_rootstring_foldl_frame urls h1
  have hv : (urls.foldl (fun h url => add_rootstring url h) h1).Version = 0x00020002 := by
    rw [fV, hV]; rfl
  refine ⟨hv, by rw [fM, hM]; rfl, by rw [fR1, hR1]; rfl, by rw [fR2, hR2]; rfl,
    by rw [fR3, hR3]; rfl, by rw [fR4, hR4]; rfl, by rw [fP1, hP1]; rfl,
    by rw [fP2, hP2]; rfl, by rw [fP3, hP3]; rfl, by rw [fP4, hP4]; rfl,
    by rw [fP5, hP5]; rfl, by rw [fP6, hP6]; rfl, ?_⟩
  refine ⟨_, write_EOT_header_v2 _ hv, ?_⟩
  simp only [write_EOT_header_fixed, List.append_assoc, hv, write_4le_eq, List.cons_append,
    List.nil_append, List.drop_succ_cons, List.drop_zero, List.take_succ_cons, List.take_zero]
  decide

set_option maxRecDepth 100000 in
/-- The header built from `sample_font` and `sample_urls`. -/
theorem built_header_constants_witness :
    ∃ h, main_header sample_font sample_urls = .ok h ∧ h.Version = 0x00020002 ∧
      h.MagicNumber = 0x504C ∧
      ∃ out, write_EOT_header h = some out ∧ (out.drop 8).take 4 = [2, 0, 2, 0] :=
  ⟨_, rfl,
    (built_header_constants sample_font sample_urls _ rfl).1,
    (built_header_constants sample_font sample_urls _ rfl).2.1,
    (built_header_constants sample_font sample_urls _ rfl).2.2.2.2.2.2.2.2.2.2.2.2⟩

/-- C9. EOTSize invariant: for every font on which `read_some_opentype_data` succeeds and
every list of URLs whose encoded lengths `2 * len + 2` sum to at most 65535, the header built
by `main` has EOTSize = 120 + FamilyNameSize + StyleNameSize + VersionNameSize + FullNameSize
+ RootStringSize + SignatureSize + EUDCFontSize + FontDataSize, and FontDataSize is the
length of the font file. -/
theorem built_header_EOTSize (file : List Byte) (urls : List (List Byte)) (h : EOT_header)
    (hb : main_header file urls = .ok h) (hlen : encoded_length urls ≤ 65535) :
    h.EOTSize = 120 + h.FamilyNameSize + h.StyleNameSize + h.VersionNameSize + h.FullNameSize +
      h.RootStringSize + h.SignatureSize + h.EUDCFontSize + h.FontDataSize ∧
    h.FontDataSize = file.length := by
  obtain ⟨h1, hread, rfl⟩ := main_header_ok hb
  obtain ⟨_, _, _, _, _, _, _, _, _, _, _, _, hRS, hSig, hEU, hFD, hsize, hfam, hsty, hver,
    hfull, hE⟩ := read_some_opentype_data_ok hread
  have hRS0 : h1.RootStringSize = 0 := hRS
  have hSig0 : h1.SignatureSize = 0 := hSig
  have hEU0 : h1.EUDCFontSize = 0 := hEU
  have hE0 : h1.EOTSize = 120 + h1.FamilyNameSize + h1.StyleNameSize + h1.VersionNameSize +
      h1.FullNameSize + h1.FontDataSize := by
    rw [hE, hFD]
    show (((((120 + _) % _ + _) % _ + _) % _ + _) % _ + _) % _ = _
    omega
  obtain ⟨gR, gE⟩ := add_rootstring_foldl urls h1 (by omega) (by omega)
  obtain ⟨⟨_, _, _, _, _, _, _, _, _, _, _, _, fSig, fEU⟩, fFD, fFam, fSty, fVer, fFull⟩ :=
    add_rootstring_foldl_frame urls h1
  refine ⟨?_, by rw [fFD, hFD]⟩
  rw [gE, gR, fSig, fEU, fFD, fFam, fSty, fVer, fFull, hE0, hRS0, hSig0, hEU0]
  omega

set_option maxRecDepth 100000 in
/-- The EOTSize of the header built from `sample_font` (272 bytes) and `sample_urls`. -/
theorem built_header_EOTSize_witness :
    encoded_length sample_urls ≤ 65535 ∧
    ∃ h, main_header sample_font sample_urls = .ok h ∧
      h.EOTSize = 120 + h.FamilyNameSize + h.StyleNameSize + h.VersionNameSize +
        h.FullNameSize + h.RootStringSize + h.SignatureSize + h.EUDCFontSize +
        h.FontDataSize ∧
      h.FontDataSize = sample_font.length :=
  ⟨by decide, _, rfl, built_header_EOTSize sample_font sample_urls _ rfl (by decide)⟩

/-- C10. For every header with Version 0x00020002 whose buffers hold at least their stated
sizes, `write_EOT_header` emits exactly 120 + FamilyNameSize + StyleNameSize +
VersionNameSize + FullNameSize + RootStringSize + SignatureSize + EUDCFontSize bytes; 120 is
the EOTSize that `initialize_EOT_header` sets. -/
theorem write_EOT_header_length (h : EOT_header) (hv : h.Version = 0x00020002)
    (hb : BuffersHold h) :
    ∃ out, write_EOT_header h = some out ∧
      out.length = 120 + h.FamilyNameSize + h.StyleNameSize + h.VersionNameSize +
        h.FullNameSize + h.RootStringSize + h.SignatureSize + h.EUDCFontSize ∧
      initialize_EOT_header.EOTSize = 120 := by
  refine ⟨_, write_EOT_header_v2 _ hv, ?_, rfl⟩
  simp only [List.length_append, length_write_4le, length_write_2le,
    length_write_EOT_header_fixed h (by rw [hb.FontPANOSE]) hb.FamilyName hb.StyleName
      hb.VersionName hb.FullName,
    length_fwrite hb.RootString, length_fwrite hb.Signature, length_fwrite hb.EUDCFontData]
  omega

/-- The length of what `write_EOT_header` emits for `header_v2_sample`. -/
theorem write_EOT_header_length_witness :
    ∃ out, write_EOT_header header_v2_sample = some out ∧
      out.length = 120 + header_v2_sample.FamilyNameSize + header_v2_sample.StyleNameSize +
        header_v2_sample.VersionNameSize + header_v2_sample.FullNameSize +
        header_v2_sample.RootStringSize + header_v2_sample.SignatureSize +
        header_v2_sample.EUDCFontSize ∧
      initialize_EOT_header.EOTSize = 120 :=
  write_EOT_header_length header_v2_sample rfl (by constructor <;> decide)

/-! ## The root-string builder -/

theorem set_append_length (P X : List Byte) (x c : Byte) :
    (P ++ x :: X).set P.length c = P ++ c :: X := by
  induction P with
  | nil => rfl
  | cons p P ih => simp only [List.cons_append, List.length_cons, List.set_cons_succ, ih]

theorem length_flatMap_pair (u : List Byte) :
    (u.flatMap (fun c => [c, (0 : Byte)])).length = 2 * u.length := by
  induction u with
  | nil => rfl
  | cons c u ih =>
    simp only [List.flatMap_cons, List.length_append, List.length_cons, List.length_nil, ih]
    omega

theorem add_rootstring_loop_spec (url P X : List Byte) (hX : 2 * url.length ≤ X.length) :
    add_rootstring_loop url P.length (P ++ X) =
      (P.length + 2 * url.length,
       P ++ url.flatMap (fun c => [c, 0]) ++ X.drop (2 * url.length)) := by
  induction url generalizing P X with
  | nil => simp [add_rootstring_loop]
  | cons c url ih =>
    match X, hX with
    | x0 :: x1 :: X, hX =>
      have hX' : 2 * url.length ≤ X.length := by
        simp only [List.length_cons] at hX
        omega
      have h1 : (P ++ x0 :: x1 :: X).set P.length c = (P ++ [c]) ++ x1 :: X := by
        rw [set_append_length]
        simp
      have h2 : ((P ++ [c]) ++ x1 :: X).set (P.length + 1) 0 = (P ++ [c, 0]) ++ X := by
        have hl : (P ++ [c]).length = P.length + 1 := by simp
        rw [← hl, set_append_length]
        simp
      have hl2 : (P ++ [c, 0]).length = P.length + 1 + 1 := by simp
      unfold add_rootstring_loop
      rw [h1, h2, ← hl2, ih (P ++ [c, 0]) X hX']
      simp only [List.length_append, List.length_cons, List.length_nil, List.flatMap_cons,
        List.append_assoc, List.cons_append, List.nil_append, Prod.mk.injEq]
      refine ⟨by omega, ?_⟩
      have : 2 * (url.length + 1) = 2 * url.length + 1 + 1 := by omega
      rw [this, List.drop_succ_cons, List.drop_succ_cons]

theorem length_realloc (buf : List Byte) (n : Nat) : (realloc buf n).length = n := by
  unfold realloc
  simp only [List.length_append, List.length_take, List.length_replicate]
  omega

theorem take_realloc (buf : List Byte) (n k : Nat) (hk : k ≤ n) (hb : k ≤ buf.length) :
    (realloc buf n).take k = buf.take k := by
  unfold realloc
  rw [List.take_append_of_le_length (by simp only [List.length_take]; omega), List.take_take]
  congr 1
  omega

theorem add_rootstring_RootString (u : List Byte) (h : EOT_header)
    (hbuf : h.RootStringSize ≤ h.RootString.length)
    (hfit : h.RootStringSize + (2 * u.length + 2) < 2 ^ 32) :
    (add_rootstring u h).RootString = h.RootString.take h.RootStringSize ++ encode_url u := by
  have hlen : (2 * u.length + 2) % 2 ^ 32 = 2 * u.length + 2 := Nat.mod_eq_of_lt (by omega)
  have hn : (h.RootStringSize + (2 * u.length + 2)) % 2 ^ 32 =
      h.RootStringSize + (2 * u.length + 2) := Nat.mod_eq_of_lt hfit
  show (((add_rootstring_loop u h.RootStringSize (realloc h.RootString
      ((h.RootStringSize + (2 * u.length + 2) % 2 ^ 32) % 2 ^ 32))).2.set _ 0).set _ 0) = _
  rw [hlen, hn]
  generalize hB : realloc h.RootString (h.RootStringSize + (2 * u.length + 2)) = B
  have hBl : B.length = h.RootStringSize + (2 * u.length + 2) := by
    rw [← hB, length_realloc]
  have hBt : B.take h.RootStringSize = h.RootString.take h.RootStringSize := by
    rw [← hB, take_realloc _ _ _ (by omega) hbuf]
  have hPl : (B.take h.RootStringSize).length = h.RootStringSize := by
    rw [List.length_take]; omega
  have hsplit : B = B.take h.RootStringSize ++ B.drop h.RootStringSize :=
    (List.take_append_drop _ _).symm
  have hXl : (B.drop h.RootStringSize).length = 2 * u.length + 2 := by
    rw [List.length_drop]; omega
  have hloop := add_rootstring_loop_spec u (B.take h.RootStringSize) (B.drop h.RootStringSize)
    (by omega)
  rw [← hsplit, hPl] at hloop
  rw [hloop]
  dsimp only
  have hYl : ((B.drop h.RootStringSize).drop (2 * u.length)).length = 2 := by
    rw [List.length_drop]; omega
  match hY : (B.drop h.RootStringSize).drop (2 * u.length), hYl with
  | [y0, y1], _ =>
    have hQl : (B.take h.RootStringSize ++ u.flatMap (fun c => [c, 0])).length =
        h.RootStringSize + 2 * u.length := by
      rw [List.length_append, hPl, length_flatMap_pair]
    rw [← hQl, set_append_length]
    have h3 : (B.take h.RootStringSize ++ u.flatMap (fun c => [c, 0])) ++ [0, y1] =
        (B.take h.RootStringSize ++ u.flatMap (fun c => [c, 0]) ++ [0]) ++ [y1] := by simp
    have hQl2 : (B.take h.RootStringSize ++ u.flatMap (fun c => [c, 0]) ++ [0]).length =
        (B.take h.RootStringSize ++ u.flatMap (fun c => [c, 0])).length + 1 := by
      rw [List.length_append]; rfl
    rw [h3, ← hQl2, set_append_length, hBt]
    simp [encode_url]

theorem length_encode_url (u : List Byte) : (encode_url u).length = 2 * u.length + 2 := by
  unfold encode_url
  rw [List.length_append, length_flatMap_pair]
  rfl

theorem add_rootstring_RootStringSize (u : List Byte) (h : EOT_header)
    (hsum : h.RootStringSize + (2 * u.length + 2) ≤ 65535) :
    (add_rootstring u h).RootStringSize = h.RootStringSize + (2 * u.length + 2) := by
  show (h.RootStringSize + (2 * u.length + 2) % 2 ^ 32) % 2 ^ 16 = _
  rw [Nat.mod_eq_of_lt (show 2 * u.length + 2 < 2 ^ 32 by omega)]
  exact Nat.mod_eq_of_lt (by omega)

theorem add_rootstring_exact (u : List Byte) (h : EOT_header)
    (hbuf : h.RootStringSize ≤ h.RootString.length)
    (hsum : h.RootStringSize + (2 * u.length + 2) ≤ 65535) :
    (add_rootstring u h).RootString.length = (add_rootstring u h).RootStringSize := by
  rw [add_rootstring_RootString u h hbuf (by omega), add_rootstring_RootStringSize u h hsum,
    List.length_append, length_encode_url, List.length_take]
  omega

theorem add_rootstring_foldl_exact (urls : List (List Byte)) (h : EOT_header)
    (hbuf : h.RootString.length = h.RootStringSize)
    (hsum : h.RootStringSize + encoded_length urls ≤ 65535) :
    (urls.foldl (fun h url => add_rootstring url h) h).RootString =
      h.RootString ++ urls.flatMap encode_url ∧
    (urls.foldl (fun h url => add_rootstring url h) h).RootString.length =
      (urls.foldl (fun h url => add_rootstring url h) h).RootStringSize := by
  induction urls generalizing h with
  | nil => simp [hbuf]
  | cons u us ih =>
    have hl : encoded_length (u :: us) = (2 * u.length + 2) + encoded_length us := by
      simp [encoded_length]
    rw [hl] at hsum
    have hR := add_rootstring_RootStringSize u h (by omega)
    have hB := add_rootstring_RootString u h (by omega) (by omega)
    have hE := add_rootstring_exact u h (by omega) (by omega)
    have := ih (add_rootstring u h) hE (by rw [hR]; omega)
    rw [List.foldl_cons]
    refine ⟨?_, this.2⟩
    rw [this.1, hB, List.flatMap_cons, List.append_assoc, List.take_of_length_le (by omega)]

theorem add_rootstring_foldl_checksum (urls : List (List Byte)) (h : EOT_header)
    (hne : urls ≠ []) :
    (urls.foldl (fun h url => add_rootstring url h) h).RootStringCheckSum =
      get_byte_checksum (urls.foldl (fun h url => add_rootstring url h) h).RootString
        (urls.foldl (fun h url => add_rootstring url h) h).RootStringSize := by
  induction urls generalizing h with
  | nil => exact absurd rfl hne
  | cons u us ih =>
    cases us with
    | nil => rfl
    | cons v vs => exact ih (add_rootstring u h) (by simp)

theorem foldl_sum_mod (l : List Byte) (acc : Nat) (hlt : acc + 255 * l.length < 2 ^ 32) :
    l.foldl (fun sum b => (sum + b.val) % 2 ^ 32) acc = acc + (l.map Fin.val).sum := by
  induction l generalizing acc with
  | nil => simp
  | cons b l ih =>
    have hb : b.val < 256 := b.isLt
    simp only [List.length_cons] at hlt
    rw [List.foldl_cons, Nat.mod_eq_of_lt (by omega), ih _ (by omega)]
    simp only [List.map_cons, List.sum_cons]
    omega

theorem get_byte_checksum_eq (s : List Byte) (len : Nat) (hlen : len ≤ 65535) :
    get_byte_checksum s len = ((s.take len).map Fin.val).sum ^^^ 0x50475342 := by
  unfold get_byte_checksum
  rw [foldl_sum_mod _ 0 (by
    have : (s.take len).length ≤ len := List.length_take_le _ _
    omega)]
  simp

theorem length_flatMap_encode_url (urls : List (List Byte)) :
    (urls.flatMap encode_url).length = encoded_length urls := by
  induction urls with
  | nil => rfl
  | cons u us ih =>
    rw [List.flatMap_cons, List.length_append, ih, length_encode_url]
    simp [encoded_length]

theorem add_rootstring_foldl_buffer (urls : List (List Byte)) (h : EOT_header)
    (hne : urls ≠ []) (hbuf : h.RootStringSize ≤ h.RootString.length)
    (hsum : h.RootStringSize + encoded_length urls ≤ 65535) :
    (urls.foldl (fun h url => add_rootstring url h) h).RootString =
      h.RootString.take h.RootStringSize ++ urls.flatMap encode_url ∧
    (urls.foldl (fun h url => add_rootstring url h) h).RootStringSize =
      h.RootStringSize + encoded_length urls := by
  cases urls with
  | nil => exact absurd rfl hne
  | cons u us =>
    have hl : encoded_length (u :: us) = (2 * u.length + 2) + encoded_length us := by
      simp [encoded_length]
    rw [hl] at hsum
    have hR := add_rootstring_RootStringSize u h (by omega)
    have hB := add_rootstring_RootString u h hbuf (by omega)
    have hE := add_rootstring_exact u h hbuf (by omega)
    obtain ⟨h1, h2⟩ := add_rootstring_foldl_exact us (add_rootstring u h) hE (by rw [hR]; omega)
    rw [List.foldl_cons]
    have hbufeq : (List.foldl (fun h url => add_rootstring url h) (add_rootstring u h) us).RootString
        = h.RootString.take h.RootStringSize ++ (u :: us).flatMap encode_url := by
      rw [h1, hB, List.flatMap_cons, List.append_assoc]
    refine ⟨hbufeq, ?_⟩
    rw [← h2, hbufeq, List.length_append, length_flatMap_encode_url, List.length_take, hl]
    omega

/-! ## The properties of the root-string builder -/

/-- C12 as stated fails: after adding the URL "a" to the initial header the root string is
61 00 00 00, four bytes, so the terminator is two zero bytes and the buffer has grown by
2*1 + 2, not by 2*1 + 4. -/
theorem terminator_is_not_four_bytes :
    (add_rootstring [0x61] initialize_EOT_header).RootString = [0x61, 0, 0, 0] ∧
    (add_rootstring [0x61] initialize_EOT_header).RootString.length ≠
      initialize_EOT_header.RootString.length + 2 * [(0x61 : Byte)].length + 4 := by
  decide

/-- C12, amended. For every header whose root-string buffer holds its RootStringSize bytes
and every URL (the new size fitting 32 bits), what `add_rootstring` appends after the URL's
characters is one UTF-16LE code unit of value 0, that is 2 zero bytes: the buffer is the old
RootStringSize bytes, the URL's 2*len(url) bytes and 2 terminator bytes. -/
theorem terminator_is_two_bytes (u : List Byte) (h : EOT_header)
    (hbuf : h.RootStringSize ≤ h.RootString.length)
    (hfit : h.RootStringSize + (2 * u.length + 2) < 2 ^ 32) :
    (add_rootstring u h).RootString =
      h.RootString.take h.RootStringSize ++ u.flatMap (fun c => [c, 0]) ++ [0, 0] ∧
    (add_rootstring u h).RootString.length = h.RootStringSize + 2 * u.length + 2 := by
  have hB := add_rootstring_RootString u h hbuf hfit
  refine ⟨by rw [hB, encode_url, List.append_assoc], ?_⟩
  rw [hB, List.length_append, length_encode_url, List.length_take]
  omega

/-- The terminator after the URL "a/" added to `header_v2_sample`. -/
theorem terminator_is_two_bytes_witness :
    (add_rootstring [0x61, 0x2F] header_v2_sample).RootString =
      header_v2_sample.RootString.take header_v2_sample.RootStringSize ++
        [(0x61 : Byte), 0x2F].flatMap (fun c => [c, 0]) ++ [0, 0] ∧
    (add_rootstring [0x61, 0x2F] header_v2_sample).RootString.length =
      header_v2_sample.RootStringSize + 2 * [(0x61 : Byte), 0x2F].length + 2 :=
  terminator_is_two_bytes [0x61, 0x2F] header_v2_sample (by decide) (by decide)

/-- C13. For every non-empty list of URLs added in order to a header whose root-string
buffer holds its RootStringSize bytes, the total staying within 65535: the buffer is the old
bytes followed by the encodings of all the URLs, RootStringSize is its length, and
RootStringCheckSum is the sum of all the bytes of that whole buffer XOR 0x50475342, which is
`get_byte_checksum` of the buffer and its size; `get_byte_checksum` depends only on the
first `len` bytes of the buffer and on `len`. -/
theorem rootstring_checksum_whole_buffer (urls : List (List Byte)) (h : EOT_header)
    (hne : urls ≠ []) (hbuf : h.RootStringSize ≤ h.RootString.length)
    (hsum : h.RootStringSize + encoded_length urls ≤ 65535) :
    (urls.foldl (fun h url => add_rootstring url h) h).RootString =
      h.RootString.take h.RootStringSize ++ urls.flatMap encode_url ∧
    (urls.foldl (fun h url => add_rootstring url h) h).RootStringSize =
      h.RootStringSize + encoded_length urls ∧
    (urls.foldl (fun h url => add_rootstring url h) h).RootStringCheckSum =
      (((urls.foldl (fun h url => add_rootstring url h) h).RootString).map Fin.val).sum ^^^
        0x50475342 ∧
    (urls.foldl (fun h url => add_rootstring url h) h).RootStringCheckSum =
      get_byte_checksum (urls.foldl (fun h url => add_rootstring url h) h).RootString
        (urls.foldl (fun h url => add_rootstring url h) h).RootStringSize ∧
    ∀ (s s' : List Byte) (len : Nat), s.take len = s'.take len →
      get_byte_checksum s len = get_byte_checksum s' len := by
  obtain ⟨hB, hR⟩ := add_rootstring_foldl_buffer urls h hne hbuf hsum
  have hC := add_rootstring_foldl_checksum urls h hne
  refine ⟨hB, hR, ?_, hC, ?_⟩
  · rw [hC, get_byte_checksum_eq _ _ (by rw [hR]; omega), List.take_of_length_le]
    rw [hR, hB, List.length_append, length_flatMap_encode_url, List.length_take]
    omega
  · intro s s' len hs
    unfold get_byte_checksum
    rw [hs]

/-- The checksum after adding "a/" and then "b" to the initial header: the bytes
61 00 2F 00 00 00 62 00 00 00 sum to 0xF2. -/
theorem rootstring_checksum_whole_buffer_witness :
    (([[0x61, 0x2F], [0x62]] : List (List Byte)).foldl (fun h url => add_rootstring url h)
      initialize_EOT_header).RootString = [0x61, 0, 0x2F, 0, 0, 0, 0x62, 0, 0, 0] ∧
    (([[0x61, 0x2F], [0x62]] : List (List Byte)).foldl (fun h url => add_rootstring url h)
      initialize_EOT_header).RootStringCheckSum = 0xF2 ^^^ 0x50475342 :=
  ⟨(rootstring_checksum_whole_buffer [[0x61, 0x2F], [0x62]] initialize_EOT_header (by decide)
      (by decide) (by decide)).1,
   (rootstring_checksum_whole_buffer [[0x61, 0x2F], [0x62]] initialize_EOT_header (by decide)
      (by decide) (by decide)).2.2.1⟩

/-! ## The writer and the table directory -/

theorem main_header_Version {file : List Byte} {urls : List (List Byte)} {h : EOT_header}
    (hb : main_header file urls = .ok h) : h.Version = 0x00020002 := by
  obtain ⟨h1, hread, rfl⟩ := main_header_ok hb
  have hV := (read_some_opentype_data_ok hread).1
  have fV := (add_rootstring_foldl_frame urls h1).1.1
  rw [fV, hV]
  rfl

theorem find?_tag_least (l : List sfnt_table_record) (tag : List Byte) (r : sfnt_table_record) :
    l.find? (fun t => decide (t.tag = tag)) = some r ↔
      ∃ i : Nat, l[i]? = some r ∧ r.tag = tag ∧
        ∀ j : Nat, j < i → ∀ r' : sfnt_table_record, l[j]? = some r' → r'.tag ≠ tag := by
  induction l with
  | nil => simp
  | cons t l ih =>
    by_cases ht : t.tag = tag
    · rw [List.find?_cons_of_pos _ (by simpa using ht)]
      constructor
      · intro h
        simp only [Option.some.injEq] at h
        subst h
        exact ⟨0, List.getElem?_cons_zero, ht, fun j hj => absurd hj (Nat.not_lt_zero j)⟩
      · rintro ⟨i, hi, _, hleast⟩
        cases i with
        | zero => simpa using hi
        | succ i => exact absurd ht (hleast 0 (Nat.succ_pos i) t List.getElem?_cons_zero)
    · rw [List.find?_cons_of_neg _ (by simpa using ht), ih]
      constructor
      · rintro ⟨i, hi, hr, hleast⟩
        refine ⟨i + 1, by simpa using hi, hr, ?_⟩
        intro j hj r' hr'
        cases j with
        | zero =>
          simp only [List.getElem?_cons_zero, Option.some.injEq] at hr'
          subst hr'
          exact ht
        | succ j => exact hleast j (by omega) r' (by simpa using hr')
      · rintro ⟨i, hi, hr, hleast⟩
        cases i with
        | zero =>
          simp only [List.getElem?_cons_zero, Option.some.injEq] at hi
          subst hi
          exact absurd hr ht
        | succ i =>
          refine ⟨i, by simpa using hi, hr, ?_⟩
          intro j hj r' hr'
          exact hleast (j + 1) (by omega) r' (by simpa using hr')

theorem find_table_eq_some (sfnt : sfnt_offset_table) (tag : List Byte)
    (r : sfnt_table_record) :
    find_table sfnt tag = some r ↔
      ∃ i : Nat, i < sfnt.numTables ∧ sfnt.tables[i]? = some r ∧ r.tag = tag ∧
        ∀ j : Nat, j < i → ∀ r' : sfnt_table_record, sfnt.tables[j]? = some r' → r'.tag ≠ tag := by
  unfold find_table
  rw [find?_tag_least]
  constructor
  · rintro ⟨i, hi, hr, hleast⟩
    rw [List.getElem?_take] at hi
    split at hi
    · rename_i hlt
      refine ⟨i, hlt, hi, hr, ?_⟩
      intro j hj r' hr'
      apply hleast j hj r'
      rw [List.getElem?_take, if_pos (by omega)]
      exact hr'
    · simp at hi
  · rintro ⟨i, hlt, hi, hr, hleast⟩
    refine ⟨i, by rw [List.getElem?_take, if_pos hlt]; exact hi, hr, ?_⟩
    intro j hj r' hr'
    rw [List.getElem?_take, if_pos (by omega)] at hr'
    exact hleast j hj r' hr'

theorem find_table_eq_none (sfnt : sfnt_offset_table) (tag : List Byte)
    (hno : ∀ t ∈ sfnt.tables, t.tag ≠ tag) : find_table sfnt tag = none := by
  unfold find_table
  rw [List.find?_eq_none]
  intro t ht
  have := hno t (List.mem_of_mem_take ht)
  simpa using this

theorem read_font_tables_none (file : List Byte) (sfnt : sfnt_offset_table) (rest : List Byte)
    (hs : read_sfnt_header file file = some (sfnt, rest))
    (hno : find_table sfnt tag_OS2 = none ∨ find_table sfnt tag_name = none ∨
      find_table sfnt tag_head = none) :
    read_font_tables file file = none := by
  unfold read_font_tables
  rw [Parser.bind_apply, hs]
  dsimp only
  rw [Parser.bind_apply]
  cases hos : read_OS2_table file sfnt rest with
  | none => rfl
  | some p1 =>
    obtain ⟨os2, r1⟩ := p1
    dsimp only
    rw [Parser.bind_apply]
    cases hnm : read_name_table file sfnt r1 with
    | none => rfl
    | some p2 =>
      obtain ⟨name, r2⟩ := p2
      dsimp only
      rw [Parser.bind_apply]
      cases hhd : read_head_table file sfnt r2 with
      | none => rfl
      | some p3 =>
        exfalso
        rcases hno with h | h | h
        · simp [read_OS2_table, h, Parser.fail] at hos
        · simp [read_name_table, h, Parser.fail] at hnm
        · simp [read_head_table, h, Parser.fail] at hhd

/-! ## The properties of the writer and of the sfnt readers -/

/-- C14. Embedding policy: for every font on which the metadata extraction succeeds (so
that `main` has built header `h`), `main` stops with an error, having written nothing, if and
only if fsType has FSTYPE_RESTRICTED (0x0002) set with neither FSTYPE_EDITABLE (0x0008) nor
FSTYPE_PREVIEW (0x0004), or has FSTYPE_BITMAP (0x0200) set; fsType = 0x0002 alone is
refused; in every other case the output is the header followed by the font bytes. -/
theorem embedding_policy (file : List Byte) (urls : List (List Byte)) (h : EOT_header)
    (hb : main_header file urls = .ok h) :
    ((h.fsType &&& 0x0002 ≠ 0 ∧ h.fsType &&& 0x0008 = 0 ∧ h.fsType &&& 0x0004 = 0) →
      main file urls = .error .embeddingNotAllowed) ∧
    (¬ (h.fsType &&& 0x0002 ≠ 0 ∧ h.fsType &&& 0x0008 = 0 ∧ h.fsType &&& 0x0004 = 0) →
      h.fsType &&& 0x0200 ≠ 0 → main file urls = .error .bitmapEmbedding) ∧
    (¬ (h.fsType &&& 0x0002 ≠ 0 ∧ h.fsType &&& 0x0008 = 0 ∧ h.fsType &&& 0x0004 = 0) →
      ¬ h.fsType &&& 0x0200 ≠ 0 →
      ∃ out, write_EOT_header h = some out ∧ main file urls = .ok (out ++ file)) ∧
    ((∃ e, main file urls = .error e) ↔
      ((h.fsType &&& 0x0002 ≠ 0 ∧ h.fsType &&& 0x0008 = 0 ∧ h.fsType &&& 0x0004 = 0) ∨
        h.fsType &&& 0x0200 ≠ 0)) ∧
    (h.fsType = 0x0002 → main file urls = .error .embeddingNotAllowed) := by
  have hw := write_EOT_header_v2 h (main_header_Version hb)
  have hmain : main file urls =
      if h.fsType &&& FSTYPE_EDITABLE = 0 ∧ h.fsType &&& FSTYPE_PREVIEW = 0 ∧
          h.fsType &&& FSTYPE_RESTRICTED ≠ 0 then .error .embeddingNotAllowed
      else if h.fsType &&& FSTYPE_BITMAP ≠ 0 then .error .bitmapEmbedding
      else match write_EOT_header h with
        | none => .error .assertionFailed
        | some out => .ok (out ++ file) := by
    unfold main
    rw [hb]
  simp only [FSTYPE_EDITABLE, FSTYPE_PREVIEW, FSTYPE_RESTRICTED, FSTYPE_BITMAP, hw] at hmain
  have h1 : (h.fsType &&& 0x0002 ≠ 0 ∧ h.fsType &&& 0x0008 = 0 ∧ h.fsType &&& 0x0004 = 0) →
      main file urls = .error .embeddingNotAllowed := by
    intro hc
    rw [hmain, if_pos ⟨hc.2.1, hc.2.2, hc.1⟩]
  have h2 : ¬ (h.fsType &&& 0x0002 ≠ 0 ∧ h.fsType &&& 0x0008 = 0 ∧ h.fsType &&& 0x0004 = 0) →
      h.fsType &&& 0x0200 ≠ 0 → main file urls = .error .bitmapEmbedding := by
    intro hc hbm
    rw [hmain, if_neg (fun hx => hc ⟨hx.2.2, hx.1, hx.2.1⟩), if_pos hbm]
  have h3 : ¬ (h.fsType &&& 0x0002 ≠ 0 ∧ h.fsType &&& 0x0008 = 0 ∧ h.fsType &&& 0x0004 = 0) →
      ¬ h.fsType &&& 0x0200 ≠ 0 →
      ∃ out, write_EOT_header h = some out ∧ main file urls = .ok (out ++ file) := by
    intro hc hbm
    refine ⟨_, hw, ?_⟩
    rw [hmain, if_neg (fun hx => hc ⟨hx.2.2, hx.1, hx.2.1⟩), if_neg hbm]
  refine ⟨h1, h2, h3, ⟨?_, ?_⟩, ?_⟩
  · rintro ⟨e, he⟩
    by_cases hc : (h.fsType &&& 0x0002 ≠ 0 ∧ h.fsType &&& 0x0008 = 0 ∧ h.fsType &&& 0x0004 = 0)
    · exact Or.inl hc
    · by_cases hbm : h.fsType &&& 0x0200 ≠ 0
      · exact Or.inr hbm
      · obtain ⟨out, _, hok⟩ := h3 hc hbm
        rw [hok] at he
        exact absurd he (by simp)
  · rintro (hc | hbm)
    · exact ⟨_, h1 hc⟩
    · by_cases hc : (h.fsType &&& 0x0002 ≠ 0 ∧ h.fsType &&& 0x0008 = 0 ∧
          h.fsType &&& 0x0004 = 0)
      · exact ⟨_, h1 hc⟩
      · exact ⟨_, h2 hc hbm⟩
  · intro hfs
    apply h1
    rw [hfs]
    decide

set_option maxRecDepth 100000 in
/-- The font with fsType 0x0002 is refused, and `sample_font` (fsType 0) is written out. -/
theorem embedding_policy_witness :
    main restricted_font [] = .error .embeddingNotAllowed ∧
    ∃ h out, main_header sample_font [] = .ok h ∧ write_EOT_header h = some out ∧
      main sample_font [] = .ok (out ++ sample_font) :=
  ⟨(embedding_policy restricted_font [] _ rfl).2.2.2.2 rfl,
   _, _, rfl, rfl, rfl⟩

/-- C15. Table lookup and missing tables, for a font whose directory `sfnt` was read: a
lookup by tag returns the record of least index (below numTables) whose tag equals the
requested bytes exactly; and if the directory has no record tagged "OS/2", or none tagged
"name", or none tagged "head", then `read_some_opentype_data` returns false and `main`
stops before writing anything. -/
theorem table_lookup (file : List Byte) (sfnt : sfnt_offset_table) (rest : List Byte)
    (hs : read_sfnt_header file file = some (sfnt, rest)) :
    (∀ tag r, find_table sfnt tag = some r ↔
      ∃ i : Nat, i < sfnt.numTables ∧ sfnt.tables[i]? = some r ∧ r.tag = tag ∧
        ∀ j : Nat, j < i → ∀ r' : sfnt_table_record, sfnt.tables[j]? = some r' → r'.tag ≠ tag) ∧
    (((∀ t ∈ sfnt.tables, t.tag ≠ tag_OS2) ∨ (∀ t ∈ sfnt.tables, t.tag ≠ tag_name) ∨
        (∀ t ∈ sfnt.tables, t.tag ≠ tag_head)) →
      (∀ h0, read_some_opentype_data file h0 = .ok none) ∧
      ∀ urls, main file urls = .error .couldNotReadFont) := by
  refine ⟨fun tag r => find_table_eq_some sfnt tag r, ?_⟩
  intro hno
  have hnone : read_font_tables file file = none := by
    apply read_font_tables_none file sfnt rest hs
    rcases hno with h | h | h
    · exact Or.inl (find_table_eq_none _ _ h)
    · exact Or.inr (Or.inl (find_table_eq_none _ _ h))
    · exact Or.inr (Or.inr (find_table_eq_none _ _ h))
  have hread : ∀ h0, read_some_opentype_data file h0 = .ok none := by
    intro h0
    unfold read_some_opentype_data
    rw [hnone]
  refine ⟨hread, ?_⟩
  intro urls
  unfold main main_header
  rw [hread]

set_option maxRecDepth 100000 in
/-- In `no_head_font` the third directory tag is "Head": the lookup of "head" finds nothing
and the writer stops without output, while the lookup of "name" finds the record at index 2,
the first with that tag. -/
theorem table_lookup_witness :
    ∃ sfnt rest, read_sfnt_header no_head_font no_head_font = some (sfnt, rest) ∧
      find_table sfnt tag_head = none ∧
      (∃ r, find_table sfnt tag_name = some r ∧ sfnt.tables[2]? = some r) ∧
      main no_head_font [] = .error .couldNotReadFont := by
  refine ⟨_, _, rfl, rfl, ⟨_, rfl, rfl⟩, ?_⟩
  exact ((table_lookup no_head_font _ _ rfl).2 (Or.inr (Or.inr (by decide)))).2 []

/-! ## The sfnt offset table and its directory -/

theorem be32_or_eq (a b c d : Nat) (_ha : a < 256) (hb : b < 256) (hc : c < 256) (hd : d < 256) :
    (a <<< 24) ||| (b <<< 16) ||| (c <<< 8) ||| d
      = 16777216 * a + 65536 * b + 256 * c + d := by
  simp only [Nat.shiftLeft_eq]
  have h1 : a * 2 ^ 24 ||| b * 2 ^ 16 = 2 ^ 16 * (256 * a + b) := by
    rw [show a * 2 ^ 24 = 2 ^ 24 * a by ring, ← Nat.mul_add_lt_is_or (by omega)]
    ring
  have h2 : 2 ^ 16 * (256 * a + b) ||| c * 2 ^ 8 = 2 ^ 8 * (65536 * a + 256 * b + c) := by
    rw [← Nat.mul_add_lt_is_or (by omega)]
    ring
  rw [h1, h2, ← Nat.mul_add_lt_is_or (by omega)]
  omega

theorem u32be_at_lt (f : List Byte) (off : Nat) : u32be_at f off < 2 ^ 32 := by
  unfold u32be_at
  split
  · rename_i s0 s1 s2 s3 _ _
    have h0 := s0.isLt
    have h1 := s1.isLt
    have h2 := s2.isLt
    have h3 := s3.isLt
    omega
  · norm_num

theorem read_4be_eq (g : List Byte) :
    read_4be g =
      if 4 ≤ g.length then some (int_to_ulong (u32be_at g 0), g.drop 4) else none := by
  match g with
  | [] => rfl
  | [_] => rfl
  | [_, _] => rfl
  | [_, _, _] => rfl
  | s0 :: s1 :: s2 :: s3 :: f =>
    rw [if_pos (by simp)]
    show some (int_to_ulong _, f) = some (int_to_ulong _, f)
    rw [be32_or_eq _ _ _ _ s0.isLt s1.isLt s2.isLt s3.isLt]
    rfl

theorem read_2be_eq (g : List Byte) :
    read_2be g = if 2 ≤ g.length then some (u16be_at g 0, g.drop 2) else none := by
  match g with
  | [] => rfl
  | [_] => rfl
  | s0 :: s1 :: f =>
    rw [if_pos (by simp)]
    show some (_, f) = some (_, f)
    have e : ((s0.val <<< 8) + s1.val) % 2 ^ 16 = 256 * s0.val + s1.val := by
      have := s0.isLt
      have := s1.isLt
      rw [Nat.shiftLeft_eq]
      omega
    rw [e]
    rfl

theorem u32be_at_drop (f : List Byte) (p q : Nat) : u32be_at (f.drop p) q = u32be_at f (p + q) := by
  unfold u32be_at
  rw [List.drop_drop, Nat.add_comm]

theorem u16be_at_drop (f : List Byte) (p q : Nat) : u16be_at (f.drop p) q = u16be_at f (p + q) := by
  unfold u16be_at
  rw [List.drop_drop, Nat.add_comm]

theorem read_4be_length {g r : List Byte} {x : Nat} (h : read_4be g = some (x, r)) :
    g.length = r.length + 4 := by
  rw [read_4be_eq] at h
  split at h
  · simp only [Option.some.injEq, Prod.mk.injEq] at h
    rw [← h.2, List.length_drop]
    omega
  · exact absurd h (by simp)

theorem read_2be_length {g r : List Byte} {x : Nat} (h : read_2be g = some (x, r)) :
    g.length = r.length + 2 := by
  rw [read_2be_eq] at h
  split at h
  · simp only [Option.some.injEq, Prod.mk.injEq] at h
    rw [← h.2, List.length_drop]
    omega
  · exact absurd h (by simp)

theorem fread_length {n : Nat} {g r a : List Byte} (h : fread n g = some (a, r)) :
    g.length = r.length + n := by
  unfold fread at h
  split at h
  · simp only [Option.some.injEq, Prod.mk.injEq] at h
    rw [← h.2, List.length_drop]
    omega
  · exact absurd h (by simp)

theorem read_table_records_length : ∀ (n : Nat) (g r : List Byte) (t : List sfnt_table_record),
    read_table_records n g = some (t, r) → g.length = r.length + 16 * n := by
  intro n
  induction n with
  | zero =>
    intro g r t h
    have e : r = g := by
      have h2 : some (([] : List sfnt_table_record), g) = some (t, r) := h
      simp only [Option.some.injEq, Prod.mk.injEq] at h2
      exact h2.2.symm
    rw [e]
    rfl
  | succ n ih =>
    intro g r t h
    rw [read_table_records] at h
    obtain ⟨_, g1, h1, h⟩ := Parser.bind_inv h
    obtain ⟨_, g2, h2, h⟩ := Parser.bind_inv h
    obtain ⟨_, g3, h3, h⟩ := Parser.bind_inv h
    obtain ⟨_, g4, h4, h⟩ := Parser.bind_inv h
    obtain ⟨_, g5, h5, h⟩ := Parser.bind_inv h
    have e : g5 = r := by
      rw [Parser.pure_apply] at h
      simp only [Option.some.injEq, Prod.mk.injEq] at h
      exact h.2
    have l1 := fread_length h1
    have l2 := read_4be_length h2
    have l3 := read_4be_length h3
    have l4 := read_4be_length h4
    have l5 := ih _ _ _ h5
    rw [e] at l5
    omega

theorem read_table_records_some (file : List Byte) : ∀ n k : Nat,
    12 + 16 * (k + n) ≤ file.length →
    read_table_records n (file.drop (12 + 16 * k)) =
      some ((List.range' k n).map (stored_entry file), file.drop (12 + 16 * (k + n))) := by
  intro n
  induction n with
  | zero =>
    intro k _
    rfl
  | succ n ih =>
    intro k hk
    rw [read_table_records]
    have e1 : fread 4 (file.drop (12 + 16 * k))
        = some ((file.drop (12 + 16 * k)).take 4, file.drop (12 + 16 * k + 4)) := by
      unfold fread
      rw [if_pos (by rw [List.length_drop]; omega), List.drop_drop]
    have e2 : ∀ q : Nat, q + 4 ≤ 16 → read_4be (file.drop (12 + 16 * k + q))
        = some (int_to_ulong (u32be_at file (12 + 16 * k + q)),
            file.drop (12 + 16 * k + (q + 4))) := by
      intro q hq
      rw [read_4be_eq, if_pos (by rw [List.length_drop]; omega), u32be_at_drop, List.drop_drop,
        Nat.add_zero, Nat.add_assoc (12 + 16 * k) q 4]
    rw [Parser.bind_apply, e1]
    dsimp only
    rw [Parser.bind_apply, e2 4 (by omega)]
    dsimp only
    rw [Parser.bind_apply, e2 8 (by omega)]
    dsimp only
    rw [Parser.bind_apply, e2 12 (by omega)]
    dsimp only
    rw [Parser.bind_apply, show 12 + 16 * k + (12 + 4) = 12 + 16 * (k + 1) by omega,
      ih (k + 1) (by omega)]
    dsimp only
    rw [Parser.pure_apply, List.range'_succ, List.map_cons,
      show k + 1 + n = k + (n + 1) by omega]
    rfl

theorem read_2be_at (file : List Byte) (p : Nat) (h : p + 2 ≤ file.length) :
    read_2be (file.drop p) = some (u16be_at file p, file.drop (p + 2)) := by
  rw [read_2be_eq, if_pos (by rw [List.length_drop]; omega), u16be_at_drop, List.drop_drop,
    Nat.add_zero]

theorem known_sfnt_version_iff (v : Nat) :
    known_sfnt_version v ↔
      ¬ (v ≠ SFNT_OTTO ∧ v ≠ SFNT_TRUE ∧ v ≠ SFNT_TYP1 ∧ v ≠ SFNT_VERSION_1_0) := by
  rw [show SFNT_OTTO = 0x4F54544F by decide, show SFNT_TRUE = 0x74727565 by decide,
    show SFNT_TYP1 = 0x74797031 by decide, show SFNT_VERSION_1_0 = 0x00010000 by decide]
  unfold known_sfnt_version
  omega

theorem known_sfnt_version_int_to_ulong (v : Nat) :
    known_sfnt_version (int_to_ulong v) ↔ known_sfnt_version v := by
  unfold known_sfnt_version int_to_ulong
  split <;> omega

theorem read_sfnt_header_short (file g : List Byte) (h : ¬ 12 ≤ file.length) :
    read_sfnt_header file g = none := by
  cases hr : read_sfnt_header file g with
  | none => rfl
  | some sr =>
    exfalso
    unfold read_sfnt_header at hr
    obtain ⟨_, g1, h1, hr⟩ := Parser.bind_inv hr
    obtain ⟨_, g2, h2, hr⟩ := Parser.bind_inv hr
    obtain ⟨_, g3, h3, hr⟩ := Parser.bind_inv hr
    obtain ⟨_, g4, h4, hr⟩ := Parser.bind_inv hr
    obtain ⟨_, g5, h5, hr⟩ := Parser.bind_inv hr
    obtain ⟨_, g6, h6, _⟩ := Parser.bind_inv hr
    have l6 := read_2be_length h6
    have e1 : g1 = file := by
      unfold rewind at h1
      simp only [Option.some.injEq, Prod.mk.injEq] at h1
      exact h1.2.symm
    have l2 := read_4be_length h2
    have l3 := read_2be_length h3
    have l4 := read_2be_length h4
    have l5 := read_2be_length h5
    rw [e1] at l2
    omega

theorem read_sfnt_header_eq (file g : List Byte) :
    read_sfnt_header file g =
      if 12 + 16 * u16be_at file 4 ≤ file.length ∧ known_sfnt_version (u32be_at file 0) then
        some ({ sfnt_version := int_to_ulong (u32be_at file 0), numTables := u16be_at file 4,
                searchRange := u16be_at file 6, entrySelector := u16be_at file 8,
                rangeShift := u16be_at file 10,
                tables := (List.range (u16be_at file 4)).map (stored_entry file) },
              file.drop (12 + 16 * u16be_at file 4))
      else none := by
  by_cases h12 : 12 ≤ file.length
  · unfold read_sfnt_header
    rw [Parser.bind_apply, show rewind file g = some ((), file) from rfl]
    dsimp only
    rw [Parser.bind_apply, read_4be_eq, if_pos (by omega)]
    dsimp only
    rw [Parser.bind_apply, read_2be_at file 4 (by omega)]
    dsimp only
    rw [Parser.bind_apply, read_2be_at file 6 (by omega)]
    dsimp only
    rw [Parser.bind_apply, read_2be_at file 8 (by omega)]
    dsimp only
    rw [Parser.bind_apply, read_2be_at file 10 (by omega)]
    dsimp only
    rw [Parser.bind_apply]
    by_cases hv : known_sfnt_version (u32be_at file 0)
    · rw [failIf_false
        ((known_sfnt_version_iff _).1 ((known_sfnt_version_int_to_ulong _).2 hv))]
      dsimp only
      rw [Parser.bind_apply]
      by_cases hn : 12 + 16 * u16be_at file 4 ≤ file.length
      · have e := read_table_records_some file (u16be_at file 4) 0 (by omega)
        rw [Nat.mul_zero, Nat.add_zero, Nat.zero_add] at e
        rw [if_pos ⟨hn, hv⟩, e, List.range_eq_range']
        rfl
      · rw [if_neg (fun c => hn c.1)]
        cases hr : read_table_records (u16be_at file 4) (file.drop (10 + 2)) with
        | none => rfl
        | some tr =>
          exfalso
          have l := read_table_records_length _ _ _ _ hr
          rw [List.length_drop] at l
          omega
    · have hc : int_to_ulong (u32be_at file 0) ≠ SFNT_OTTO ∧
          int_to_ulong (u32be_at file 0) ≠ SFNT_TRUE ∧
          int_to_ulong (u32be_at file 0) ≠ SFNT_TYP1 ∧
          int_to_ulong (u32be_at file 0) ≠ SFNT_VERSION_1_0 := by
        by_contra c
        exact hv ((known_sfnt_version_int_to_ulong _).1 ((known_sfnt_version_iff _).2 c))
      rw [failIf_true hc, if_neg (fun c => hv c.2)]
  · rw [read_sfnt_header_short file g h12, if_neg (fun c => h12 (by omega))]

set_option maxRecDepth 100000 in
/-- C16 (not met by the code). A directory field whose bit 31 is set is not stored as the
big-endian value of its four bytes. `signed_checksum_font` is `sample_font` with the bytes
80 00 00 00 in the checkSum field of its first directory record (offset 16):
`read_sfnt_header` succeeds on it with numTables = 3 and a directory of three records, and
record 0 has the tag stored at offset 12 and the offset and length stored at 20 and 24, but
checkSum 0xFFFFFFFF80000000 where the big-endian value is 0x80000000. -/
theorem directory_checksum_sign_extends :
    u32be_at signed_checksum_font 16 = 0x80000000 ∧
    ∃ sfnt rest,
      read_sfnt_header signed_checksum_font signed_checksum_font = some (sfnt, rest) ∧
      sfnt.numTables = 3 ∧ sfnt.tables.length = 3 ∧
      rest = signed_checksum_font.drop 60 ∧
      ∃ t, sfnt.tables[0]? = some t ∧
        t.tag = (directory_entry signed_checksum_font 0).tag ∧
        t.offset = (directory_entry signed_checksum_font 0).offset ∧
        t.length = (directory_entry signed_checksum_font 0).length ∧
        (directory_entry signed_checksum_font 0).checkSum = 0x80000000 ∧
        t.checkSum = 0xFFFFFFFF80000000 :=
  ⟨rfl, _, _, rfl, rfl, rfl, rfl, _, rfl, rfl, rfl, rfl, rfl, rfl⟩

/-! ## The English-name search -/

theorem is_english_of_IsEnglish {r : NameRecord} (h : IsEnglish r) : is_english r = .ok true := by
  unfold is_english
  rcases h with ⟨h1, h2, h3⟩ | ⟨h1, h2, h3⟩
  · rw [if_neg (by omega), if_pos h1, if_neg (by omega), if_neg (by omega)]
    simp [h3]
  · rw [if_neg (by omega), if_neg (by omega), if_neg (by omega), if_pos h1, if_neg (by omega),
      if_neg (by omega)]
    simp [h3]

theorem is_english_of_NameError {r : NameRecord} (h : NameError r) :
    ∃ e, is_english r = .error e := by
  unfold is_english
  rcases h with h | ⟨h1, h2⟩ | ⟨h1, h2⟩
  · rw [if_neg (by omega), if_neg (by omega), if_neg (by omega), if_neg (by omega),
      if_neg (by omega)]
    exact ⟨_, rfl⟩
  · rw [if_neg (by omega), if_pos h1]
    by_cases hl : r.languageID ≥ 0x8000
    · rw [if_pos hl]
      exact ⟨_, rfl⟩
    · rw [if_neg hl, if_pos (by omega)]
      exact ⟨_, rfl⟩
  · rw [if_neg (by omega), if_neg (by omega), if_neg (by omega), if_pos h1]
    by_cases hl : r.languageID ≥ 0x8000
    · rw [if_pos hl]
      exact ⟨_, rfl⟩
    · rw [if_neg hl, if_pos (by omega)]
      exact ⟨_, rfl⟩

theorem is_english_of_neither {r : NameRecord} (h1 : ¬ IsEnglish r) (h2 : ¬ NameError r) :
    is_english r = .ok false := by
  unfold IsEnglish at h1
  unfold NameError at h2
  unfold is_english
  split_ifs <;> first | rfl | (exfalso; omega) | (simp only [Except.ok.injEq, decide_eq_false_iff_not]; omega)

theorem IsEnglish_of_is_english {r : NameRecord} (h : is_english r = .ok true) : IsEnglish r := by
  by_contra hn
  by_cases he : NameError r
  · obtain ⟨e, h2⟩ := is_english_of_NameError he
    rw [h] at h2
    exact absurd h2 (by simp)
  · rw [is_english_of_neither hn he] at h
    exact absurd h (by simp)

theorem find_name_index_some (id : Nat) : ∀ (l : List NameRecord) (i0 i : Nat) (r : NameRecord),
    l[i]? = some r → r.nameID = id → IsEnglish r →
    (∀ (j : Nat) (r' : NameRecord), j < i → l[j]? = some r' → r'.nameID = id →
      ¬ IsEnglish r' ∧ ¬ NameError r') →
    find_name_index id l i0 = .ok (some (i0 + i)) := by
  intro l
  induction l with
  | nil => intro i0 i r hi; simp at hi
  | cons t l ih =>
    intro i0 i r hi hid he hleast
    unfold find_name_index
    cases i with
    | zero =>
      simp only [List.getElem?_cons_zero, Option.some.injEq] at hi
      subst hi
      rw [if_neg (by simpa using hid), is_english_of_IsEnglish he]
      rfl
    | succ i =>
      have hrec : find_name_index id l (i0 + 1) = .ok (some (i0 + (i + 1))) := by
        rw [ih (i0 + 1) i r (by simpa using hi) hid he
          (fun j r' hj hr' => hleast (j + 1) r' (by omega) (by simpa using hr'))]
        congr 2
        omega
      by_cases ht : t.nameID = id
      · obtain ⟨h1, h2⟩ := hleast 0 t (Nat.succ_pos i) List.getElem?_cons_zero ht
        rw [if_neg (by simpa using ht), is_english_of_neither h1 h2]
        exact hrec
      · rw [if_pos ht]
        exact hrec

theorem find_name_index_none (id : Nat) : ∀ (l : List NameRecord) (i0 : Nat),
    (∀ r' ∈ l, r'.nameID = id → ¬ IsEnglish r' ∧ ¬ NameError r') →
    find_name_index id l i0 = .ok none := by
  intro l
  induction l with
  | nil => intro i0 _; rfl
  | cons t l ih =>
    intro i0 h
    unfold find_name_index
    have hrec := ih (i0 + 1) (fun r' hr' => h r' (List.mem_cons_of_mem t hr'))
    by_cases ht : t.nameID = id
    · obtain ⟨h1, h2⟩ := h t (List.mem_cons_self t l) ht
      rw [if_neg (by simpa using ht), is_english_of_neither h1 h2]
      exact hrec
    · rw [if_pos ht]
      exact hrec

theorem find_name_index_inv (id : Nat) : ∀ (l : List NameRecord) (i0 k : Nat),
    find_name_index id l i0 = .ok (some k) →
    ∃ (i : Nat) (r : NameRecord), k = i0 + i ∧ l[i]? = some r ∧ r.nameID = id ∧ IsEnglish r := by
  intro l
  induction l with
  | nil => intro i0 k h; exact absurd h (by simp [find_name_index])
  | cons t l ih =>
    intro i0 k h
    unfold find_name_index at h
    have hrec : find_name_index id l (i0 + 1) = .ok (some k) →
        ∃ (i : Nat) (r : NameRecord), k = i0 + i ∧ (t :: l)[i]? = some r ∧ r.nameID = id ∧
          IsEnglish r := by
      intro h2
      obtain ⟨i, r, hk, hi, hr⟩ := ih (i0 + 1) k h2
      exact ⟨i + 1, r, by omega, by simpa using hi, hr⟩
    by_cases ht : t.nameID = id
    · rw [if_neg (by simpa using ht)] at h
      cases he : is_english t with
      | error e => rw [he] at h; exact absurd h (by simp)
      | ok b =>
        rw [he] at h
        cases b with
        | false => exact hrec h
        | true =>
          simp only [Except.ok.injEq, Option.some.injEq] at h
          exact ⟨0, t, by omega, List.getElem?_cons_zero, ht, IsEnglish_of_is_english he⟩
    · rw [if_pos ht] at h
      exact hrec h

theorem widen_loop_spec (bs P X : List Byte) (hX : 2 * bs.length ≤ X.length)
    (hk : P.length + 2 * bs.length < 2 ^ 16) :
    widen_loop bs P.length (P ++ X) =
      .ok (P ++ bs.flatMap (fun c => [c, 0]) ++ X.drop (2 * bs.length)) := by
  induction bs generalizing P X with
  | nil => simp [widen_loop]
  | cons c bs ih =>
    match X, hX with
    | x0 :: x1 :: X, hX =>
      simp only [List.length_cons] at hX hk
      have h1 : poke (P ++ x0 :: x1 :: X) P.length c = .ok ((P ++ [c]) ++ x1 :: X) := by
        unfold poke
        rw [if_pos (by simp), set_append_length]
        simp
      have hl : (P ++ [c]).length = P.length + 1 := by simp
      have h2 : poke ((P ++ [c]) ++ x1 :: X) ((P.length + 1) % 2 ^ 16) 0
          = .ok ((P ++ [c, 0]) ++ X) := by
        unfold poke
        rw [Nat.mod_eq_of_lt (by omega), if_pos (by simp), ← hl, set_append_length]
        simp
      have hl2 : (P ++ [c, 0]).length = P.length + 1 + 1 := by simp
      unfold widen_loop
      rw [h1]
      dsimp only
      rw [h2]
      dsimp only
      rw [Nat.mod_eq_of_lt (by omega), ← hl2, ih (P ++ [c, 0]) X (by omega) (by rw [hl2]; omega)]
      simp only [List.flatMap_cons, List.append_assoc, List.cons_append, List.nil_append,
        List.length_cons]
      rw [show 2 * (bs.length + 1) = 2 * bs.length + 1 + 1 by omega]
      rfl

theorem find_name_at {table : Name_table} {id i : Nat} {r : NameRecord} (old : Nat × List Byte)
    (hx : find_name_index id (table.nameRecord.take table.count) 0 = .ok (some i))
    (hr : table.nameRecord[i]? = some r) :
    (r.platformID = 3 →
      find_name table id old = .ok (r.length % 2 ^ 16, (table.names.getD i []).take r.length)) ∧
    (r.platformID = 1 → 2 * r.length < 2 ^ 16 → r.length ≤ (table.names.getD i []).length →
      find_name table id old =
        .ok (2 * r.length, ((table.names.getD i []).take r.length).flatMap (fun c => [c, 0]))) := by
  unfold find_name
  rw [hx]
  dsimp only
  rw [hr]
  dsimp only
  constructor
  · intro h3
    rw [if_neg (by omega), if_pos h3]
  · intro h1 hL hn
    have hlen : ((table.names.getD i []).take r.length).length = r.length :=
      List.length_take_of_le hn
    have e := widen_loop_spec ((table.names.getD i []).take r.length) []
      (List.replicate (2 * r.length) 0) (by rw [hlen, List.length_replicate])
      (by rw [hlen, List.length_nil]; omega)
    rw [hlen] at e
    simp only [List.nil_append, List.length_nil] at e
    rw [if_pos h1, Nat.mod_eq_of_lt hL, e]
    simp

theorem getElem?_take_lt {α : Type} (l : List α) {i n : Nat} (h : i < n) :
    (l.take n)[i]? = l[i]? := by
  rw [List.getElem?_take, if_pos h]

theorem getElem?_take_some {α : Type} {l : List α} {i n : Nat} {a : α}
    (h : (l.take n)[i]? = some a) : i < n ∧ l[i]? = some a := by
  rw [List.getElem?_take] at h
  split at h
  · rename_i hlt
    exact ⟨hlt, h⟩
  · exact absurd h (by simp)

theorem find_name_index_error (id : Nat) : ∀ (l : List NameRecord) (i0 i : Nat) (r : NameRecord),
    l[i]? = some r → r.nameID = id → NameError r →
    (∀ (j : Nat) (r' : NameRecord), j < i → l[j]? = some r' → r'.nameID = id →
      ¬ IsEnglish r') →
    ∃ e, find_name_index id l i0 = .error e := by
  intro l
  induction l with
  | nil => intro i0 i r hi; simp at hi
  | cons t l ih =>
    intro i0 i r hi hid hbad hbefore
    unfold find_name_index
    cases i with
    | zero =>
      simp only [List.getElem?_cons_zero, Option.some.injEq] at hi
      subst hi
      obtain ⟨e, he⟩ := is_english_of_NameError hbad
      rw [if_neg (by simpa using hid), he]
      exact ⟨e, rfl⟩
    | succ i =>
      have hrec := ih (i0 + 1) i r (by simpa using hi) hid hbad
        (fun j r' hj hr' => hbefore (j + 1) r' (by omega) (by simpa using hr'))
      by_cases ht : t.nameID = id
      · rw [if_neg (by simpa using ht)]
        cases he : is_english t with
        | error e => exact ⟨e, rfl⟩
        | ok b =>
          cases b with
          | false => exact hrec
          | true =>
            exact absurd (IsEnglish_of_is_english he)
              (hbefore 0 t (Nat.succ_pos i) List.getElem?_cons_zero ht)
      · rw [if_pos ht]
        exact hrec

theorem dump_header_FamilyName_eq (h : EOT_header) (name : List Byte) (size : Nat)
    (body : List Byte) (hn : h.FamilyName = name) (hs : h.FamilyNameSize = size)
    (hb : dump_name name size false = .ok body) :
    dump_header_FamilyName h = .ok (ascii "FamilyName:         " ++ body ++ ascii "\n") := by
  unfold dump_header_FamilyName
  rw [hn, hs, hb]

/-! ## The properties of the name lookup and of the printed family name -/

/-- C17. English-name selection by `find_name(table, id)`. (1) If record `i` (below
`table.count`) has the requested nameID and is English, and every earlier record with that
nameID is not English and triggers no error, then the search stops at `i`: a Windows record
yields its `length` bytes, a Macintosh record (with 2 * length below 2^16) yields its bytes
widened. (2) If every record with the requested nameID is not English and triggers no
error, the result has size 0 and no error is raised. (3) Whatever index the search stops
at holds a record with the requested nameID that is English, so a record with another
nameID is never selected. -/
theorem english_name_selection (table : Name_table) (id : Nat) (old : Nat × List Byte) :
    (∀ (i : Nat) (r : NameRecord), i < table.count → table.nameRecord[i]? = some r →
      r.nameID = id → IsEnglish r →
      (∀ (j : Nat) (r' : NameRecord), j < i → table.nameRecord[j]? = some r' →
        r'.nameID = id → ¬ IsEnglish r' ∧ ¬ NameError r') →
      find_name_index id (table.nameRecord.take table.count) 0 = .ok (some i) ∧
      (r.platformID = 3 →
        find_name table id old =
          .ok (r.length % 2 ^ 16, (table.names.getD i []).take r.length)) ∧
      (r.platformID = 1 → 2 * r.length < 2 ^ 16 → r.length ≤ (table.names.getD i []).length →
        find_name table id old =
          .ok (2 * r.length,
               ((table.names.getD i []).take r.length).flatMap (fun c => [c, 0])))) ∧
    ((∀ (j : Nat) (r' : NameRecord), j < table.count → table.nameRecord[j]? = some r' →
        r'.nameID = id → ¬ IsEnglish r' ∧ ¬ NameError r') →
      find_name table id old = .ok (0, old.2)) ∧
    (∀ i : Nat, find_name_index id (table.nameRecord.take table.count) 0 = .ok (some i) →
      ∃ r : NameRecord, i < table.count ∧ table.nameRecord[i]? = some r ∧ r.nameID = id ∧
        IsEnglish r) := by
  refine ⟨?_, ?_, ?_⟩
  · intro i r hi hr hid he hleast
    have hx : find_name_index id (table.nameRecord.take table.count) 0 = .ok (some i) := by
      have e := find_name_index_some id (table.nameRecord.take table.count) 0 i r
        (by rw [getElem?_take_lt _ hi]; exact hr) hid he
        (fun j r' hj hr' => hleast j r' hj (getElem?_take_some hr').2)
      rw [Nat.zero_add] at e
      exact e
    exact ⟨hx, find_name_at old hx hr⟩
  · intro hnone
    have hx : find_name_index id (table.nameRecord.take table.count) 0 = .ok none := by
      apply find_name_index_none
      intro r' hr'
      obtain ⟨j, hj⟩ := List.getElem?_of_mem hr'
      obtain ⟨hlt, hj2⟩ := getElem?_take_some hj
      exact hnone j r' hlt hj2
    unfold find_name
    rw [hx]
  · intro i hx
    obtain ⟨j, r, hk, hj, hid, he⟩ := find_name_index_inv id _ 0 i hx
    rw [Nat.zero_add] at hk
    subst hk
    obtain ⟨hlt, hj2⟩ := getElem?_take_some hj
    exact ⟨r, hlt, hj2, hid, he⟩

/-- C17 at `mixed_name_table`, nameID 1: the Unicode record (index 0), the English record
with nameID 2 (index 1) and the French record (index 2) are passed over and the English
record at index 3 is returned. -/
theorem english_name_selection_witness :
    find_name mixed_name_table 1 (0, []) = .ok (4, [0, 0x45, 0, 0x6E]) :=
  ((english_name_selection mixed_name_table 1 (0, [])).1 3 _ (by decide) rfl rfl (by decide)
    (by
      intro j r' hj hr' hid
      have hc : j = 0 ∨ j = 1 ∨ j = 2 := by omega
      rcases hc with rfl | rfl | rfl <;>
        (simp only [mixed_name_table, List.getElem?_cons_zero, List.getElem?_cons_succ,
          Option.some.injEq] at hr'
         subst hr'
         first
           | exact absurd hid (by decide)
           | exact ⟨by decide, by decide⟩))).2.1 rfl

/-- C18 fails as stated: `unicode_name_table` contains a record whose platform ID (0) is
neither 1 nor 3, with the requested nameID 1, and the lookup returns a zero-length result
instead of an error. -/
theorem unicode_record_is_skipped :
    (∃ r ∈ unicode_name_table.nameRecord, r.nameID = 1 ∧ r.platformID ≠ 1 ∧ r.platformID ≠ 3) ∧
    find_name unicode_name_table 1 (0, []) = .ok (0, []) := by
  constructor
  · exact ⟨_, List.mem_cons_self _ _, by decide⟩
  · rfl

/-- C18 as amended. The lookup of `id` terminates with an error when some record below
`table.count` with nameID `id` has a platform ID above 4, or is a Macintosh or Windows
record with language ID 0x8000 or more, and no earlier record with nameID `id` is English;
and when every record with nameID `id` has platform 0, 2 or 4 the lookup returns a
zero-length result and no error. -/
theorem name_lookup_error (table : Name_table) (id : Nat) (old : Nat × List Byte) :
    (∀ (i : Nat) (r : NameRecord), i < table.count → table.nameRecord[i]? = some r →
      r.nameID = id →
      (4 < r.platformID ∨ ((r.platformID = 1 ∨ r.platformID = 3) ∧ 0x8000 ≤ r.languageID)) →
      (∀ (j : Nat) (r' : NameRecord), j < i → table.nameRecord[j]? = some r' →
        r'.nameID = id → ¬ IsEnglish r') →
      ∃ e, find_name table id old = .error e) ∧
    ((∀ (j : Nat) (r' : NameRecord), j < table.count → table.nameRecord[j]? = some r' →
        r'.nameID = id → r'.platformID = 0 ∨ r'.platformID = 2 ∨ r'.platformID = 4) →
      find_name table id old = .ok (0, old.2)) := by
  constructor
  · intro i r hi hr hid hbad hbefore
    have hne : NameError r := by
      unfold NameError
      omega
    obtain ⟨e, he⟩ := find_name_index_error id (table.nameRecord.take table.count) 0 i r
      (by rw [getElem?_take_lt _ hi]; exact hr) hid hne
      (fun j r' hj hr' => hbefore j r' hj (getElem?_take_some hr').2)
    unfold find_name
    rw [he]
    exact ⟨e, rfl⟩
  · intro hskip
    have hx : find_name_index id (table.nameRecord.take table.count) 0 = .ok none := by
      apply find_name_index_none
      intro r' hr' hid
      obtain ⟨j, hj⟩ := List.getElem?_of_mem hr'
      obtain ⟨hlt, hj2⟩ := getElem?_take_some hj
      have hp := hskip j r' hlt hj2 hid
      unfold IsEnglish NameError
      omega
    unfold find_name
    rw [hx]

/-- C18 as amended, at `bad_language_table`: its Windows record with nameID 1 has language
ID 0x8001 and the lookup of nameID 1 ends in an error. -/
theorem name_lookup_error_witness :
    ∃ e, find_name bad_language_table 1 (0, []) = .error e :=
  (name_lookup_error bad_language_table 1 (0, [])).1 0 _ (by decide) rfl rfl (by decide)
    (fun j _ hj => absurd hj (Nat.not_lt_zero j))

/-- C19 (not met by the code). For the Macintosh English record of `long_mac_table`
(L = 32769, a 16-bit length over 32769 available bytes) the size computed in an
`unsigned short` is 2 * L mod 2^16 = 2, not 2 * L, and the second character is stored past
the end of the 2-byte buffer. -/
theorem mac_widening_overrun :
    (∃ r, long_mac_table.nameRecord[0]? = some r ∧ r.nameID = 1 ∧ IsEnglish r ∧
      r.platformID = 1 ∧ r.length = 32769 ∧ r.length < 2 ^ 16 ∧
      (long_mac_table.names.getD 0 []).length = r.length) ∧
    find_name long_mac_table 1 (0, []) = .error .bufferOverrun :=
  ⟨⟨_, rfl, rfl, by decide, rfl, rfl, by decide, List.length_replicate _ _⟩, rfl⟩

set_option maxRecDepth 100000 in
/-- C20 (not met by the code). `sample_font` has a Windows English family-name record
holding "Test" in UTF-16BE. The writer run with no URLs copies those bytes unswapped;
the reader then finds FamilyNameSize = 8 but decodes the units as UTF-16LE and prints, after
the label, the UTF-8 of U+5400 U+6500 U+7300 U+7400 instead of "Test". -/
theorem windows_family_name_not_swapped :
    ∃ out, main sample_font [] = .ok out ∧
      ∀ h0, ∃ h r printed, read_EOT_header h0 out = some (h, r) ∧
        h.FamilyNameSize = 8 ∧ h.FamilyName = [0, 0x54, 0, 0x65, 0, 0x73, 0, 0x74] ∧
        dump_header_FamilyName h = .ok printed ∧
        printed = ascii "FamilyName:         " ++
          [0xE5, 0x90, 0x80, 0xE6, 0x94, 0x80, 0xE7, 0x8C, 0x80, 0xE7, 0x90, 0x80] ++
          ascii "\n" ∧
        printed ≠ ascii "FamilyName:         Test\n" :=
  ⟨_, rfl, fun _ => ⟨_, _, _, rfl, rfl, rfl,
    dump_header_FamilyName_eq _ [0, 0x54, 0, 0x65, 0, 0x73, 0, 0x74] 8
      [0xE5, 0x90, 0x80, 0xE6, 0x94, 0x80, 0xE7, 0x8C, 0x80, 0xE7, 0x90, 0x80] rfl rfl rfl,
    rfl, by decide⟩⟩

/-! ## The primitive readers and writers on explicit bytes -/

theorem read_ulong_cons (s0 s1 s2 s3 : Byte) (r : List Byte) :
    read_ulong (s0 :: s1 :: s2 :: s3 :: r) =
      some (int_to_ulong (s0.val + 256 * s1.val + 65536 * s2.val + 16777216 * s3.val),
        r) := by
  simp only [read_ulong, Nat.shiftLeft_eq, Option.some.injEq, Prod.mk.injEq, and_true]
  congr 1
  omega

theorem read_ushort_cons (s0 s1 : Byte) (r : List Byte) :
    read_ushort (s0 :: s1 :: r) = some (s0.val + 256 * s1.val, r) := by
  have h0 := s0.isLt
  have h1 := s1.isLt
  simp only [read_ushort, Nat.shiftLeft_eq, Option.some.injEq, Prod.mk.injEq, and_true]
  omega

theorem read_ulong_none_iff (f : List Byte) : read_ulong f = none ↔ f.length < 4 := by
  match f with
  | [] => simp [read_ulong]
  | [_] => simp [read_ulong]
  | [_, _] => simp [read_ulong]
  | [_, _, _] => simp [read_ulong]
  | _ :: _ :: _ :: _ :: _ => simp [read_ulong]

theorem read_ushort_none_iff (f : List Byte) : read_ushort f = none ↔ f.length < 2 := by
  match f with
  | [] => simp [read_ushort]
  | [_] => simp [read_ushort]
  | _ :: _ :: _ => simp [read_ushort]

theorem read_4be_none_iff (f : List Byte) : read_4be f = none ↔ f.length < 4 := by
  rw [read_4be_eq]
  split
  · simp only [reduceCtorEq, false_iff]
    omega
  · simp only [true_iff]
    omega

theorem read_2be_none_iff (f : List Byte) : read_2be f = none ↔ f.length < 2 := by
  rw [read_2be_eq]
  split
  · simp only [reduceCtorEq, false_iff]
    omega
  · simp only [true_iff]
    omega

/-- C27 (not met by the code). `read_ulong` and `read_4be` do not return the 32-bit value
of four bytes whose bit 31 is set: on 01 00 00 80 `read_ulong` returns 0xFFFFFFFF80000001,
which is not below 2^32, `read_4be` returns the same on 80 00 00 01, and reading back
`write_4le 0x80000001` does not return 0x80000001. On every input of four bytes the two
readers return `int_to_ulong` of the value of the bytes, which leaves 0x7FFFFFFF as it is
and turns 0x80000000 into 0xFFFFFFFF80000000. -/
theorem primitive_readers_sign_extend :
    read_ulong [0x01, 0x00, 0x00, 0x80] = some (0xFFFFFFFF80000001, []) ∧
    read_4be [0x80, 0x00, 0x00, 0x01] = some (0xFFFFFFFF80000001, []) ∧
    write_4le 0x80000001 = [0x01, 0x00, 0x00, 0x80] ∧
    read_ulong (write_4le 0x80000001) = some (0xFFFFFFFF80000001, []) ∧
    ¬ (0xFFFFFFFF80000001 < 2 ^ 32) ∧
    (∀ (s0 s1 s2 s3 : Byte) (r : List Byte),
      read_ulong (s0 :: s1 :: s2 :: s3 :: r) =
        some (int_to_ulong (s0.val + 256 * s1.val + 65536 * s2.val + 16777216 * s3.val), r) ∧
      read_4be (s3 :: s2 :: s1 :: s0 :: r) =
        some (int_to_ulong (s0.val + 256 * s1.val + 65536 * s2.val + 16777216 * s3.val), r)) ∧
    int_to_ulong 0x7FFFFFFF = 0x7FFFFFFF ∧ int_to_ulong 0x80000000 = 0xFFFFFFFF80000000 := by
  refine ⟨by decide, by decide, by decide, by decide, by decide, ?_, by decide, by decide⟩
  intro s0 s1 s2 s3 r
  refine ⟨read_ulong_cons s0 s1 s2 s3 r, ?_⟩
  have h0 := s0.isLt
  have h1 := s1.isLt
  have h2 := s2.isLt
  have h3 := s3.isLt
  rw [read_4be_eq, if_pos (by simp)]
  simp only [u32be_at, List.drop_zero, List.drop_succ_cons, Option.some.injEq, Prod.mk.injEq,
    and_true]
  congr 1
  omega

/-! ## The UTF-8 encoder -/

theorem lead_or_eq_add :
    (∀ x, x < 32 → 0xC0 ||| x = 0xC0 + x) ∧ (∀ x, x < 16 → 0xE0 ||| x = 0xE0 + x) ∧
    (∀ x, x < 8 → 0xF0 ||| x = 0xF0 + x) := by
  refine ⟨?_, ?_, ?_⟩ <;> decide

theorem cont_or_eq_add (n : Nat) : 0x80 ||| (n &&& 0x3F) = 0x80 + n % 64 := by
  have e : n &&& 0x3F = n % 64 := Nat.and_pow_two_sub_one_eq_mod n 6
  have hlt : n % 64 < 64 := Nat.mod_lt _ (by decide)
  have key : ∀ y, y < 64 → 0x80 ||| y = 0x80 + y := by decide
  rw [e, key _ hlt]

theorem putUTF8_natCast (n : Nat) :
    putUTF8 (n : Int) =
      if n ≤ 0x7F then putchar n
      else if n ≤ 0x07FF then
        putchar (0xC0 ||| (n >>> 6)) ++ putchar (0x80 ||| (n &&& 0x3F))
      else if n ≤ 0xFFFF then
        putchar (0xE0 ||| (n >>> 12)) ++ putchar (0x80 ||| ((n >>> 6) &&& 0x3F)) ++
        putchar (0x80 ||| (n &&& 0x3F))
      else if n ≤ 0x1FFFFF then
        putchar (0xF0 ||| (n >>> 18)) ++ putchar (0x80 ||| ((n >>> 12) &&& 0x3F)) ++
        putchar (0x80 ||| ((n >>> 6) &&& 0x3F)) ++ putchar (0x80 ||| (n &&& 0x3F))
      else putUTF8 (n : Int) := by
  unfold putUTF8
  have e1 : ((n : Int) ≤ 0x7F) = (n ≤ 0x7F) := by simp only [eq_iff_iff]; omega
  have e2 : ((n : Int) ≤ 0x07FF) = (n ≤ 0x07FF) := by simp only [eq_iff_iff]; omega
  have e3 : ((n : Int) ≤ 0xFFFF) = (n ≤ 0xFFFF) := by simp only [eq_iff_iff]; omega
  have e4 : ((n : Int) ≤ 0x1FFFFF) = (n ≤ 0x1FFFFF) := by simp only [eq_iff_iff]; omega
  by_cases h1 : n ≤ 0x7F
  · have hm : ((n : Int) % 256).toNat = n := by omega
    simp only [e1, h1, if_true, hm]
  · by_cases h2 : n ≤ 0x07FF
    · simp only [e1, e2, h1, h2, if_true, if_false, Int.toNat_ofNat]
    · by_cases h3 : n ≤ 0xFFFF
      · simp only [e1, e2, e3, h1, h2, h3, if_true, if_false, Int.toNat_ofNat]
      · by_cases h4 : n ≤ 0x1FFFFF
        · simp only [e1, e2, e3, e4, h1, h2, h3, h4, if_true, if_false, Int.toNat_ofNat]
        · simp only [e1, e2, e3, e4, h1, h2, h3, h4, if_false]

theorem putUTF8_eq_standard (c : Nat) (hc : c ≤ 0x10FFFF) :
    putUTF8 (c : Int) = utf8_standard c := by
  rw [putUTF8_natCast]
  unfold utf8_standard putchar
  obtain ⟨l2, l3, l4⟩ := lead_or_eq_add
  by_cases h1 : c ≤ 0x7F
  · rw [if_pos h1, if_pos h1]
  · rw [if_neg h1, if_neg h1]
    by_cases h2 : c ≤ 0x7FF
    · rw [if_pos h2, if_pos h2, Nat.shiftRight_eq_div_pow, l2 _ (by omega), cont_or_eq_add]
      rfl
    · rw [if_neg h2, if_neg h2]
      by_cases h3 : c ≤ 0xFFFF
      · rw [if_pos h3, if_pos h3, cont_or_eq_add, cont_or_eq_add, Nat.shiftRight_eq_div_pow,
          Nat.shiftRight_eq_div_pow, l3 _ (by omega)]
        rfl
      · rw [if_neg h3, if_neg h3, if_pos (by omega), cont_or_eq_add, cont_or_eq_add,
          cont_or_eq_add, Nat.shiftRight_eq_div_pow, Nat.shiftRight_eq_div_pow,
          Nat.shiftRight_eq_div_pow, l4 _ (by omega)]
        rfl

/-- C21. For every code point c up to 0x10FFFF (so for every Unicode scalar value) the
bytes that `putUTF8(c)` emits are the standard UTF-8 encoding of c, and their number is 1,
2, 3 or 4 for c <= 0x7F, <= 0x7FF, <= 0xFFFF, <= 0x10FFFF respectively. -/
theorem putUTF8_is_standard_utf8 (c : Nat) (hc : c ≤ 0x10FFFF) :
    putUTF8 (c : Int) = utf8_standard c ∧
    (c ≤ 0x7F → (putUTF8 (c : Int)).length = 1) ∧
    (0x7F < c → c ≤ 0x7FF → (putUTF8 (c : Int)).length = 2) ∧
    (0x7FF < c → c ≤ 0xFFFF → (putUTF8 (c : Int)).length = 3) ∧
    (0xFFFF < c → (putUTF8 (c : Int)).length = 4) := by
  rw [putUTF8_eq_standard c hc]
  unfold utf8_standard
  refine ⟨rfl, ?_, ?_, ?_, ?_⟩
  · intro h
    rw [if_pos h]
    rfl
  · intro h1 h2
    rw [if_neg (by omega), if_pos h2]
    rfl
  · intro h1 h2
    rw [if_neg (by omega), if_neg (by omega), if_pos h2]
    rfl
  · intro h1
    rw [if_neg (by omega), if_neg (by omega), if_neg (by omega)]
    rfl

/-- C21 at the code points 0x41, 0x20AC and 0x10000: the bytes are 41, E2 82 AC and
F0 90 80 80. -/
theorem putUTF8_is_standard_utf8_witness :
    putUTF8 ((0x41 : Nat) : Int) = [0x41] ∧
    putUTF8 ((0x20AC : Nat) : Int) = [0xE2, 0x82, 0xAC] ∧
    putUTF8 ((0x10000 : Nat) : Int) = [0xF0, 0x90, 0x80, 0x80] ∧
    (putUTF8 ((0x10000 : Nat) : Int)).length = 4 :=
  ⟨(putUTF8_is_standard_utf8 0x41 (by decide)).1.trans (by decide),
   (putUTF8_is_standard_utf8 0x20AC (by decide)).1.trans (by decide),
   (putUTF8_is_standard_utf8 0x10000 (by decide)).1.trans (by decide),
   (putUTF8_is_standard_utf8 0x10000 (by decide)).2.2.2.2 (by decide)⟩

/-! ## The fsType and Flags lines -/

theorem and_two_pow_ne_zero (x k : Nat) : (x &&& 2 ^ k ≠ 0) ↔ x.testBit k = true := by
  rw [Nat.and_two_pow]
  cases x.testBit k <;> simp

/-- C24. For every fsType, the fsType line of `dump_header` is its label, then at most one
primary keyword chosen by priority (" installable" iff fsType = 0; otherwise " editable"
iff bit 0x0008 is set; otherwise " preview-and-print" iff bit 0x0004 is set; otherwise
" restricted" iff bit 0x0002 is set), then " no-subsetting" iff bit 0x0100 is set, then
" bitmap-only" iff bit 0x0200 is set, then the newline. -/
theorem fsType_rendering (h : EOT_header) :
    dump_header_fsType h =
      ascii "fsType:            " ++ (fsType_keywords h.fsType).flatMap ascii ++ ascii "\n" := by
  have e8 : (h.fsType &&& FSTYPE_EDITABLE ≠ 0) ↔ h.fsType.testBit 3 = true :=
    and_two_pow_ne_zero h.fsType 3
  have e4 : (h.fsType &&& FSTYPE_PREVIEW ≠ 0) ↔ h.fsType.testBit 2 = true :=
    and_two_pow_ne_zero h.fsType 2
  have e2 : (h.fsType &&& FSTYPE_RESTRICTED ≠ 0) ↔ h.fsType.testBit 1 = true :=
    and_two_pow_ne_zero h.fsType 1
  have e100 : (h.fsType &&& FSTYPE_NOSUBSETTING ≠ 0) ↔ h.fsType.testBit 8 = true :=
    and_two_pow_ne_zero h.fsType 8
  have e200 : (h.fsType &&& FSTYPE_BITMAP ≠ 0) ↔ h.fsType.testBit 9 = true :=
    and_two_pow_ne_zero h.fsType 9
  unfold dump_header_fsType fsType_keywords
  simp only [e8, e4, e2, e100, e200]
  split_ifs <;> simp [List.flatMap]

theorem dump_header_Flags_congr (h h2 : EOT_header) (hv : h.Version = h2.Version) :
    dump_header_Flags h = dump_header_Flags h2 := by
  unfold dump_header_Flags
  rw [hv]

set_option maxRecDepth 100000 in
/-- C28 (not met by the code). The Flags line is computed from `h.Version`: it does not
change when the Flags field changes, and for the EOT file written from `sample_header`
(Version 0x00020001, Flags 0), which the reader accepts, it reads "subsetted" although bit
0x00000001 of Flags is clear. -/
theorem flags_line_reads_version :
    (∀ (h : EOT_header) (flags : Nat),
      dump_header_Flags { h with Flags := flags } = dump_header_Flags h) ∧
    ∃ out, write_EOT_header sample_header = some out ∧
      ∀ h0, ∃ h r, read_EOT_header h0 out = some (h, r) ∧
        h.Flags = 0 ∧ h.Version = 0x00020001 ∧
        dump_header_Flags h =
          ascii "Flags:              subsetted not-compressed no-EUDC no-xor\n" :=
  ⟨fun _ _ => rfl,
   _, rfl, fun _ => ⟨_, _, rfl, rfl, rfl,
     (dump_header_Flags_congr _ sample_header rfl).trans (by decide)⟩⟩

/-! ## The Unicode range line -/

set_option maxRecDepth 100000 in
theorem unicode_range_statements_eq :
    unicode_range_statements =
      (List.range 123).map (fun g => (g / 32 + 1, 2 ^ (g % 32), unicode_range_keyword g)) := by
  decide

set_option maxRecDepth 100000 in
theorem unicode_range_keyword_space :
    ∀ g, g < 123 → (unicode_range_keyword g).toList.head? = some ' ' := by
  decide

theorem print_unicode_range_calls_eq (h : EOT_header) :
    print_unicode_range_calls h =
      ((List.range 123).filter (unicode_bit h)).map unicode_range_keyword := by
  unfold print_unicode_range_calls
  rw [unicode_range_statements_eq, List.filter_map, List.map_map]
  have e : ((fun s : Nat × Nat × String => decide (unicode_range_word h s.1 &&& s.2.1 ≠ 0)) ∘
      fun g => (g / 32 + 1, 2 ^ (g % 32), unicode_range_keyword g)) = unicode_bit h := by
    funext g
    simp only [Function.comp, unicode_bit]
    cases hb : (unicode_range_word h (g / 32 + 1)).testBit (g % 32)
    · rw [decide_eq_false_iff_not, and_two_pow_ne_zero, hb]
      simp
    · rw [decide_eq_true_iff, and_two_pow_ne_zero, hb]
  rw [e]
  rfl

theorem unicode_bit_merge (a b : EOT_header) (g : Nat) :
    unicode_bit (merge_unicode_ranges a b) g = (unicode_bit a g || unicode_bit b g) := by
  unfold unicode_bit unicode_range_word merge_unicode_ranges
  split_ifs <;> exact Nat.testBit_or _ _ _

theorem filter_or_split (p q : Nat → Bool) (s : Nat) : ∀ l : List Nat,
    (∀ g ∈ l, p g = true → g < s) → (∀ g ∈ l, q g = true → s ≤ g) → l.Pairwise (· < ·) →
    l.filter (fun g => p g || q g) = l.filter p ++ l.filter q := by
  intro l
  induction l with
  | nil => intro _ _ _; rfl
  | cons x l ih =>
    intro hp hq hs
    have hs2 := List.pairwise_cons.1 hs
    have ih2 := ih (fun g hg => hp g (List.mem_cons_of_mem x hg))
      (fun g hg => hq g (List.mem_cons_of_mem x hg)) hs2.2
    cases hpx : p x with
    | true =>
      have hqx : q x = false := by
        cases hc : q x with
        | false => rfl
        | true =>
          have h1 := hp x (List.mem_cons_self x l) hpx
          have h2 := hq x (List.mem_cons_self x l) hc
          omega
      rw [List.filter_cons_of_pos (by simp [hpx]), List.filter_cons_of_pos hpx,
        List.filter_cons_of_neg (by simp [hqx]), ih2]
      rfl
    | false =>
      cases hqx : q x with
      | false =>
        rw [List.filter_cons_of_neg (by simp [hpx, hqx]), List.filter_cons_of_neg (by simp [hpx]),
          List.filter_cons_of_neg (by simp [hqx]), ih2]
      | true =>
        have hnone : l.filter p = [] := by
          rw [List.filter_eq_nil_iff]
          intro g hg hpg
          have h1 := hp g (List.mem_cons_of_mem x hg) hpg
          have h2 := hq x (List.mem_cons_self x l) hqx
          have h3 := hs2.1 g hg
          omega
        have hall : l.filter (fun g => p g || q g) = l.filter q := by
          apply List.filter_congr
          intro g hg
          have hpg : p g = false := by
            cases hc : p g with
            | false => rfl
            | true =>
              have h1 := hp g (List.mem_cons_of_mem x hg) hc
              have h2 := hq x (List.mem_cons_self x l) hqx
              have h3 := hs2.1 g hg
              omega
          rw [hpg]
          rfl
        rw [List.filter_cons_of_pos (by simp [hqx]), List.filter_cons_of_neg (by simp [hpx]),
          List.filter_cons_of_pos hqx, hnone, hall]
        rfl

/-- C22 fails as stated: with bit 27 of UnicodeRange4 set and no other bit, one bit is set
among the bits 0..31 of the four words and `print_unicode_range` emits no keyword. -/
theorem reserved_range_bit_has_no_keyword :
    ((List.range 128).filter (unicode_bit reserved_bit_header)).length = 1 ∧
    (print_unicode_range_calls reserved_bit_header).length = 0 := by
  constructor <;> decide

/-- C22 as amended. For every value of the four range words, the number of keywords that
`print_unicode_range` emits equals the number of set bits among the first 123 bits of the
range: bits 0..31 of UnicodeRange1..3 and bits 0..26 of UnicodeRange4. -/
theorem unicode_range_keyword_count (h : EOT_header) :
    (print_unicode_range_calls h).length =
      ((List.range 123).filter (unicode_bit h)).length := by
  rw [print_unicode_range_calls_eq, List.length_map]

/-- C23. The output of `print_unicode_range` is the concatenation, in ascending order of
(range word, bit), of the keyword of each set bit that has one, every keyword starting with
a space; and when every set bit of `a` precedes every set bit of `b`, the rendering of the
two masks or-ed together is the rendering of `a` followed by the rendering of `b`. -/
theorem unicode_range_rendering_order :
    (∀ h : EOT_header, print_unicode_range h =
      ((List.range 123).filter (unicode_bit h)).flatMap
        (fun g => ascii (unicode_range_keyword g))) ∧
    (∀ g : Nat, g < 123 → (unicode_range_keyword g).toList.head? = some ' ') ∧
    (∀ (a b : EOT_header) (p : Nat),
      (∀ g : Nat, g < 128 → unicode_bit a g = true → g < p) →
      (∀ g : Nat, g < 128 → unicode_bit b g = true → p ≤ g) →
      print_unicode_range (merge_unicode_ranges a b) =
        print_unicode_range a ++ print_unicode_range b) := by
  refine ⟨?_, unicode_range_keyword_space, ?_⟩
  · intro h
    unfold print_unicode_range
    rw [print_unicode_range_calls_eq, List.flatMap_map]
  · intro a b p ha hb
    have hlt : ∀ g ∈ List.range 123, g < 128 := by
      intro g hg
      have := List.mem_range.1 hg
      omega
    have e : (List.range 123).filter (unicode_bit (merge_unicode_ranges a b)) =
        (List.range 123).filter (unicode_bit a) ++ (List.range 123).filter (unicode_bit b) := by
      rw [show unicode_bit (merge_unicode_ranges a b) =
        fun g => unicode_bit a g || unicode_bit b g from funext (unicode_bit_merge a b)]
      exact filter_or_split _ _ p _ (fun g hg => ha g (hlt g hg)) (fun g hg => hb g (hlt g hg))
        (List.pairwise_lt_range 123)
    unfold print_unicode_range
    rw [print_unicode_range_calls_eq, print_unicode_range_calls_eq, print_unicode_range_calls_eq, e,
      List.map_append, List.flatMap_append]

set_option maxRecDepth 100000 in
/-- C23 at UnicodeRange1 = 0x00000001 and 0x80000000: the first renders " basic-latin", and
the two or-ed together (0x80000001) render " basic-latin general-punctuation". -/
theorem unicode_range_rendering_order_witness :
    print_unicode_range latin_range_header = ascii " basic-latin" ∧
    (merge_unicode_ranges latin_range_header punctuation_range_header).UnicodeRange1
      = 0x80000001 ∧
    print_unicode_range (merge_unicode_ranges latin_range_header punctuation_range_header) =
      ascii " basic-latin general-punctuation" :=
  ⟨by decide, by decide,
   (unicode_range_rendering_order.2.2 latin_range_header punctuation_range_header 31
      (by decide) (by decide)).trans (by decide)⟩

/-! ## The printing loops of the name lines -/

theorem drop_take_pair (name : List Byte) (size i : Nat) (h1 : i + 1 < size)
    (hs : size ≤ name.length) :
    ∃ lo hi, name[i]? = some lo ∧ name[i + 1]? = some hi ∧
      (name.take size).drop i = lo :: hi :: (name.take size).drop (i + 2) := by
  have hl : (name.take size).length = size := List.length_take_of_le hs
  have hi0 : i < (name.take size).length := by omega
  have hi1 : i + 1 < (name.take size).length := by omega
  refine ⟨(name.take size)[i], (name.take size)[i + 1], ?_, ?_, ?_⟩
  · rw [← getElem?_take_lt name (show i < size by omega), List.getElem?_eq_getElem hi0]
  · rw [← getElem?_take_lt name h1, List.getElem?_eq_getElem hi1]
  · rw [List.drop_eq_getElem_cons hi0, List.drop_eq_getElem_cons hi1]

theorem dump_name_loop_even (name : List Byte) (size : Nat) (blank : Bool)
    (hs : size ≤ name.length) (h16 : size < 2 ^ 16) : ∀ (fuel i : Nat),
    i ≤ size → (size - i) % 2 = 0 → (size - i) / 2 + 1 ≤ fuel →
    dump_name_loop name size blank fuel i =
      .ok ((code_units ((name.take size).drop i)).flatMap (render_unit blank)) := by
  intro fuel
  induction fuel with
  | zero => intro i _ _ hf; omega
  | succ fuel ih =>
    intro i hi hpar hf
    unfold dump_name_loop
    by_cases hlt : i < size
    · obtain ⟨lo, hi8, e0, e1, ed⟩ := drop_take_pair name size i (by omega) hs
      rw [if_pos hlt, e0, e1]
      dsimp only
      rw [Nat.mod_eq_of_lt (show i + 2 < 2 ^ 16 by omega),
        ih (i + 2) (by omega) (by omega) (by omega), ed]
      dsimp only
      rw [code_units, List.flatMap_cons]
      congr 2
      unfold render_unit
      have ec : ((lo.val : Int) + 256 * (hi8.val : Int)) = ((lo.val + 256 * hi8.val : Nat) : Int) := by
        push_cast
        rfl
      rw [ec]
      by_cases hz : lo.val + 256 * hi8.val = 0
      · rw [if_neg (show ¬ ((lo.val + 256 * hi8.val : Nat) : Int) ≠ 0 by omega),
          if_neg (show ¬ lo.val + 256 * hi8.val ≠ 0 by omega)]
        cases blank
        · rfl
        · rfl
      · rw [if_pos (show ((lo.val + 256 * hi8.val : Nat) : Int) ≠ 0 by omega), if_pos hz]
    · rw [if_neg hlt, List.drop_of_length_le (by rw [List.length_take_of_le hs]; omega)]
      rfl

theorem dump_name_even (name : List Byte) (size : Nat) (blank : Bool)
    (hs : size ≤ name.length) (h16 : size < 2 ^ 16) (hpar : size % 2 = 0) :
    dump_name name size blank =
      .ok ((code_units (name.take size)).flatMap (render_unit blank)) := by
  unfold dump_name
  rw [dump_name_loop_even name size blank hs h16 (size / 2 + 2) 0 (Nat.zero_le _) hpar (by omega)]
  rfl

theorem dump_name_loop_odd (name : List Byte) (size : Nat) (blank : Bool)
    (hs : name.length = size) (h16 : size < 2 ^ 16) : ∀ (fuel i : Nat),
    i < size → (size - i) % 2 = 1 → (size - i) / 2 + 1 ≤ fuel →
    dump_name_loop name size blank fuel i = .error .readOutOfBounds := by
  intro fuel
  induction fuel with
  | zero => intro i _ _ hf; omega
  | succ fuel ih =>
    intro i hi hpar hf
    unfold dump_name_loop
    rw [if_pos hi]
    by_cases hlast : i + 1 = size
    · have e1 : name[i + 1]? = none := List.getElem?_eq_none (by omega)
      rw [e1]
      cases name[i]? <;> rfl
    · obtain ⟨lo, hi8, e0, e1, _⟩ := drop_take_pair name size i (by omega) (by omega)
      rw [e0, e1]
      dsimp only
      rw [Nat.mod_eq_of_lt (show i + 2 < 2 ^ 16 by omega),
        ih (i + 2) (by omega) (by omega) (by omega)]

theorem dump_name_odd (name : List Byte) (size : Nat) (blank : Bool)
    (hs : name.length = size) (h16 : size < 2 ^ 16) (hpar : size % 2 = 1) :
    dump_name name size blank = .error .readOutOfBounds := by
  unfold dump_name
  exact dump_name_loop_odd name size blank hs h16 (size / 2 + 2) 0 (by omega) hpar (by omega)

theorem dump_name_loop_65535 (name : List Byte) (blank : Bool) : ∀ (fuel i : Nat),
    i < 65535 → i % 2 = 0 → ∀ out, dump_name_loop name 65535 blank fuel i ≠ .ok out := by
  intro fuel
  induction fuel with
  | zero =>
    intro i _ _ out h
    unfold dump_name_loop at h
    exact absurd h (by simp)
  | succ fuel ih =>
    intro i hi hpar out h
    unfold dump_name_loop at h
    rw [if_pos hi] at h
    cases e0 : name[i]? with
    | none => rw [e0] at h; exact absurd h (by simp)
    | some lo =>
      cases e1 : name[i + 1]? with
      | none => rw [e0, e1] at h; exact absurd h (by simp)
      | some hi8 =>
        rw [e0, e1] at h
        dsimp only at h
        have hnext : (i + 2) % 2 ^ 16 < 65535 ∧ (i + 2) % 2 ^ 16 % 2 = 0 := by omega
        cases hr : dump_name_loop name 65535 blank fuel ((i + 2) % 2 ^ 16) with
        | error e => rw [hr] at h; exact absurd h (by simp)
        | ok rest => exact ih _ hnext.1 hnext.2 rest hr

theorem putUTF8_ascii (c : Byte) (h : c.val ≤ 0x7F) : putUTF8 (c.val : Int) = [c] := by
  rw [putUTF8_natCast, if_pos h]
  unfold putchar toByte
  congr 1
  apply Fin.ext
  exact Nat.mod_eq_of_lt c.isLt

theorem code_units_encode_url (u tail : List Byte) :
    code_units (encode_url u ++ tail) = u.map (fun c => c.val) ++ 0 :: code_units tail := by
  unfold encode_url
  induction u with
  | nil => rfl
  | cons c u ih =>
    have step : ∀ rest : List Byte,
        code_units (c :: 0 :: rest) = (c.val + 256 * (0 : Byte).val) :: code_units rest :=
      fun _ => rfl
    show code_units (c :: 0 :: ((u.flatMap fun c => [c, 0]) ++ [0, 0] ++ tail)) = _
    rw [step, ih]
    rfl

theorem code_units_flatMap_encode_url (urls : List (List Byte)) :
    code_units (urls.flatMap encode_url) =
      urls.flatMap (fun u => u.map (fun c => c.val) ++ [0]) := by
  induction urls with
  | nil => rfl
  | cons u us ih =>
    rw [List.flatMap_cons, List.flatMap_cons, code_units_encode_url, ih, List.append_assoc]
    rfl

theorem render_ascii_url (u : List Byte) (hu : ∀ c ∈ u, c.val ≠ 0 ∧ c.val ≤ 0x7F) :
    (u.map (fun c => c.val)).flatMap (render_unit true) = u := by
  induction u with
  | nil => rfl
  | cons c u ih =>
    have hc := hu c (List.mem_cons_self c u)
    rw [List.map_cons, List.flatMap_cons, ih (fun d hd => hu d (List.mem_cons_of_mem c hd))]
    unfold render_unit
    rw [if_pos hc.1, putUTF8_ascii c hc.2]
    rfl

theorem render_ascii_urls (urls : List (List Byte))
    (hu : ∀ u ∈ urls, ∀ c ∈ u, c.val ≠ 0 ∧ c.val ≤ 0x7F) :
    (urls.flatMap (fun u => u.map (fun c => c.val) ++ [0])).flatMap (render_unit true) =
      urls.flatMap (fun u => u ++ [0x20]) := by
  induction urls with
  | nil => rfl
  | cons u us ih =>
    rw [List.flatMap_cons, List.flatMap_cons, List.flatMap_append, List.flatMap_append,
      ih (fun v hv => hu v (List.mem_cons_of_mem u hv)), render_ascii_url u
        (hu u (List.mem_cons_self u us))]
    rfl

theorem encoded_length_even (urls : List (List Byte)) : encoded_length urls % 2 = 0 := by
  induction urls with
  | nil => rfl
  | cons u us ih =>
    have hl : encoded_length (u :: us) = (2 * u.length + 2) + encoded_length us := by
      simp [encoded_length]
    rw [hl]
    omega

theorem dump_RootString_of_urls (urls : List (List Byte)) (h : EOT_header)
    (hb : h.RootString = []) (hz : h.RootStringSize = 0)
    (hu : ∀ u ∈ urls, ∀ c ∈ u, c.val ≠ 0 ∧ c.val ≤ 0x7F)
    (hsum : encoded_length urls ≤ 65535) :
    dump_header_RootString (urls.foldl (fun h url => add_rootstring url h) h) =
      .ok (ascii "RootString:         " ++ urls.flatMap (fun u => u ++ [0x20]) ++ ascii "\n") := by
  obtain ⟨e1, e2⟩ := add_rootstring_foldl_exact urls h (by rw [hb, hz]; rfl) (by omega)
  rw [hb, List.nil_append] at e1
  have hlen : (urls.foldl (fun h url => add_rootstring url h) h).RootStringSize
      = encoded_length urls := by
    rw [← e2, e1, length_flatMap_encode_url]
  unfold dump_header_RootString
  rw [dump_name_even _ _ true (by omega) (by omega) (by rw [hlen]; exact encoded_length_even urls),
    List.take_of_length_le (by omega), e1, code_units_flatMap_encode_url, render_ascii_urls urls hu]

/-- Reading back what `write_EOT_header` wrote: for a header with the constant fields in
place, every field within its width and every buffer as long as its size states, the reader
accepts the bytes and returns the fields written, each `unsigned long` through
`int_to_ulong`. -/
theorem read_EOT_header_of_written (h h0 : EOT_header) (rest : List Byte)
    (hmagic : h.MagicNumber = 0x504C)
    (hres : h.Reserved1 = 0 ∧ h.Reserved2 = 0 ∧ h.Reserved3 = 0 ∧ h.Reserved4 = 0)
    (hpad : h.Padding1 = 0 ∧ h.Padding2 = 0 ∧ h.Padding3 = 0 ∧ h.Padding4 = 0 ∧ h.Padding5 = 0)
    (hver : h.Version = 0x00020001 ∨ h.Version = 0x00020002)
    (hrange : FieldsInRange h) (hbuf : BuffersHold h) :
    ∃ out, write_EOT_header h = some out ∧
      ∃ h' r, read_EOT_header h0 (out ++ rest) = some (h', r) ∧ ReadBackFields h h' := by
  obtain ⟨r1, r2, r3, r4⟩ := hres
  obtain ⟨p1, p2, p3, p4, p5⟩ := hpad
  have hp10 : ∀ r, fread 10 (fwrite h.FontPANOSE 10 ++ r) = some (h.FontPANOSE, r) := by
    intro r
    rw [fread_fwrite (by rw [hbuf.FontPANOSE]), List.take_of_length_le (by rw [hbuf.FontPANOSE])]
  have hz4 : ∀ r, read_ulong (write_4le 0 ++ r) = some (0, r) :=
    fun r => read_ulong_write_4le_of_lt (by decide) r
  have hz2 : ∀ r, read_ushort (write_2le 0 ++ r) = some (0, r) :=
    fun r => read_ushort_write_2le_of_lt (by decide) r
  have hm : ∀ r, read_ushort (write_2le 0x504C ++ r) = some (0x504C, r) :=
    fun r => read_ushort_write_2le_of_lt (by decide) r
  have hvlt : h.Version < 2 ^ 31 := by rcases hver with hv | hv <;> rw [hv] <;> norm_num
  have hout : ∃ tail, write_EOT_header h = some (write_EOT_header_fixed h ++ tail) ∧
      ∃ tail', tail ++ rest = write_2le h.Padding5 ++ (write_2le h.RootStringSize ++
        (fwrite h.RootString h.RootStringSize ++ tail')) := by
    rcases hver with hv | hv
    · exact ⟨_, write_EOT_header_v1 h hv, rest, by simp only [List.append_assoc]⟩
    · exact ⟨_, write_EOT_header_v2 h hv, _, by simp only [List.append_assoc]; rfl⟩
  obtain ⟨tail, hw, tail', htail⟩ := hout
  refine ⟨_, hw, ?_⟩
  rw [List.append_assoc, htail]
  simp only [write_EOT_header_fixed, List.append_assoc, r1, r2, r3, r4, p1, p2, p3, p4, p5,
    hmagic]
  unfold read_EOT_header
  repeat
    rw [Parser.bind_apply]
    first
      | rw [hz4] | rw [hz2] | rw [hm] | rw [hp10] | rw [read_1_write_1]
      | rw [failIf_ne_self]
      | rw [read_ulong_write_4le_of_fits hrange.EOTSize]
      | rw [read_ulong_write_4le_of_fits hrange.FontDataSize]
      | rw [read_ulong_write_4le_of_lt hvlt]
      | rw [read_ulong_write_4le_of_fits hrange.Flags]
      | rw [read_ulong_write_4le_of_fits hrange.Weight]
      | rw [read_ushort_write_2le_of_lt hrange.fsType]
      | rw [read_ulong_write_4le_of_fits hrange.UnicodeRange1]
      | rw [read_ulong_write_4le_of_fits hrange.UnicodeRange2]
      | rw [read_ulong_write_4le_of_fits hrange.UnicodeRange3]
      | rw [read_ulong_write_4le_of_fits hrange.UnicodeRange4]
      | rw [read_ulong_write_4le_of_fits hrange.CodePageRange1]
      | rw [read_ulong_write_4le_of_fits hrange.CodePageRange2]
      | rw [read_ulong_write_4le_of_fits hrange.CheckSumAdjustment]
      | rw [read_ushort_write_2le_of_lt hrange.FamilyNameSize]
      | rw [read_ushort_write_2le_of_lt hrange.StyleNameSize]
      | rw [read_ushort_write_2le_of_lt hrange.VersionNameSize]
      | rw [read_ushort_write_2le_of_lt hrange.FullNameSize]
      | rw [fread_fwrite hbuf.FamilyName] | rw [fread_fwrite hbuf.StyleName]
      | rw [fread_fwrite hbuf.VersionName] | rw [fread_fwrite hbuf.FullName]
    dsimp only
  rcases hver with hv | hv
  all_goals
    simp only [hv, Nat.reduceEqDiff, ↓reduceIte]
    repeat
      rw [Parser.bind_apply]
      first
        | rw [hz2] | rw [failIf_ne_self]
        | rw [read_ushort_write_2le_of_lt hrange.RootStringSize]
        | rw [fread_fwrite hbuf.RootString]
      dsimp only
    exact ⟨_, _, rfl, by simp only [ReadBackFields, hv, hmagic, and_self]⟩

theorem dump_name_loop_long_buffer (name : List Byte) (blank : Bool)
    (hl : 65536 ≤ name.length) : ∀ (fuel i : Nat), i < 65535 → i % 2 = 0 →
    dump_name_loop name 65535 blank fuel i = .error .loopsForever := by
  intro fuel
  induction fuel with
  | zero => intro i _ _; rfl
  | succ fuel ih =>
    intro i hi hpar
    unfold dump_name_loop
    rw [if_pos hi, List.getElem?_eq_getElem (show i < name.length by omega),
      List.getElem?_eq_getElem (show i + 1 < name.length by omega)]
    dsimp only
    rw [ih ((i + 2) % 2 ^ 16) (by omega) (by omega)]

theorem dump_name_loop_65535_error (name : List Byte) (blank : Bool) (fuel : Nat) :
    ∃ e, dump_name_loop name 65535 blank fuel 0 = .error e := by
  cases hr : dump_name_loop name 65535 blank fuel 0 with
  | error e => exact ⟨e, rfl⟩
  | ok out => exact absurd hr (dump_name_loop_65535 name blank fuel 0 (by decide) (by decide) out)

theorem dump_header_error_of_FamilyName (h : EOT_header) (name : List Byte) (size : Nat)
    (e : Stuck) (hn : h.FamilyName = name) (hs : h.FamilyNameSize = size)
    (hb : dump_name name size false = .error e) : dump_header h = .error e := by
  unfold dump_header dump_header_FamilyName
  rw [hn, hs, hb]
  rfl

/-- C25. Each name line of `dump_header` (for a buffer that holds its even 16-bit size) is
its label, the rendering of the UTF-16LE code units of the field and a newline, where a
code unit of value 0 renders as nothing in FamilyName, StyleName, VersionName and FullName
and as one space in RootString; consequently the root string that `add_rootstring` builds
from URLs of non-zero ASCII characters (starting from an empty root string, the sizes
adding up to at most 65535) is printed as each URL followed by one space, in argument
order. -/
theorem zero_code_units (h : EOT_header) :
    (h.FamilyNameSize ≤ h.FamilyName.length → h.FamilyNameSize < 2 ^ 16 →
      h.FamilyNameSize % 2 = 0 →
      dump_header_FamilyName h = .ok (ascii "FamilyName:         " ++
        (code_units (h.FamilyName.take h.FamilyNameSize)).flatMap (render_unit false) ++
        ascii "\n")) ∧
    (h.StyleNameSize ≤ h.StyleName.length → h.StyleNameSize < 2 ^ 16 →
      h.StyleNameSize % 2 = 0 →
      dump_header_StyleName h = .ok (ascii "StyleName:          " ++
        (code_units (h.StyleName.take h.StyleNameSize)).flatMap (render_unit false) ++
        ascii "\n")) ∧
    (h.VersionNameSize ≤ h.VersionName.length → h.VersionNameSize < 2 ^ 16 →
      h.VersionNameSize % 2 = 0 →
      dump_header_VersionName h = .ok (ascii "VersionName:        " ++
        (code_units (h.VersionName.take h.VersionNameSize)).flatMap (render_unit false) ++
        ascii "\n")) ∧
    (h.FullNameSize ≤ h.FullName.length → h.FullNameSize < 2 ^ 16 →
      h.FullNameSize % 2 = 0 →
      dump_header_FullName h = .ok (ascii "FullName:           " ++
        (code_units (h.FullName.take h.FullNameSize)).flatMap (render_unit false) ++
        ascii "\n")) ∧
    (h.RootStringSize ≤ h.RootString.length → h.RootStringSize < 2 ^ 16 →
      h.RootStringSize % 2 = 0 →
      dump_header_RootString h = .ok (ascii "RootString:         " ++
        (code_units (h.RootString.take h.RootStringSize)).flatMap (render_unit true) ++
        ascii "\n")) ∧
    render_unit false 0 = [] ∧ render_unit true 0 = [0x20] ∧
    (∀ urls : List (List Byte), h.RootString = [] → h.RootStringSize = 0 →
      (∀ u ∈ urls, ∀ c ∈ u, c.val ≠ 0 ∧ c.val ≤ 0x7F) → encoded_length urls ≤ 65535 →
      dump_header_RootString (urls.foldl (fun h url => add_rootstring url h) h) =
        .ok (ascii "RootString:         " ++ urls.flatMap (fun u => u ++ [0x20]) ++
          ascii "\n")) := by
  refine ⟨?_, ?_, ?_, ?_, ?_, rfl, rfl, ?_⟩
  · intro h1 h2 h3
    unfold dump_header_FamilyName
    rw [dump_name_even _ _ false h1 h2 h3]
  · intro h1 h2 h3
    unfold dump_header_StyleName
    rw [dump_name_even _ _ false h1 h2 h3]
  · intro h1 h2 h3
    unfold dump_header_VersionName
    rw [dump_name_even _ _ false h1 h2 h3]
  · intro h1 h2 h3
    unfold dump_header_FullName
    rw [dump_name_even _ _ false h1 h2 h3]
  · intro h1 h2 h3
    unfold dump_header_RootString
    rw [dump_name_even _ _ true h1 h2 h3]
  · intro urls hb hz hu hsum
    exact dump_RootString_of_urls urls h hb hz hu hsum

set_option maxRecDepth 100000 in
/-- C25 at the family name 'A', zero, 'B' (printed "AB") and at the URLs "a/" and "b"
added to the initial header (printed "a/ b "). -/
theorem zero_code_units_witness :
    dump_header_FamilyName zero_unit_header = .ok (ascii "FamilyName:         AB\n") ∧
    dump_header_RootString
        ([[0x61, 0x2F], [0x62]].foldl (fun h url => add_rootstring url h)
          initialize_EOT_header) =
      .ok (ascii "RootString:         a/ b \n") :=
  ⟨((zero_code_units zero_unit_header).1 (by decide) (by decide) (by decide)).trans rfl,
   ((zero_code_units initialize_EOT_header).2.2.2.2.2.2.2 [[0x61, 0x2F], [0x62]] rfl rfl
      (by decide) (by decide)).trans rfl⟩

/-- C29 (not met by the code). For a field of size 65535 the loop never returns: the
16-bit counter goes from 65534 to 0 and the test `i < size` holds again. However many
iterations are allowed the loop of the model is stuck, and when the memory after the buffer
can be read it is stuck for that reason alone. The EOT file written from
`long_name_header` (FamilyNameSize 65535) is accepted by `read_EOT_header`, and
`dump_header` does not return on the header read. -/
theorem name_loop_wraps_at_65535 :
    (∀ (name : List Byte) (blank : Bool) (fuel : Nat),
      ∃ e, dump_name_loop name 65535 blank fuel 0 = .error e) ∧
    (∀ (blank : Bool) (fuel : Nat),
      dump_name_loop (List.replicate 65536 0x41) 65535 blank fuel 0 = .error .loopsForever) ∧
    ∃ out, write_EOT_header long_name_header = some out ∧
      ∀ h0, ∃ h r, read_EOT_header h0 out = some (h, r) ∧ h.FamilyNameSize = 65535 ∧
        h.FamilyName.length = 65535 ∧ ∃ e, dump_header h = .error e := by
  have hbuf : BuffersHold long_name_header := by
    constructor
    · decide
    · show 65535 ≤ (List.replicate 65535 (0x41 : Byte)).length
      rw [List.length_replicate]
    all_goals decide
  have hw := fun h0 => read_EOT_header_of_written long_name_header h0 [] rfl
    ⟨rfl, rfl, rfl, rfl⟩ ⟨rfl, rfl, rfl, rfl, rfl⟩ (Or.inl rfl) (by constructor <;> decide) hbuf
  refine ⟨dump_name_loop_65535_error, ?_, ?_⟩
  · intro blank fuel
    exact dump_name_loop_long_buffer _ blank (by rw [List.length_replicate]) fuel 0
      (by decide) (by decide)
  · obtain ⟨out, ho, _⟩ := hw initialize_EOT_header
    refine ⟨out, ho, ?_⟩
    intro h0
    obtain ⟨out2, ho2, h, r, hr, hsame⟩ := hw h0
    have eo : out2 = out := Option.some.inj (ho2.symm.trans ho)
    rw [eo, List.append_nil] at hr
    have hsz : h.FamilyNameSize = 65535 := hsame.2.2.2.2.2.2.2.2.2.2.2.2.2.2.2.2.2.1
    have hnm : h.FamilyName = (List.replicate 65535 (0x41 : Byte)).take 65535 :=
      hsame.2.2.2.2.2.2.2.2.2.2.2.2.2.2.2.2.2.2.1
    obtain ⟨e, he⟩ := dump_name_loop_65535_error h.FamilyName false (65535 / 2 + 2)
    refine ⟨h, r, hr, hsz, ?_, e, ?_⟩
    · rw [hnm, List.length_take, List.length_replicate]
      rfl
    · exact dump_header_error_of_FamilyName h h.FamilyName 65535 e rfl hsz he

set_option maxRecDepth 100000 in
/-- C30 (not met by the code). The EOT file written from `odd_name_header`
(FamilyNameSize 1) is accepted by `read_EOT_header` with a one-byte FamilyName buffer, and
the first iteration of the FamilyName loop of `dump_header` reads index 1, which is not
below the size 1. -/
theorem odd_size_reads_past_buffer :
    ∃ out, write_EOT_header odd_name_header = some out ∧
      ∀ h0, ∃ h r, read_EOT_header h0 out = some (h, r) ∧ h.FamilyNameSize = 1 ∧
        h.FamilyName = [0x41] ∧
        dump_name_loop h.FamilyName h.FamilyNameSize false 1 0 = .error .readOutOfBounds ∧
        dump_header h = .error .readOutOfBounds :=
  ⟨_, rfl, fun _ => ⟨_, _, rfl, rfl, rfl, rfl,
    dump_header_error_of_FamilyName _ [0x41] 1 _ rfl rfl rfl⟩⟩

/-! ## The tables read by `read_some_opentype_data` -/

theorem read_2be_at_inv {file r : List Byte} {x : Nat} (p q : Nat) (hq : q = p + 2)
    (h : read_2be (file.drop p) = some (x, r)) : x = u16be_at file p ∧ r = file.drop q := by
  rw [read_2be_eq] at h
  split at h
  · simp only [Option.some.injEq, Prod.mk.injEq] at h
    rw [u16be_at_drop, Nat.add_zero, List.drop_drop] at h
    rw [hq]
    exact ⟨h.1.symm, h.2.symm⟩
  · exact absurd h (by simp)

theorem read_4be_at_inv {file r : List Byte} {x : Nat} (p q : Nat) (hq : q = p + 4)
    (h : read_4be (file.drop p) = some (x, r)) :
    x = int_to_ulong (u32be_at file p) ∧ r = file.drop q := by
  rw [read_4be_eq] at h
  split at h
  · simp only [Option.some.injEq, Prod.mk.injEq] at h
    rw [u32be_at_drop, Nat.add_zero, List.drop_drop] at h
    rw [hq]
    exact ⟨h.1.symm, h.2.symm⟩
  · exact absurd h (by simp)

theorem read_2be_signed_at_inv {file r : List Byte} {x : Int} (p q : Nat) (hq : q = p + 2)
    (h : read_2be_signed (file.drop p) = some (x, r)) : r = file.drop q := by
  have key : ∀ g : List Byte, read_2be_signed g = some (x, r) → r = g.drop 2 := by
    intro g hg
    match g, hg with
    | _ :: _ :: f, hg =>
      simp only [read_2be_signed, Option.some.injEq, Prod.mk.injEq] at hg
      exact hg.2.symm
  rw [key _ h, List.drop_drop, hq]

theorem read_8be_at_inv {file r : List Byte} {x : Nat} (p q : Nat) (hq : q = p + 8)
    (h : read_8be (file.drop p) = some (x, r)) : r = file.drop q := by
  have key : ∀ g : List Byte, read_8be g = some (x, r) → r = g.drop 8 := by
    intro g hg
    match g, hg with
    | _ :: _ :: _ :: _ :: _ :: _ :: _ :: _ :: f, hg =>
      simp only [read_8be, Option.some.injEq, Prod.mk.injEq] at hg
      exact hg.2.symm
  rw [key _ h, List.drop_drop, hq]

theorem fread_at_inv {file r a : List Byte} {n : Nat} (p q : Nat) (hq : q = p + n)
    (h : fread n (file.drop p) = some (a, r)) :
    a = (file.drop p).take n ∧ r = file.drop q ∧ a.length = n := by
  unfold fread at h
  split at h
  · rename_i hle
    simp only [Option.some.injEq, Prod.mk.injEq] at h
    rw [List.drop_drop] at h
    rw [hq]
    exact ⟨h.1.symm, h.2.symm, by rw [← h.1, List.length_take_of_le hle]⟩
  · exact absurd h (by simp)

theorem fseek_set_inv {file g r : List Byte} {off : Nat} {u : Unit}
    (h : fseek_set file off g = some (u, r)) : r = file.drop off := by
  unfold fseek_set at h
  split at h
  · simp only [Option.some.injEq, Prod.mk.injEq] at h
    exact h.2.symm
  · exact absurd h (by simp)

theorem read_OS2_table_inv {file g r : List Byte} {sfnt : sfnt_offset_table} {t : OS2_table}
    (h : read_OS2_table file sfnt g = some (t, r)) :
    ∃ entry, find_table sfnt tag_OS2 = some entry ∧
      t.version = u16be_at file entry.offset ∧ t.version ≤ 4 ∧
      t.usWeightClass = u16be_at file (entry.offset + 4) ∧
      t.fsType = u16be_at file (entry.offset + 8) ∧
      t.panose = (file.drop (entry.offset + 32)).take 10 ∧
      t.ulUnicodeRange1 = int_to_ulong (u32be_at file (entry.offset + 42)) ∧
      t.ulUnicodeRange2 = int_to_ulong (u32be_at file (entry.offset + 46)) ∧
      t.ulUnicodeRange3 = int_to_ulong (u32be_at file (entry.offset + 50)) ∧
      t.ulUnicodeRange4 = int_to_ulong (u32be_at file (entry.offset + 54)) ∧
      t.fsSelection = u16be_at file (entry.offset + 62) ∧
      t.ulCodePageRange1 = int_to_ulong (u32be_at file (entry.offset + 78)) ∧
      t.ulCodePageRange2 = int_to_ulong (u32be_at file (entry.offset + 82)) ∧
      t.panose.length = 10 := by
  unfold read_OS2_table at h
  cases hfind : find_table sfnt tag_OS2 with
  | none =>
    rw [hfind] at h
    exact absurd h (by simp [Parser.fail])
  | some entry =>
    rw [hfind] at h
    dsimp only at h
    obtain ⟨u0, g0, e0, hs0⟩ := Parser.bind_inv h
    clear h
    have i0 := fseek_set_inv e0
    clear e0
    subst i0
    obtain ⟨version, gversion, eversion, hsversion⟩ := Parser.bind_inv hs0
    clear hs0
    have iversion := read_2be_at_inv (entry.offset) (entry.offset + 2) (by omega) eversion
    clear eversion
    obtain ⟨rfl, rfl⟩ := iversion
    obtain ⟨cv, gcv, ecv, hscv⟩ := Parser.bind_inv hsversion
    clear hsversion
    have icv := failIf_inv ecv
    clear ecv
    obtain ⟨ncv, rfl⟩ := icv
    obtain ⟨xAvgCharWidth, gxAvgCharWidth, exAvgCharWidth, hsxAvgCharWidth⟩ := Parser.bind_inv hscv
    clear hscv
    have ixAvgCharWidth := read_2be_signed_at_inv (entry.offset + 2) (entry.offset + 4) (by omega) exAvgCharWidth
    clear exAvgCharWidth
    subst ixAvgCharWidth
    obtain ⟨usWeightClass, gusWeightClass, eusWeightClass, hsusWeightClass⟩ := Parser.bind_inv hsxAvgCharWidth
    clear hsxAvgCharWidth
    have iusWeightClass := read_2be_at_inv (entry.offset + 4) (entry.offset + 6) (by omega) eusWeightClass
    clear eusWeightClass
    obtain ⟨rfl, rfl⟩ := iusWeightClass
    obtain ⟨usWidthClass, gusWidthClass, eusWidthClass, hsusWidthClass⟩ := Parser.bind_inv hsusWeightClass
    clear hsusWeightClass
    have iusWidthClass := read_2be_at_inv (entry.offset + 6) (entry.offset + 8) (by omega) eusWidthClass
    clear eusWidthClass
    obtain ⟨rfl, rfl⟩ := iusWidthClass
    obtain ⟨fsType, gfsType, efsType, hsfsType⟩ := Parser.bind_inv hsusWidthClass
    clear hsusWidthClass
    have ifsType := read_2be_at_inv (entry.offset + 8) (entry.offset + 10) (by omega) efsType
    clear efsType
    obtain ⟨rfl, rfl⟩ := ifsType
    obtain ⟨ySubscriptXSize, gySubscriptXSize, eySubscriptXSize, hsySubscriptXSize⟩ := Parser.bind_inv hsfsType
    clear hsfsType
    have iySubscriptXSize := read_2be_signed_at_inv (entry.offset + 10) (entry.offset + 12) (by omega) eySubscriptXSize
    clear eySubscriptXSize
    subst iySubscriptXSize
    obtain ⟨ySubscriptYSize, gySubscriptYSize, eySubscriptYSize, hsySubscriptYSize⟩ := Parser.bind_inv hsySubscriptXSize
    clear hsySubscriptXSize
    have iySubscriptYSize := read_2be_signed_at_inv (entry.offset + 12) (entry.offset + 14) (by omega) eySubscriptYSize
    clear eySubscriptYSize
    subst iySubscriptYSize
    obtain ⟨ySubscriptXOffset, gySubscriptXOffset, eySubscriptXOffset, hsySubscriptXOffset⟩ := Parser.bind_inv hsySubscriptYSize
    clear hsySubscriptYSize
    have iySubscriptXOffset := read_2be_signed_at_inv (entry.offset + 14) (entry.offset + 16) (by omega) eySubscriptXOffset
    clear eySubscriptXOffset
    subst iySubscriptXOffset
    obtain ⟨ySubscriptYOffset, gySubscriptYOffset, eySubscriptYOffset, hsySubscriptYOffset⟩ := Parser.bind_inv hsySubscriptXOffset
    clear hsySubscriptXOffset
    have iySubscriptYOffset := read_2be_signed_at_inv (entry.offset + 16) (entry.offset + 18) (by omega) eySubscriptYOffset
    clear eySubscriptYOffset
    subst iySubscriptYOffset
    obtain ⟨ySuperscriptXSize, gySuperscriptXSize, eySuperscriptXSize, hsySuperscriptXSize⟩ := Parser.bind_inv hsySubscriptYOffset
    clear hsySubscriptYOffset
    have iySuperscriptXSize := read_2be_signed_at_inv (entry.offset + 18) (entry.offset + 20) (by omega) eySuperscriptXSize
    clear eySuperscriptXSize
    subst iySuperscriptXSize
    obtain ⟨ySuperscriptYSize, gySuperscriptYSize, eySuperscriptYSize, hsySuperscriptYSize⟩ := Parser.bind_inv hsySuperscriptXSize
    clear hsySuperscriptXSize
    have iySuperscriptYSize := read_2be_signed_at_inv (entry.offset + 20) (entry.offset + 22) (by omega) eySuperscriptYSize
    clear eySuperscriptYSize
    subst iySuperscriptYSize
    obtain ⟨ySuperscriptXOffset, gySuperscriptXOffset, eySuperscriptXOffset, hsySuperscriptXOffset⟩ := Parser.bind_inv hsySuperscriptYSize
    clear hsySuperscriptYSize
    have iySuperscriptXOffset := read_2be_signed_at_inv (entry.offset + 22) (entry.offset + 24) (by omega) eySuperscriptXOffset
    clear eySuperscriptXOffset
    subst iySuperscriptXOffset
    obtain ⟨ySuperscriptYOffset, gySuperscriptYOffset, eySuperscriptYOffset, hsySuperscriptYOffset⟩ := Parser.bind_inv hsySuperscriptXOffset
    clear hsySuperscriptXOffset
    have iySuperscriptYOffset := read_2be_signed_at_inv (entry.offset + 24) (entry.offset + 26) (by omega) eySuperscriptYOffset
    clear eySuperscriptYOffset
    subst iySuperscriptYOffset
    obtain ⟨yStrikeoutSize, gyStrikeoutSize, eyStrikeoutSize, hsyStrikeoutSize⟩ := Parser.bind_inv hsySuperscriptYOffset
    clear hsySuperscriptYOffset
    have iyStrikeoutSize := read_2be_signed_at_inv (entry.offset + 26) (entry.offset + 28) (by omega) eyStrikeoutSize
    clear eyStrikeoutSize
    subst iyStrikeoutSize
    obtain ⟨yStrikeoutPosition, gyStrikeoutPosition, eyStrikeoutPosition, hsyStrikeoutPosition⟩ := Parser.bind_inv hsyStrikeoutSize
    clear hsyStrikeoutSize
    have iyStrikeoutPosition := read_2be_signed_at_inv (entry.offset + 28) (entry.offset + 30) (by omega) eyStrikeoutPosition
    clear eyStrikeoutPosition
    subst iyStrikeoutPosition
    obtain ⟨sFamilyClass, gsFamilyClass, esFamilyClass, hssFamilyClass⟩ := Parser.bind_inv hsyStrikeoutPosition
    clear hsyStrikeoutPosition
    have isFamilyClass := read_2be_signed_at_inv (entry.offset + 30) (entry.offset + 32) (by omega) esFamilyClass
    clear esFamilyClass
    subst isFamilyClass
    obtain ⟨panose, gpanose, epanose, hspanose⟩ := Parser.bind_inv hssFamilyClass
    clear hssFamilyClass
    have ipanose := fread_at_inv (entry.offset + 32) (entry.offset + 42) (by omega) epanose
    clear epanose
    obtain ⟨rfl, rfl, lpanose⟩ := ipanose
    obtain ⟨ulUnicodeRange1, gulUnicodeRange1, eulUnicodeRange1, hsulUnicodeRange1⟩ := Parser.bind_inv hspanose
    clear hspanose
    have iulUnicodeRange1 := read_4be_at_inv (entry.offset + 42) (entry.offset + 46) (by omega) eulUnicodeRange1
    clear eulUnicodeRange1
    obtain ⟨rfl, rfl⟩ := iulUnicodeRange1
    obtain ⟨ulUnicodeRange2, gulUnicodeRange2, eulUnicodeRange2, hsulUnicodeRange2⟩ := Parser.bind_inv hsulUnicodeRange1
    clear hsulUnicodeRange1
    have iulUnicodeRange2 := read_4be_at_inv (entry.offset + 46) (entry.offset + 50) (by omega) eulUnicodeRange2
    clear eulUnicodeRange2
    obtain ⟨rfl, rfl⟩ := iulUnicodeRange2
    obtain ⟨ulUnicodeRange3, gulUnicodeRange3, eulUnicodeRange3, hsulUnicodeRange3⟩ := Parser.bind_inv hsulUnicodeRange2
    clear hsulUnicodeRange2
    have iulUnicodeRange3 := read_4be_at_inv (entry.offset + 50) (entry.offset + 54) (by omega) eulUnicodeRange3
    clear eulUnicodeRange3
    obtain ⟨rfl, rfl⟩ := iulUnicodeRange3
    obtain ⟨ulUnicodeRange4, gulUnicodeRange4, eulUnicodeRange4, hsulUnicodeRange4⟩ := Parser.bind_inv hsulUnicodeRange3
    clear hsulUnicodeRange3
    have iulUnicodeRange4 := read_4be_at_inv (entry.offset + 54) (entry.offset + 58) (by omega) eulUnicodeRange4
    clear eulUnicodeRange4
    obtain ⟨rfl, rfl⟩ := iulUnicodeRange4
    obtain ⟨achVendID, gachVendID, eachVendID, hsachVendID⟩ := Parser.bind_inv hsulUnicodeRange4
    clear hsulUnicodeRange4
    have iachVendID := fread_at_inv (entry.offset + 58) (entry.offset + 62) (by omega) eachVendID
    clear eachVendID
    obtain ⟨rfl, rfl, _⟩ := iachVendID
    obtain ⟨fsSelection, gfsSelection, efsSelection, hsfsSelection⟩ := Parser.bind_inv hsachVendID
    clear hsachVendID
    have ifsSelection := read_2be_at_inv (entry.offset + 62) (entry.offset + 64) (by omega) efsSelection
    clear efsSelection
    obtain ⟨rfl, rfl⟩ := ifsSelection
    obtain ⟨usFirstCharIndex, gusFirstCharIndex, eusFirstCharIndex, hsusFirstCharIndex⟩ := Parser.bind_inv hsfsSelection
    clear hsfsSelection
    have iusFirstCharIndex := read_2be_at_inv (entry.offset + 64) (entry.offset + 66) (by omega) eusFirstCharIndex
    clear eusFirstCharIndex
    obtain ⟨rfl, rfl⟩ := iusFirstCharIndex
    obtain ⟨usLastCharIndex, gusLastCharIndex, eusLastCharIndex, hsusLastCharIndex⟩ := Parser.bind_inv hsusFirstCharIndex
    clear hsusFirstCharIndex
    have iusLastCharIndex := read_2be_at_inv (entry.offset + 66) (entry.offset + 68) (by omega) eusLastCharIndex
    clear eusLastCharIndex
    obtain ⟨rfl, rfl⟩ := iusLastCharIndex
    obtain ⟨sTypoAscender, gsTypoAscender, esTypoAscender, hssTypoAscender⟩ := Parser.bind_inv hsusLastCharIndex
    clear hsusLastCharIndex
    have isTypoAscender := read_2be_signed_at_inv (entry.offset + 68) (entry.offset + 70) (by omega) esTypoAscender
    clear esTypoAscender
    subst isTypoAscender
    obtain ⟨sTypoDescender, gsTypoDescender, esTypoDescender, hssTypoDescender⟩ := Parser.bind_inv hssTypoAscender
    clear hssTypoAscender
    have isTypoDescender := read_2be_signed_at_inv (entry.offset + 70) (entry.offset + 72) (by omega) esTypoDescender
    clear esTypoDescender
    subst isTypoDescender
    obtain ⟨sTypoLineGap, gsTypoLineGap, esTypoLineGap, hssTypoLineGap⟩ := Parser.bind_inv hssTypoDescender
    clear hssTypoDescender
    have isTypoLineGap := read_2be_signed_at_inv (entry.offset + 72) (entry.offset + 74) (by omega) esTypoLineGap
    clear esTypoLineGap
    subst isTypoLineGap
    obtain ⟨usWinAscent, gusWinAscent, eusWinAscent, hsusWinAscent⟩ := Parser.bind_inv hssTypoLineGap
    clear hssTypoLineGap
    have iusWinAscent := read_2be_at_inv (entry.offset + 74) (entry.offset + 76) (by omega) eusWinAscent
    clear eusWinAscent
    obtain ⟨rfl, rfl⟩ := iusWinAscent
    obtain ⟨usWinDescent, gusWinDescent, eusWinDescent, hsusWinDescent⟩ := Parser.bind_inv hsusWinAscent
    clear hsusWinAscent
    have iusWinDescent := read_2be_at_inv (entry.offset + 76) (entry.offset + 78) (by omega) eusWinDescent
    clear eusWinDescent
    obtain ⟨rfl, rfl⟩ := iusWinDescent
    obtain ⟨ulCodePageRange1, gulCodePageRange1, eulCodePageRange1, hsulCodePageRange1⟩ := Parser.bind_inv hsusWinDescent
    clear hsusWinDescent
    have iulCodePageRange1 := read_4be_at_inv (entry.offset + 78) (entry.offset + 82) (by omega) eulCodePageRange1
    clear eulCodePageRange1
    obtain ⟨rfl, rfl⟩ := iulCodePageRange1
    obtain ⟨ulCodePageRange2, gulCodePageRange2, eulCodePageRange2, hsulCodePageRange2⟩ := Parser.bind_inv hsulCodePageRange1
    clear hsulCodePageRange1
    have iulCodePageRange2 := read_4be_at_inv (entry.offset + 82) (entry.offset + 86) (by omega) eulCodePageRange2
    clear eulCodePageRange2
    obtain ⟨rfl, rfl⟩ := iulCodePageRange2
    obtain ⟨sxHeight, gsxHeight, esxHeight, hssxHeight⟩ := Parser.bind_inv hsulCodePageRange2
    clear hsulCodePageRange2
    have isxHeight := read_2be_signed_at_inv (entry.offset + 86) (entry.offset + 88) (by omega) esxHeight
    clear esxHeight
    subst isxHeight
    obtain ⟨sCapHeight, gsCapHeight, esCapHeight, hssCapHeight⟩ := Parser.bind_inv hssxHeight
    clear hssxHeight
    have isCapHeight := read_2be_signed_at_inv (entry.offset + 88) (entry.offset + 90) (by omega) esCapHeight
    clear esCapHeight
    subst isCapHeight
    obtain ⟨usDefaultChar, gusDefaultChar, eusDefaultChar, hsusDefaultChar⟩ := Parser.bind_inv hssCapHeight
    clear hssCapHeight
    have iusDefaultChar := read_2be_at_inv (entry.offset + 90) (entry.offset + 92) (by omega) eusDefaultChar
    clear eusDefaultChar
    obtain ⟨rfl, rfl⟩ := iusDefaultChar
    obtain ⟨usBreakChar, gusBreakChar, eusBreakChar, hsusBreakChar⟩ := Parser.bind_inv hsusDefaultChar
    clear hsusDefaultChar
    have iusBreakChar := read_2be_at_inv (entry.offset + 92) (entry.offset + 94) (by omega) eusBreakChar
    clear eusBreakChar
    obtain ⟨rfl, rfl⟩ := iusBreakChar
    obtain ⟨usMaxContext, gusMaxContext, eusMaxContext, hsusMaxContext⟩ := Parser.bind_inv hsusBreakChar
    clear hsusBreakChar
    have iusMaxContext := read_2be_at_inv (entry.offset + 94) (entry.offset + 96) (by omega) eusMaxContext
    clear eusMaxContext
    obtain ⟨rfl, rfl⟩ := iusMaxContext
    rw [Parser.pure_apply] at hsusMaxContext
    simp only [Option.some.injEq, Prod.mk.injEq] at hsusMaxContext
    obtain ⟨rfl, _⟩ := hsusMaxContext
    exact ⟨entry, rfl, rfl, not_not.mp ncv, rfl, rfl, rfl, rfl, rfl, rfl, rfl, rfl, rfl, rfl,
      lpanose⟩

theorem read_head_table_inv {file g r : List Byte} {sfnt : sfnt_offset_table} {t : Head_table}
    (h : read_head_table file sfnt g = some (t, r)) :
    ∃ entry, find_table sfnt tag_head = some entry ∧
      t.checkSumAdjustment = int_to_ulong (u32be_at file (entry.offset + 8)) := by
  unfold read_head_table at h
  cases hfind : find_table sfnt tag_head with
  | none =>
    rw [hfind] at h
    exact absurd h (by simp [Parser.fail])
  | some entry =>
    rw [hfind] at h
    dsimp only at h
    obtain ⟨u0, g0, e0, hs0⟩ := Parser.bind_inv h
    clear h
    have i0 := fseek_set_inv e0
    clear e0
    subst i0
    obtain ⟨Table_version_number, gTable_version_number, eTable_version_number, hsTable_version_number⟩ := Parser.bind_inv hs0
    clear hs0
    have iTable_version_number := read_4be_at_inv (entry.offset) (entry.offset + 4) (by omega) eTable_version_number
    clear eTable_version_number
    obtain ⟨rfl, rfl⟩ := iTable_version_number
    obtain ⟨fontRevision, gfontRevision, efontRevision, hsfontRevision⟩ := Parser.bind_inv hsTable_version_number
    clear hsTable_version_number
    have ifontRevision := read_4be_at_inv (entry.offset + 4) (entry.offset + 8) (by omega) efontRevision
    clear efontRevision
    obtain ⟨rfl, rfl⟩ := ifontRevision
    obtain ⟨checkSumAdjustment, gcheckSumAdjustment, echeckSumAdjustment, hscheckSumAdjustment⟩ := Parser.bind_inv hsfontRevision
    clear hsfontRevision
    have icheckSumAdjustment := read_4be_at_inv (entry.offset + 8) (entry.offset + 12) (by omega) echeckSumAdjustment
    clear echeckSumAdjustment
    obtain ⟨rfl, rfl⟩ := icheckSumAdjustment
    obtain ⟨magicNumber, gmagicNumber, emagicNumber, hsmagicNumber⟩ := Parser.bind_inv hscheckSumAdjustment
    clear hscheckSumAdjustment
    have imagicNumber := read_4be_at_inv (entry.offset + 12) (entry.offset + 16) (by omega) emagicNumber
    clear emagicNumber
    obtain ⟨rfl, rfl⟩ := imagicNumber
    obtain ⟨flags, gflags, eflags, hsflags⟩ := Parser.bind_inv hsmagicNumber
    clear hsmagicNumber
    have iflags := read_2be_at_inv (entry.offset + 16) (entry.offset + 18) (by omega) eflags
    clear eflags
    obtain ⟨rfl, rfl⟩ := iflags
    obtain ⟨unitsPerEm, gunitsPerEm, eunitsPerEm, hsunitsPerEm⟩ := Parser.bind_inv hsflags
    clear hsflags
    have iunitsPerEm := read_2be_at_inv (entry.offset + 18) (entry.offset + 20) (by omega) eunitsPerEm
    clear eunitsPerEm
    obtain ⟨rfl, rfl⟩ := iunitsPerEm
    obtain ⟨created, gcreated, ecreated, hscreated⟩ := Parser.bind_inv hsunitsPerEm
    clear hsunitsPerEm
    have icreated := read_8be_at_inv (entry.offset + 20) (entry.offset + 28) (by omega) ecreated
    clear ecreated
    subst icreated
    obtain ⟨modified, gmodified, emodified, hsmodified⟩ := Parser.bind_inv hscreated
    clear hscreated
    have imodified := read_8be_at_inv (entry.offset + 28) (entry.offset + 36) (by omega) emodified
    clear emodified
    subst imodified
    obtain ⟨xMin, gxMin, exMin, hsxMin⟩ := Parser.bind_inv hsmodified
    clear hsmodified
    have ixMin := read_2be_signed_at_inv (entry.offset + 36) (entry.offset + 38) (by omega) exMin
    clear exMin
    subst ixMin
    obtain ⟨yMin, gyMin, eyMin, hsyMin⟩ := Parser.bind_inv hsxMin
    clear hsxMin
    have iyMin := read_2be_signed_at_inv (entry.offset + 38) (entry.offset + 40) (by omega) eyMin
    clear eyMin
    subst iyMin
    obtain ⟨xMax, gxMax, exMax, hsxMax⟩ := Parser.bind_inv hsyMin
    clear hsyMin
    have ixMax := read_2be_signed_at_inv (entry.offset + 40) (entry.offset + 42) (by omega) exMax
    clear exMax
    subst ixMax
    obtain ⟨yMax, gyMax, eyMax, hsyMax⟩ := Parser.bind_inv hsxMax
    clear hsxMax
    have iyMax := read_2be_signed_at_inv (entry.offset + 42) (entry.offset + 44) (by omega) eyMax
    clear eyMax
    subst iyMax
    obtain ⟨macStyle, gmacStyle, emacStyle, hsmacStyle⟩ := Parser.bind_inv hsyMax
    clear hsyMax
    have imacStyle := read_2be_at_inv (entry.offset + 44) (entry.offset + 46) (by omega) emacStyle
    clear emacStyle
    obtain ⟨rfl, rfl⟩ := imacStyle
    obtain ⟨lowestRecPPEM, glowestRecPPEM, elowestRecPPEM, hslowestRecPPEM⟩ := Parser.bind_inv hsmacStyle
    clear hsmacStyle
    have ilowestRecPPEM := read_2be_at_inv (entry.offset + 46) (entry.offset + 48) (by omega) elowestRecPPEM
    clear elowestRecPPEM
    obtain ⟨rfl, rfl⟩ := ilowestRecPPEM
    obtain ⟨fontDirectionHint, gfontDirectionHint, efontDirectionHint, hsfontDirectionHint⟩ := Parser.bind_inv hslowestRecPPEM
    clear hslowestRecPPEM
    have ifontDirectionHint := read_2be_signed_at_inv (entry.offset + 48) (entry.offset + 50) (by omega) efontDirectionHint
    clear efontDirectionHint
    subst ifontDirectionHint
    obtain ⟨indexToLocFormat, gindexToLocFormat, eindexToLocFormat, hsindexToLocFormat⟩ := Parser.bind_inv hsfontDirectionHint
    clear hsfontDirectionHint
    have iindexToLocFormat := read_2be_signed_at_inv (entry.offset + 50) (entry.offset + 52) (by omega) eindexToLocFormat
    clear eindexToLocFormat
    subst iindexToLocFormat
    obtain ⟨glyphDataFormat, gglyphDataFormat, eglyphDataFormat, hsglyphDataFormat⟩ := Parser.bind_inv hsindexToLocFormat
    clear hsindexToLocFormat
    have iglyphDataFormat := read_2be_signed_at_inv (entry.offset + 52) (entry.offset + 54) (by omega) eglyphDataFormat
    clear eglyphDataFormat
    subst iglyphDataFormat
    rw [Parser.pure_apply] at hsglyphDataFormat
    simp only [Option.some.injEq, Prod.mk.injEq] at hsglyphDataFormat
    obtain ⟨rfl, _⟩ := hsglyphDataFormat
    exact ⟨entry, rfl, rfl⟩

theorem read_font_tables_inv {file g r : List Byte} {os2 : OS2_table} {name : Name_table}
    {head : Head_table} (h : read_font_tables file g = some ((os2, name, head), r)) :
    ∃ sfnt r0 r1 r2, read_sfnt_header file g = some (sfnt, r0) ∧
      read_OS2_table file sfnt r0 = some (os2, r1) ∧
      read_name_table file sfnt r1 = some (name, r2) ∧
      read_head_table file sfnt r2 = some (head, r) := by
  unfold read_font_tables at h
  obtain ⟨sfnt, r0, e0, h⟩ := Parser.bind_inv h
  obtain ⟨os2', r1, e1, h⟩ := Parser.bind_inv h
  obtain ⟨name', r2, e2, h⟩ := Parser.bind_inv h
  obtain ⟨head', r3, e3, h⟩ := Parser.bind_inv h
  rw [Parser.pure_apply] at h
  simp only [Option.some.injEq, Prod.mk.injEq] at h
  obtain ⟨⟨rfl, rfl, rfl⟩, rfl⟩ := h
  exact ⟨sfnt, r0, r1, r2, e0, e1, e2, e3⟩

theorem read_some_opentype_data_fields {file : List Byte} {h0 h : EOT_header}
    (hr : read_some_opentype_data file h0 = .ok (some h)) :
    ∃ os2 name head rest, read_font_tables file file = some ((os2, name, head), rest) ∧
      h.FontPANOSE = os2.panose ∧ h.Italic = toByte (os2.fsSelection &&& 0x01) ∧
      h.Weight = os2.usWeightClass ∧ h.fsType = os2.fsType ∧
      h.UnicodeRange1 = os2.ulUnicodeRange1 ∧ h.UnicodeRange2 = os2.ulUnicodeRange2 ∧
      h.UnicodeRange3 = os2.ulUnicodeRange3 ∧ h.UnicodeRange4 = os2.ulUnicodeRange4 ∧
      h.CodePageRange1 = os2.ulCodePageRange1 ∧ h.CodePageRange2 = os2.ulCodePageRange2 ∧
      h.CheckSumAdjustment = head.checkSumAdjustment ∧
      h.Flags = h0.Flags ∧ h.Charset = h0.Charset := by
  unfold read_some_opentype_data at hr
  split at hr
  · simp at hr
  · rename_i os2 name head rest htab
    cases hfam : find_name name 1 (h0.FamilyNameSize, h0.FamilyName) with
    | error e => simp [hfam, bind, Except.bind] at hr
    | ok fam =>
      simp only [hfam, bind, Except.bind] at hr
      cases hsty : find_name name 2 (h0.StyleNameSize, h0.StyleName) with
      | error e => simp [hsty] at hr
      | ok sty =>
        simp only [hsty] at hr
        cases hver : find_name name 5 (h0.VersionNameSize, h0.VersionName) with
        | error e => simp [hver] at hr
        | ok ver =>
          simp only [hver] at hr
          cases hfull : find_name name 4 (h0.FullNameSize, h0.FullName) with
          | error e => simp [hfull] at hr
          | ok full =>
            simp only [hfull] at hr
            split at hr
            · simp [pure, Except.pure] at hr
            · simp only [pure, Except.pure, Except.ok.injEq, Option.some.injEq] at hr
              subst hr
              exact ⟨os2, name, head, rest, htab, rfl, rfl, rfl, rfl, rfl, rfl, rfl, rfl, rfl,
                rfl, rfl, rfl, rfl⟩

theorem read_OS2_table_version_gt {file g : List Byte} {sfnt : sfnt_offset_table}
    {entry : sfnt_table_record} (hf : find_table sfnt tag_OS2 = some entry)
    (hv : 4 < u16be_at file entry.offset) : read_OS2_table file sfnt g = none := by
  cases h : read_OS2_table file sfnt g with
  | none => rfl
  | some tr =>
    exfalso
    obtain ⟨t, r⟩ := tr
    obtain ⟨entry2, hf2, hv2, hle, _⟩ := read_OS2_table_inv h
    rw [hf] at hf2
    simp only [Option.some.injEq] at hf2
    subst hf2
    omega

theorem read_some_opentype_data_version_gt {file rest : List Byte} {sfnt : sfnt_offset_table}
    {entry : sfnt_table_record} (h0 : EOT_header)
    (hs : read_sfnt_header file file = some (sfnt, rest))
    (hf : find_table sfnt tag_OS2 = some entry)
    (hv : 4 < u16be_at file entry.offset) : read_some_opentype_data file h0 = .ok none := by
  have e : read_font_tables file file = none := by
    unfold read_font_tables
    rw [Parser.bind_apply, hs]
    dsimp only
    rw [Parser.bind_apply, read_OS2_table_version_gt hf hv]
  unfold read_some_opentype_data
  rw [e]

/-- What the extraction stores. Whenever `read_some_opentype_data` succeeds on a font, the
directory has records tagged "OS/2" and "head", and the header has FontPANOSE, Weight,
fsType and Italic (fsSelection AND 1) equal to the OS/2 fields at their offsets in that
table, UnicodeRange1..4, CodePageRange1..2 and CheckSumAdjustment equal to what `read_4be`
returns for the 4-byte fields, FontDataSize equal to the file length, and Flags, Charset,
Version and MagicNumber unchanged; and when the version field of the OS/2 table exceeds 4
the extraction returns false. -/
theorem read_some_opentype_data_stored (file : List Byte) (h0 : EOT_header) :
    (∀ h : EOT_header, read_some_opentype_data file h0 = .ok (some h) →
      ∃ sfnt rest os2 head, read_sfnt_header file file = some (sfnt, rest) ∧
        find_table sfnt tag_OS2 = some os2 ∧ find_table sfnt tag_head = some head ∧
        MetadataStored file h0 h os2 head) ∧
    (∀ (sfnt : sfnt_offset_table) (rest : List Byte) (os2 : sfnt_table_record),
      read_sfnt_header file file = some (sfnt, rest) → find_table sfnt tag_OS2 = some os2 →
      4 < u16be_at file os2.offset → read_some_opentype_data file h0 = .ok none) := by
  constructor
  · intro h hr
    obtain ⟨t, name, hd, rest, htab, f1, f2, f3, f4, f5, f6, f7, f8, f9, f10, f11, f12, f13⟩ :=
      read_some_opentype_data_fields hr
    obtain ⟨sfnt, r0, r1, r2, e0, e1, _, e3⟩ := read_font_tables_inv htab
    obtain ⟨os2, ho, v1, v2, v3, v4, v5, v6, v7, v8, v9, v10, v11, v12, _⟩ :=
      read_OS2_table_inv e1
    obtain ⟨head, hh, c1⟩ := read_head_table_inv e3
    have hk := read_some_opentype_data_ok hr
    refine ⟨sfnt, r0, os2, head, e0, ho, hh, ?_⟩
    constructor
    · rw [f1, v5]
    · rw [f3, v3]
    · rw [f4, v4]
    · rw [f2, v10]
      show (u16be_at file (os2.offset + 62) &&& 0x01) % 256 = _
      have hle : u16be_at file (os2.offset + 62) &&& 0x01 ≤ 1 := Nat.and_le_right
      exact Nat.mod_eq_of_lt (by omega)
    · rw [f5, v6]
    · rw [f6, v7]
    · rw [f7, v8]
    · rw [f8, v9]
    · rw [f9, v11]
    · rw [f10, v12]
    · rw [f11, c1]
    · exact hk.2.2.2.2.2.2.2.2.2.2.2.2.2.2.2.1
    · exact f12
    · exact f13
    · exact hk.1
    · exact hk.2.1
    · rw [← v1]
      exact v2
  · intro sfnt rest os2 hs hf hv
    exact read_some_opentype_data_version_gt h0 hs hf hv

set_option maxRecDepth 100000 in
/-- The extraction at `sample_font` (weight 400 in its OS/2 table), and at the same font
with OS/2 version 5, on which it returns false. -/
theorem read_some_opentype_data_stored_sample :
    (∃ h sfnt rest os2 head,
      read_some_opentype_data sample_font initialize_EOT_header = .ok (some h) ∧
      read_sfnt_header sample_font sample_font = some (sfnt, rest) ∧
      MetadataStored sample_font initialize_EOT_header h os2 head ∧ h.Weight = 400) ∧
    read_some_opentype_data os2_version5_font initialize_EOT_header = .ok none := by
  constructor
  · obtain ⟨sfnt, rest, os2, head, hs, _, _, hm⟩ :=
      (read_some_opentype_data_stored sample_font initialize_EOT_header).1 _ rfl
    exact ⟨_, sfnt, rest, os2, head, rfl, hs, hm, rfl⟩
  · exact (read_some_opentype_data_stored os2_version5_font initialize_EOT_header).2 _ _ _
      rfl rfl (by decide)

set_option maxRecDepth 100000 in
/-- C26 (not met by the code). A 4-byte OS/2 field whose bit 31 is set does not reach the
header as its big-endian value. `signed_range_font` is `sample_font` with the bytes
80 00 00 AF in ulUnicodeRange1 (offset 42 of the OS/2 table, which is at offset 60 of the
file): the extraction succeeds and the header has UnicodeRange1 = 0xFFFFFFFF800000AF where
the big-endian value is 0x800000AF, so the header is not the one the claim describes; the
four bytes that `write_EOT_header` emits for the field (offset 36) are AF 00 00 80. -/
theorem unicode_range_sign_extends :
    ∃ h sfnt rest os2 head,
      read_some_opentype_data signed_range_font initialize_EOT_header = .ok (some h) ∧
      read_sfnt_header signed_range_font signed_range_font = some (sfnt, rest) ∧
      find_table sfnt tag_OS2 = some os2 ∧ find_table sfnt tag_head = some head ∧
      os2.offset = 60 ∧ u32be_at signed_range_font (os2.offset + 42) = 0x800000AF ∧
      h.UnicodeRange1 = 0xFFFFFFFF800000AF ∧
      ¬ MetadataMapped signed_range_font initialize_EOT_header h os2 head ∧
      ∃ out, write_EOT_header h = some out ∧
        (out.drop 36).take 4 = [0xAF, 0x00, 0x00, 0x80] := by
  refine ⟨_, _, _, _, _, rfl, rfl, rfl, rfl, rfl, rfl, rfl, ?_, _, rfl, rfl⟩
  intro hm
  have hu := hm.UnicodeRange1
  exact absurd hu (show (0xFFFFFFFF800000AF : Nat) ≠ 0x800000AF by decide)

/-! ## The buffers of the header that `main` builds -/

theorem read_name_bytes_length : ∀ (n : Nat) (g r bs : List Byte),
    read_name_bytes n g = some (bs, r) → bs.length = n := by
  intro n
  induction n with
  | zero =>
    intro g r bs h
    rw [read_name_bytes, Parser.pure_apply] at h
    simp only [Option.some.injEq, Prod.mk.injEq] at h
    rw [← h.1]
    rfl
  | succ n ih =>
    intro g r bs h
    rw [read_name_bytes] at h
    obtain ⟨b, g1, _, h⟩ := Parser.bind_inv h
    obtain ⟨rest, g2, e2, h⟩ := Parser.bind_inv h
    rw [Parser.pure_apply] at h
    simp only [Option.some.injEq, Prod.mk.injEq] at h
    rw [← h.1, List.length_cons, ih _ _ _ e2]

theorem read_names_lengths (file : List Byte) (off : Nat) : ∀ (rs : List NameRecord)
    (g r : List Byte) (names : List (List Byte)), read_names file off rs g = some (names, r) →
    ∀ (i : Nat) (r0 : NameRecord), rs[i]? = some r0 → (names.getD i []).length = r0.length := by
  intro rs
  induction rs with
  | nil => intro g r names _ i r0 hi; simp at hi
  | cons x rs ih =>
    intro g r names h i r0 hi
    rw [read_names] at h
    obtain ⟨_, g1, _, h⟩ := Parser.bind_inv h
    obtain ⟨name, g2, e2, h⟩ := Parser.bind_inv h
    obtain ⟨rest, g3, e3, h⟩ := Parser.bind_inv h
    rw [Parser.pure_apply] at h
    simp only [Option.some.injEq, Prod.mk.injEq] at h
    rw [← h.1]
    cases i with
    | zero =>
      simp only [List.getElem?_cons_zero, Option.some.injEq] at hi
      rw [← hi]
      exact read_name_bytes_length _ _ _ _ e2
    | succ i =>
      rw [List.getElem?_cons_succ] at hi
      exact ih _ _ _ e3 i r0 hi

theorem read_name_table_names {file g r : List Byte} {sfnt : sfnt_offset_table}
    {t : Name_table} (h : read_name_table file sfnt g = some (t, r)) :
    ∀ (i : Nat) (r0 : NameRecord), t.nameRecord[i]? = some r0 →
      (t.names.getD i []).length = r0.length := by
  unfold read_name_table at h
  cases hfind : find_table sfnt tag_name with
  | none =>
    rw [hfind] at h
    exact absurd h (by simp [Parser.fail])
  | some entry =>
    rw [hfind] at h
    dsimp only at h
    obtain ⟨_, g0, _, h⟩ := Parser.bind_inv h
    obtain ⟨format, g1, _, h⟩ := Parser.bind_inv h
    obtain ⟨count, g2, _, h⟩ := Parser.bind_inv h
    obtain ⟨stringOffset, g3, _, h⟩ := Parser.bind_inv h
    obtain ⟨nameRecord, g4, _, h⟩ := Parser.bind_inv h
    have fin : ∀ (y : Nat × List LangTagRecord) (g5 : List Byte),
        (ftell file >>= fun offset => read_names file offset nameRecord >>= fun names =>
          (pure { format := format, count := count, stringOffset := stringOffset,
                  nameRecord := nameRecord, langTagCount := y.1, langTagRecord := y.2,
                  names := names } : Parser Name_table)) g5 = some (t, r) →
        ∀ (i : Nat) (r0 : NameRecord), t.nameRecord[i]? = some r0 →
          (t.names.getD i []).length = r0.length := by
      intro y g5 hy
      obtain ⟨offset, g6, _, hy⟩ := Parser.bind_inv hy
      obtain ⟨names, g7, e7, hy⟩ := Parser.bind_inv hy
      rw [Parser.pure_apply] at hy
      simp only [Option.some.injEq, Prod.mk.injEq] at hy
      rw [← hy.1]
      exact read_names_lengths file offset nameRecord g6 g7 names e7
    by_cases hf0 : format = 0
    · rw [if_pos hf0] at h
      obtain ⟨y, g5, _, h⟩ := Parser.bind_inv h
      exact fin y g5 h
    · rw [if_neg hf0] at h
      by_cases hf1 : format = 1
      · rw [if_pos hf1] at h
        obtain ⟨langTagCount, g5, _, h⟩ := Parser.bind_inv h
        obtain ⟨langTagRecord, g6, _, h⟩ := Parser.bind_inv h
        obtain ⟨y, g7, _, h⟩ := Parser.bind_inv h
        exact fin y g7 h
      · rw [if_neg hf1] at h
        obtain ⟨y, g5, e5, _⟩ := Parser.bind_inv h
        exact absurd e5 (by simp [Parser.fail])

theorem poke_length {buf out : List Byte} {k : Nat} {b : Byte}
    (h : poke buf k b = .ok out) : out.length = buf.length := by
  unfold poke at h
  split at h
  · simp only [Except.ok.injEq] at h
    rw [← h, List.length_set]
  · exact absurd h (by simp)

theorem widen_loop_length : ∀ (bs : List Byte) (k : Nat) (buf out : List Byte),
    widen_loop bs k buf = .ok out → out.length = buf.length := by
  intro bs
  induction bs with
  | nil =>
    intro k buf out h
    rw [widen_loop] at h
    simp only [Except.ok.injEq] at h
    rw [h]
  | cons b bs ih =>
    intro k buf out h
    rw [widen_loop] at h
    cases h1 : poke buf k b with
    | error e => rw [h1] at h; exact absurd h (by simp)
    | ok buf1 =>
      rw [h1] at h
      dsimp only at h
      cases h2 : poke buf1 ((k + 1) % 2 ^ 16) 0 with
      | error e => rw [h2] at h; exact absurd h (by simp)
      | ok buf2 =>
        rw [h2] at h
        dsimp only at h
        rw [ih _ _ _ h, poke_length h2, poke_length h1]

theorem find_name_holds {table : Name_table} {id : Nat} {old res : Nat × List Byte}
    (ht : ∀ (i : Nat) (r0 : NameRecord), table.nameRecord[i]? = some r0 →
      (table.names.getD i []).length = r0.length)
    (h : find_name table id old = .ok res) : res.1 ≤ res.2.length := by
  unfold find_name at h
  split at h
  · simp at h
  · simp only [Except.ok.injEq] at h
    subst h
    exact Nat.zero_le _
  · split at h
    · simp at h
    · rename_i r hr
      have hl := ht _ r hr
      split at h
      · dsimp only at h
        split at h
        · simp at h
        · rename_i name hw
          simp only [Except.ok.injEq] at h
          subst h
          rw [widen_loop_length _ _ _ _ hw, List.length_replicate]
      · split at h
        · simp only [Except.ok.injEq] at h
          subst h
          rw [List.length_take, hl, Nat.min_self]
          exact Nat.mod_le _ _
        · simp at h

theorem read_some_opentype_data_buffers {file : List Byte} {h0 h : EOT_header}
    (hr : read_some_opentype_data file h0 = .ok (some h)) :
    h.FontPANOSE.length = 10 ∧ h.FamilyNameSize ≤ h.FamilyName.length ∧
    h.StyleNameSize ≤ h.StyleName.length ∧ h.VersionNameSize ≤ h.VersionName.length ∧
    h.FullNameSize ≤ h.FullName.length ∧ h.RootString = h0.RootString ∧
    h.Signature = h0.Signature ∧ h.EUDCFontData = h0.EUDCFontData ∧
    h.RootStringCheckSum = h0.RootStringCheckSum := by
  unfold read_some_opentype_data at hr
  split at hr
  · simp at hr
  · rename_i os2 name head rest htab
    obtain ⟨sfnt, r0, r1, r2, _, e1, e2, _⟩ := read_font_tables_inv htab
    have ht := read_name_table_names e2
    obtain ⟨entry, _, _, _, _, _, _, _, _, _, _, _, _, _, hpan⟩ := read_OS2_table_inv e1
    cases hfam : find_name name 1 (h0.FamilyNameSize, h0.FamilyName) with
    | error e => simp [hfam, bind, Except.bind] at hr
    | ok fam =>
      simp only [hfam, bind, Except.bind] at hr
      cases hsty : find_name name 2 (h0.StyleNameSize, h0.StyleName) with
      | error e => simp [hsty] at hr
      | ok sty =>
        simp only [hsty] at hr
        cases hver : find_name name 5 (h0.VersionNameSize, h0.VersionName) with
        | error e => simp [hver] at hr
        | ok ver =>
          simp only [hver] at hr
          cases hfull : find_name name 4 (h0.FullNameSize, h0.FullName) with
          | error e => simp [hfull] at hr
          | ok full =>
            simp only [hfull] at hr
            split at hr
            · simp [pure, Except.pure] at hr
            · simp only [pure, Except.pure, Except.ok.injEq, Option.some.injEq] at hr
              subst hr
              refine ⟨?_, find_name_holds ht hfam, find_name_holds ht hsty,
                find_name_holds ht hver, find_name_holds ht hfull, rfl, rfl, rfl, rfl⟩
              exact hpan

theorem add_rootstring_loop_length : ∀ (url : List Byte) (j : Nat) (buf : List Byte),
    (add_rootstring_loop url j buf).2.length = buf.length := by
  intro url
  induction url with
  | nil => intro j buf; rfl
  | cons c url ih =>
    intro j buf
    rw [add_rootstring_loop, ih, List.length_set, List.length_set]

theorem add_rootstring_holds (u : List Byte) (h : EOT_header) :
    (add_rootstring u h).RootStringSize ≤ (add_rootstring u h).RootString.length := by
  show (h.RootStringSize + (2 * u.length + 2) % 2 ^ 32) % 2 ^ 16 ≤
    (((add_rootstring_loop u h.RootStringSize
      (realloc h.RootString ((h.RootStringSize + (2 * u.length + 2) % 2 ^ 32) % 2 ^ 32))).2.set
        _ 0).set _ 0).length
  rw [List.length_set, List.length_set, add_rootstring_loop_length, length_realloc]
  omega

theorem add_rootstring_BuffersHold (u : List Byte) (h : EOT_header) (hb : BuffersHold h) :
    BuffersHold (add_rootstring u h) :=
  ⟨hb.FontPANOSE, hb.FamilyName, hb.StyleName, hb.VersionName, hb.FullName,
    add_rootstring_holds u h, hb.Signature, hb.EUDCFontData⟩

theorem add_rootstring_foldl_BuffersHold (urls : List (List Byte)) (h : EOT_header)
    (hb : BuffersHold h) : BuffersHold (urls.foldl (fun h url => add_rootstring url h) h) := by
  induction urls generalizing h with
  | nil => exact hb
  | cons u us ih => exact ih (add_rootstring u h) (add_rootstring_BuffersHold u h hb)

theorem main_header_BuffersHold {file : List Byte} {urls : List (List Byte)} {h : EOT_header}
    (hb : main_header file urls = .ok h) : BuffersHold h := by
  obtain ⟨h1, hread, rfl⟩ := main_header_ok hb
  obtain ⟨_, _, _, _, _, _, _, _, _, _, _, _, hRS, hSig, hEU, _⟩ :=
    read_some_opentype_data_ok hread
  obtain ⟨hp, hfam, hsty, hver, hfull, _⟩ := read_some_opentype_data_buffers hread
  apply add_rootstring_foldl_BuffersHold
  exact ⟨hp, hfam, hsty, hver, hfull, by rw [hRS]; exact Nat.zero_le _,
    by rw [hSig]; exact Nat.zero_le _, by rw [hEU]; exact Nat.zero_le _⟩

theorem written_sizes (h : EOT_header) (hv : h.Version = 0x00020002) (hb : BuffersHold h) :
    ∃ out, write_EOT_header h = some out ∧
      u32le_at out 0 = h.EOTSize % 2 ^ 32 ∧
      out.length = 120 + h.FamilyNameSize + h.StyleNameSize + h.VersionNameSize +
        h.FullNameSize + h.RootStringSize + h.SignatureSize + h.EUDCFontSize ∧
      u16le_at out (98 + h.FamilyNameSize + h.StyleNameSize + h.VersionNameSize +
        h.FullNameSize) = h.RootStringSize % 2 ^ 16 ∧
      u32le_at out (100 + h.FamilyNameSize + h.StyleNameSize + h.VersionNameSize +
        h.FullNameSize + h.RootStringSize) = h.RootStringCheckSum % 2 ^ 32 := by
  have hfix := length_write_EOT_header_fixed h (by rw [hb.FontPANOSE]) hb.FamilyName
    hb.StyleName hb.VersionName hb.FullName
  refine ⟨_, write_EOT_header_v2 _ hv, ?_, ?_, ?_, ?_⟩
  · exact u32le_at_of_split [] _ h.EOTSize
      (by simp only [write_EOT_header_fixed, List.append_assoc, List.nil_append]; rfl) rfl
  · simp only [List.length_append, length_write_4le, length_write_2le, hfix,
      length_fwrite hb.RootString, length_fwrite hb.Signature, length_fwrite hb.EUDCFontData]
    omega
  · exact u16le_at_of_split (write_EOT_header_fixed h ++ write_2le h.Padding5) _
      h.RootStringSize (by simp only [List.append_assoc]; rfl)
      (by rw [List.length_append, hfix, length_write_2le]; omega)
  · exact u32le_at_of_split (write_EOT_header_fixed h ++ write_2le h.Padding5 ++
        write_2le h.RootStringSize ++ fwrite h.RootString h.RootStringSize) _
      h.RootStringCheckSum (by simp only [List.append_assoc]; rfl)
      (by simp only [List.length_append, hfix, length_write_2le, length_fwrite hb.RootString]
          omega)

theorem main_header_EOTSize {file : List Byte} {urls : List (List Byte)} {h : EOT_header}
    (hb : main_header file urls = .ok h) (hlen : encoded_length urls ≤ 65535) :
    h.EOTSize = 120 + h.FamilyNameSize + h.StyleNameSize + h.VersionNameSize + h.FullNameSize +
      h.RootStringSize + h.SignatureSize + h.EUDCFontSize + file.length ∧
    h.EOTSize < 2 ^ 32 ∧ h.RootStringSize = encoded_length urls := by
  obtain ⟨h1, hread, rfl⟩ := main_header_ok hb
  obtain ⟨_, _, _, _, _, _, _, _, _, _, _, _, hRS, hSig, hEU, hFD, hsize, hfam, hsty, hver,
    hfull, hE⟩ := read_some_opentype_data_ok hread
  have hRS0 : h1.RootStringSize = 0 := hRS
  have hSig0 : h1.SignatureSize = 0 := hSig
  have hEU0 : h1.EUDCFontSize = 0 := hEU
  have hE0 : h1.EOTSize = 120 + h1.FamilyNameSize + h1.StyleNameSize + h1.VersionNameSize +
      h1.FullNameSize + h1.FontDataSize := by
    rw [hE, hFD]
    show (((((120 + _) % _ + _) % _ + _) % _ + _) % _ + _) % _ = _
    omega
  obtain ⟨gR, gE⟩ := add_rootstring_foldl urls h1 (by omega) (by omega)
  obtain ⟨⟨_, _, _, _, _, _, _, _, _, _, _, _, fSig, fEU⟩, fFD, fFam, fSty, fVer, fFull⟩ :=
    add_rootstring_foldl_frame urls h1
  rw [gE, gR, fSig, fEU, fFam, fSty, fVer, fFull, hE0, hRS0, hSig0, hEU0, hFD]
  omega

theorem main_written {file : List Byte} {urls : List (List Byte)} {h : EOT_header}
    {out : List Byte} (hb : main_header file urls = .ok h)
    (hw : write_EOT_header h = some out) :
    ∀ res, main file urls = .ok res → res = out ++ file := by
  intro res hm
  unfold main at hm
  rw [hb] at hm
  dsimp only at hm
  split at hm
  · exact absurd hm (by simp)
  · split at hm
    · exact absurd hm (by simp)
    · rw [hw] at hm
      simp only [Except.ok.injEq] at hm
      exact hm.symm

/-- The sizes written while the root string fits its size field. For every font on which
extraction succeeds and every list of URL arguments whose encoded lengths 2*len(url)+2 add
up to at most 65535 (the range of the 16-bit RootStringSize field), the EOTSize written in the first four bytes of the output
equals the total number of bytes the writer emits (serialised header plus font bytes), and
the RootStringSize field written equals the accumulated sum of 2*len(url)+2. -/
theorem output_sizes_within_range (file : List Byte) (urls : List (List Byte))
    (h : EOT_header) (hb : main_header file urls = .ok h)
    (hlen : encoded_length urls ≤ 65535) :
    ∃ out, write_EOT_header h = some out ∧
      (∀ res, main file urls = .ok res → res = out ++ file) ∧
      u32le_at out 0 = (out ++ file).length ∧
      u16le_at out (98 + h.FamilyNameSize + h.StyleNameSize + h.VersionNameSize +
        h.FullNameSize) = encoded_length urls := by
  obtain ⟨hE, hElt, hR⟩ := main_header_EOTSize hb hlen
  obtain ⟨out, hw, w0, wl, wr, _⟩ :=
    written_sizes h (main_header_Version hb) (main_header_BuffersHold hb)
  refine ⟨out, hw, main_written hb hw, ?_, ?_⟩
  · rw [w0, Nat.mod_eq_of_lt hElt, List.length_append, wl, hE]
  · rw [wr, hR]
    exact Nat.mod_eq_of_lt (by omega)

set_option maxRecDepth 100000 in
/-- The sizes written for `sample_font` and the URL "a/" (encoded length 6). -/
theorem output_sizes_within_range_witness :
    encoded_length sample_urls = 6 ∧
    ∃ h out, main_header sample_font sample_urls = .ok h ∧ write_EOT_header h = some out ∧
      main sample_font sample_urls = .ok (out ++ sample_font) ∧
      u32le_at out 0 = (out ++ sample_font).length ∧
      u16le_at out (98 + h.FamilyNameSize + h.StyleNameSize + h.VersionNameSize +
        h.FullNameSize) = encoded_length sample_urls := by
  refine ⟨by decide, ?_⟩
  obtain ⟨out, hw, hm, h0, hr⟩ :=
    output_sizes_within_range sample_font sample_urls _ rfl (by decide)
  obtain ⟨res, hres⟩ : ∃ res, main sample_font sample_urls = .ok res := ⟨_, rfl⟩
  rw [hm res hres] at hres
  exact ⟨_, out, rfl, hw, hres, h0, hr⟩

set_option maxRecDepth 100000 in
theorem sample_font_extracted :
    ∃ h1, read_some_opentype_data sample_font initialize_EOT_header = .ok (some h1) ∧
      h1.EOTSize = 424 ∧ h1.RootStringSize = 0 ∧ h1.FamilyNameSize = 8 ∧
      h1.StyleNameSize = 0 ∧ h1.VersionNameSize = 0 ∧ h1.FullNameSize = 24 ∧
      h1.SignatureSize = 0 ∧ h1.EUDCFontSize = 0 ∧ h1.fsType = 0 ∧
      h1.RootString = [] ∧ h1.RootStringCheckSum = 0 ∧ sample_font.length = 272 :=
  ⟨_, rfl, rfl, rfl, rfl, rfl, rfl, rfl, rfl, rfl, rfl, rfl, rfl, rfl⟩

theorem add_rootstring_fields (u : List Byte) (h : EOT_header) :
    (add_rootstring u h).EOTSize = (h.EOTSize + (2 * u.length + 2) % 2 ^ 32) % 2 ^ 32 ∧
    (add_rootstring u h).RootStringSize =
      (h.RootStringSize + (2 * u.length + 2) % 2 ^ 32) % 2 ^ 16 ∧
    (add_rootstring u h).FamilyNameSize = h.FamilyNameSize ∧
    (add_rootstring u h).StyleNameSize = h.StyleNameSize ∧
    (add_rootstring u h).VersionNameSize = h.VersionNameSize ∧
    (add_rootstring u h).FullNameSize = h.FullNameSize ∧
    (add_rootstring u h).SignatureSize = h.SignatureSize ∧
    (add_rootstring u h).EUDCFontSize = h.EUDCFontSize ∧
    (add_rootstring u h).fsType = h.fsType :=
  ⟨rfl, rfl, rfl, rfl, rfl, rfl, rfl, rfl, rfl⟩

/-- C31 (not met by the code). `add_rootstring` adds the encoded length of a URL to the
16-bit RootStringSize and to EOTSize with no check that the first still fits. For
`sample_font` (272 bytes) and one URL of 32767 characters the accumulated sum of
2*len(url)+2 is 65536: the run succeeds, the RootStringSize field written (offset 130) is 0
and not the sum, the writer emits 424 bytes (the root string is left out), and the EOTSize
written in the first four bytes is 65960, not the number of bytes emitted. -/
theorem rootstring_size_wraps :
    encoded_length long_urls = 65536 ∧
    ∃ h out, main_header sample_font long_urls = .ok h ∧ write_EOT_header h = some out ∧
      main sample_font long_urls = .ok (out ++ sample_font) ∧
      u32le_at out 0 = 65960 ∧ (out ++ sample_font).length = 424 ∧
      u16le_at out 130 = 0 := by
  obtain ⟨u, hl, hu⟩ : ∃ u : List Byte, long_urls = [u] ∧ u.length = 32767 :=
    ⟨_, rfl, List.length_replicate _ _⟩
  rw [hl]
  have hel : encoded_length [u] = 65536 := by
    show ([2 * u.length + 2] : List Nat).sum = 65536
    rw [hu]
    rfl
  refine ⟨hel, ?_⟩
  obtain ⟨h1, hread, hE, hR, hfam, hsty, hver, hfull, hsig, heu, hfs, _, _, hfile⟩ :=
    sample_font_extracted
  have hmh : main_header sample_font [u] = .ok (add_rootstring u h1) := by
    unfold main_header
    rw [hread]
    rfl
  obtain ⟨out, hw, w0, wl, wr, _⟩ :=
    written_sizes _ (main_header_Version hmh) (main_header_BuffersHold hmh)
  obtain ⟨eE, eR, efam, esty, ever, efull, esig, eeu, efs⟩ := add_rootstring_fields u h1
  rw [hu, hE] at eE
  rw [hu, hR] at eR
  rw [hfam] at efam
  rw [hsty] at esty
  rw [hver] at ever
  rw [hfull] at efull
  rw [hsig] at esig
  rw [heu] at eeu
  rw [hfs] at efs
  rw [efam, esty, ever, efull] at wr
  rw [efam, esty, ever, efull, esig, eeu, eR] at wl
  have hmain : main sample_font [u] = .ok (out ++ sample_font) := by
    unfold main
    rw [hmh]
    dsimp only
    rw [efs, if_neg (by decide), if_neg (by decide), hw]
  refine ⟨_, out, hmh, hw, hmain, ?_, ?_, ?_⟩
  · rw [w0, eE]
    norm_num
  · rw [List.length_append, wl, hfile]
    norm_num
  · rw [wr, eR]
    norm_num

set_option maxRecDepth 100000 in
/-- C32 (not met by the code). After at least one `add_rootstring` the RootStringCheckSum
field is `get_byte_checksum(RootString, RootStringSize)`, but `initialize_EOT_header` sets
it to 0 and nothing recomputes it in a run with no URL: for `sample_font` and no URL the
header serialised has an empty root string and RootStringCheckSum 0 (the four bytes at
offset 132 of the output), while `get_byte_checksum` of the empty root string is
0x50475342. -/
theorem checksum_unset_without_urls :
    (∀ (u : List Byte) (urls : List (List Byte)) (h : EOT_header),
      ((u :: urls).foldl (fun h url => add_rootstring url h) h).RootStringCheckSum =
        get_byte_checksum ((u :: urls).foldl (fun h url => add_rootstring url h) h).RootString
          ((u :: urls).foldl (fun h url => add_rootstring url h) h).RootStringSize) ∧
    initialize_EOT_header.RootStringCheckSum = 0 ∧
    ∃ h out, main_header sample_font [] = .ok h ∧ write_EOT_header h = some out ∧
      main sample_font [] = .ok (out ++ sample_font) ∧
      h.RootStringSize = 0 ∧ h.RootString = [] ∧ h.RootStringCheckSum = 0 ∧
      get_byte_checksum h.RootString h.RootStringSize = 0x50475342 ∧
      u32le_at out 132 = 0 :=
  ⟨fun u urls h => add_rootstring_foldl_checksum (u :: urls) h (List.cons_ne_nil u urls), rfl,
   _, _, rfl, rfl, rfl, rfl, rfl, rfl, rfl, rfl⟩

end EOT
